import Mathlib

/-!
Image layout of `video_core/texture_cache/image_info.cpp`

A shallow embedding of the size functions, the mip chain builder
(`ImageInfo::UpdateSize`) and the aliasing queries (`ImageInfo::IsMipOf`,
`ImageInfo::IsSliceOf`), followed by theorems about them.

Conventions of the embedding.
* A `u32` / `u64` / `size_t` value is a `Nat`; every operation that wraps in the
  source is followed by an explicit reduction modulo `2^32` or `2^64`.
* A function that can hit `ASSERT` / `UNREACHABLE`, or an operation without a
  defined result (division by zero, out-of-bounds `operator[]`, `std::bit_ceil`
  of a value above `2^31`, `std::log2(0)` used as an index), returns `Except Fault _`.
* `x >> n` on a 32-bit `x` has no defined result for `n ≥ 32`: the functions that
  shift by a mip index return `Fault.undefined` there, and `x >>> n` on `Nat` below 32.
* The two `while` loops run on fuel `2^32`, the number of distinct `u32` pitches.
-/

namespace VideoCore

/-- Ways in which a call does not return normally. -/
inductive Fault where
  /-- `ASSERT(...)` failed or `UNREACHABLE()` was reached. -/
  | assertion
  /-- An operation without a defined result was executed. -/
  | undefined
  /-- The fuel of a `while` loop ran out. -/
  | diverge
  deriving DecidableEq, Repr

deriving instance DecidableEq for Except

/-- Reduction of a natural number to a `u32`. -/
def u32 (x : Nat) : Nat := x % 4294967296

/-- Reduction of a natural number to a `u64` (`size_t`, `VAddr`). -/
def u64 (x : Nat) : Nat := x % 18446744073709551616

/-- The `u32` complement `~x`. -/
def not32 (x : Nat) : Nat := 4294967295 - x % 4294967296

/-- The `u32` negation `-x`. -/
def neg32 (x : Nat) : Nat := (4294967296 - x % 4294967296) % 4294967296

/-- The expression `(x + align - 1) & ~(align - 1)` on `u32`. -/
def alignUp32 (x align : Nat) : Nat :=
  u32 (x + align - 1) &&& not32 (align - 1)

/-- The conversion of an unsigned value to `int` (modular, two's complement). -/
def toInt32 (x : Nat) : Int :=
  if x % 4294967296 < 2147483648 then ((x % 4294967296 : Nat) : Int)
  else ((x % 4294967296 : Nat) : Int) - 4294967296

/-- The floor of the binary logarithm by repeated halving (`0` at `0` and `1`); the
first argument bounds the number of halvings. -/
def floorLog2Aux : Nat → Nat → Nat
  | 0, _ => 0
  | fuel + 1, n => if 2 ≤ n then floorLog2Aux fuel (n / 2) + 1 else 0

/-- The floor of the binary logarithm of a value below `2^64`. -/
def floorLog2 (n : Nat) : Nat := floorLog2Aux 64 n

/-- The function `std::bit_width`: number of bits needed to write `x`. -/
def bit_width (x : Nat) : Nat := if x = 0 then 0 else floorLog2 x + 1

/-- The function `std::bit_ceil`: the least power of two that is `≥ x`. -/
def bit_ceil (x : Nat) : Nat := if x ≤ 1 then 1 else 2 ^ bit_width (x - 1)

/-- `std::bit_ceil` on `u32`: no defined result when the power of two is not a `u32`. -/
def bit_ceil32 (x : Nat) : Except Fault Nat :=
  if x ≤ 2147483648 then .ok (bit_ceil x) else .error .undefined

/-! ## Tiling geometry tables (lines 51-180) -/

def macro_tile_extents_x1 : List (Nat × Nat) := [
  (256, 128), (256, 128), (256, 128), (256, 128), (256, 128),
  (256, 128), (128, 128), (128, 128), (128, 128), (128, 128),
  (256, 128), (128, 128), (128, 64), (128, 64), (128, 64),
  (256, 128), (128, 128), (128, 64), (128, 64), (128, 64),
  (256, 128), (128, 128), (128, 64), (128, 64), (64, 64),
  (0, 0), (0, 0), (0, 0), (0, 0), (0, 0),
  (256, 256), (256, 128), (128, 128), (128, 128), (128, 128),
  (256, 256), (256, 128), (128, 128), (128, 64), (64, 64),
  (0, 0), (0, 0), (0, 0), (0, 0), (0, 0),
  (0, 0), (0, 0), (0, 0), (0, 0), (0, 0),
  (256, 128), (128, 128), (128, 64), (128, 64), (64, 64),
  (256, 256), (256, 128), (128, 128), (128, 64), (64, 64),
  (256, 256), (256, 128), (128, 128), (128, 64), (128, 64),
  (0, 0), (0, 0), (0, 0), (0, 0), (0, 0),
  (256, 128), (128, 128), (128, 64), (128, 64), (64, 64),
  (256, 128), (128, 128), (128, 64), (128, 64), (64, 64),
  (256, 256), (256, 128), (128, 128), (128, 64), (64, 64),
  (256, 256), (256, 128), (128, 128), (128, 64), (64, 64),
  (256, 256), (256, 128), (128, 128), (128, 64), (64, 64),
  (0, 0), (0, 0), (0, 0), (0, 0), (0, 0),
  (128, 64), (128, 64), (64, 64), (64, 64), (64, 64),
  (128, 64), (128, 64), (64, 64), (64, 64), (64, 64),
  (128, 128), (128, 64), (64, 64), (64, 64), (64, 64),
  (128, 128), (128, 64), (64, 64), (64, 64), (64, 64),
  (128, 128), (128, 64), (64, 64), (64, 64), (64, 64),
  (128, 64), (64, 64), (64, 64), (64, 64), (64, 64),
  (128, 64), (64, 64), (64, 64), (64, 64), (64, 64)]

def macro_tile_extents_x2 : List (Nat × Nat) := [
  (256, 128), (256, 128), (256, 128), (256, 128), (256, 128),
  (128, 128), (128, 128), (128, 128), (128, 128), (128, 128),
  (128, 128), (128, 64), (128, 64), (128, 64), (128, 64),
  (128, 128), (128, 64), (128, 64), (128, 64), (128, 64),
  (128, 128), (128, 64), (128, 64), (64, 64), (64, 64),
  (0, 0), (0, 0), (0, 0), (0, 0), (0, 0),
  (256, 128), (128, 128), (128, 128), (128, 128), (128, 128),
  (256, 128), (128, 128), (128, 64), (64, 64), (64, 64),
  (0, 0), (0, 0), (0, 0), (0, 0), (0, 0),
  (0, 0), (0, 0), (0, 0), (0, 0), (0, 0),
  (128, 128), (128, 64), (128, 64), (64, 64), (64, 64),
  (256, 128), (128, 128), (128, 64), (64, 64), (64, 64),
  (256, 128), (128, 128), (128, 64), (64, 64), (64, 64),
  (0, 0), (0, 0), (0, 0), (0, 0), (0, 0),
  (128, 128), (128, 64), (128, 64), (64, 64), (64, 64),
  (128, 128), (128, 64), (128, 64), (64, 64), (64, 64),
  (256, 128), (128, 128), (128, 64), (64, 64), (64, 64),
  (256, 128), (128, 128), (128, 64), (64, 64), (64, 64),
  (256, 128), (128, 128), (128, 64), (64, 64), (64, 64),
  (0, 0), (0, 0), (0, 0), (0, 0), (0, 0),
  (128, 64), (128, 64), (64, 64), (64, 64), (64, 64),
  (128, 64), (128, 64), (64, 64), (64, 64), (64, 64),
  (128, 128), (128, 64), (64, 64), (64, 64), (64, 64),
  (128, 128), (128, 64), (64, 64), (64, 64), (64, 64),
  (128, 128), (128, 64), (64, 64), (64, 64), (64, 64),
  (128, 64), (64, 64), (64, 64), (64, 64), (64, 64),
  (128, 64), (64, 64), (64, 64), (64, 64), (64, 64)]

def macro_tile_extents_x4 : List (Nat × Nat) := [
  (256, 128), (256, 128), (256, 128), (256, 128), (256, 128),
  (128, 128), (128, 128), (128, 128), (128, 128), (128, 128),
  (128, 64), (128, 64), (128, 64), (128, 64), (128, 64),
  (128, 64), (128, 64), (128, 64), (128, 64), (128, 64),
  (128, 64), (128, 64), (64, 64), (64, 64), (64, 64),
  (0, 0), (0, 0), (0, 0), (0, 0), (0, 0),
  (128, 128), (128, 128), (128, 128), (128, 128), (128, 128),
  (128, 128), (128, 64), (64, 64), (64, 64), (64, 64),
  (0, 0), (0, 0), (0, 0), (0, 0), (0, 0),
  (0, 0), (0, 0), (0, 0), (0, 0), (0, 0),
  (128, 64), (128, 64), (128, 64), (64, 64), (64, 64),
  (128, 128), (128, 128), (128, 64), (64, 64), (64, 64),
  (128, 128), (128, 128), (128, 64), (64, 64), (64, 64),
  (0, 0), (0, 0), (0, 0), (0, 0), (0, 0),
  (128, 64), (128, 64), (128, 64), (64, 64), (64, 64),
  (128, 64), (128, 64), (128, 64), (64, 64), (64, 64),
  (128, 128), (128, 128), (128, 64), (64, 64), (64, 64),
  (128, 128), (128, 128), (128, 64), (64, 64), (64, 64),
  (128, 128), (128, 128), (128, 64), (64, 64), (64, 64),
  (0, 0), (0, 0), (0, 0), (0, 0), (0, 0),
  (128, 64), (128, 64), (64, 64), (64, 64), (64, 64),
  (128, 64), (128, 64), (64, 64), (64, 64), (64, 64),
  (128, 128), (128, 64), (64, 64), (64, 64), (64, 64),
  (128, 128), (128, 64), (64, 64), (64, 64), (64, 64),
  (128, 128), (128, 64), (64, 64), (64, 64), (64, 64),
  (128, 64), (64, 64), (64, 64), (64, 64), (64, 64),
  (128, 64), (64, 64), (64, 64), (64, 64), (64, 64)]

def macro_tile_extents_x8 : List (Nat × Nat) := [
  (256, 128), (256, 128), (256, 128), (256, 128), (256, 128),
  (128, 128), (128, 128), (128, 128), (128, 128), (128, 128),
  (128, 64), (128, 64), (128, 64), (128, 64), (128, 64),
  (128, 64), (128, 64), (128, 64), (128, 64), (128, 64),
  (128, 64), (64, 64), (64, 64), (64, 64), (64, 64),
  (0, 0), (0, 0), (0, 0), (0, 0), (0, 0),
  (128, 128), (128, 128), (128, 128), (128, 128), (128, 128),
  (128, 64), (64, 64), (64, 64), (64, 64), (64, 64),
  (0, 0), (0, 0), (0, 0), (0, 0), (0, 0),
  (0, 0), (0, 0), (0, 0), (0, 0), (0, 0),
  (128, 64), (128, 64), (128, 64), (64, 64), (64, 64),
  (128, 128), (128, 128), (128, 64), (64, 64), (64, 64),
  (128, 128), (128, 128), (128, 64), (64, 64), (64, 64),
  (0, 0), (0, 0), (0, 0), (0, 0), (0, 0),
  (128, 64), (128, 64), (128, 64), (64, 64), (64, 64),
  (128, 64), (128, 64), (128, 64), (64, 64), (64, 64),
  (128, 128), (128, 128), (128, 64), (64, 64), (64, 64),
  (128, 128), (128, 128), (128, 64), (64, 64), (64, 64),
  (128, 128), (128, 128), (128, 64), (64, 64), (64, 64),
  (0, 0), (0, 0), (0, 0), (0, 0), (0, 0),
  (128, 64), (128, 64), (64, 64), (64, 64), (64, 64),
  (128, 64), (128, 64), (64, 64), (64, 64), (64, 64),
  (128, 128), (128, 64), (64, 64), (64, 64), (64, 64),
  (128, 128), (128, 64), (64, 64), (64, 64), (64, 64),
  (128, 128), (128, 64), (64, 64), (64, 64), (64, 64),
  (128, 64), (64, 64), (64, 64), (64, 64), (64, 64),
  (128, 64), (64, 64), (64, 64), (64, 64), (64, 64)]

/-- The array `macro_tile_extents`: one table per sample-count class. -/
def macro_tile_extents : List (List (Nat × Nat)) :=
  [macro_tile_extents_x1, macro_tile_extents_x2, macro_tile_extents_x4, macro_tile_extents_x8]

/-- The constant `micro_tile_extent`. -/
def micro_tile_extent : Nat × Nat := (8, 8)

/-- The constant `hw_pipe_interleave`. -/
def hw_pipe_interleave : Nat := 256

/-- Fuel of the two pitch-growth loops. -/
def loopFuel : Nat := 4294967296

/-- `GetMacroTileExtents` (lines 182-187). `column` is an `int`, `row + column` is
computed on `u32`; `std::log2(num_samples)` is a `double` truncated to an index,
which is `floorLog2 num_samples` for `1 ≤ num_samples ≤ 8`. -/
def GetMacroTileExtents (tiling_idx bpp num_samples : Nat) : Except Fault (Nat × Nat) :=
  if num_samples ≤ 8 then
    let row := u32 (tiling_idx * 5)
    let index := u32 (row + bit_width bpp + (4294967296 - 4))
    if num_samples = 0 then .error .undefined
    else
      match macro_tile_extents[floorLog2 num_samples]? with
      | none => .error .undefined
      | some table =>
        match table[index]? with
        | none => .error .undefined
        | some cell => .ok cell
  else .error .assertion

/-- The `while` loop of `ImageSizeLinearAligned` (lines 196-199), started at the
test of its condition; returns the final `(pitch_aligned, log_sz)`. -/
def LinearLoop (pitch_align height num_samples slice_align : Nat) :
    Nat → Nat → Option (Nat × Nat)
  | 0, _ => none
  | fuel + 1, pitch_aligned =>
    let log_sz := u32 (pitch_aligned * height * num_samples)
    if log_sz % slice_align = 0 then some (pitch_aligned, log_sz)
    else LinearLoop pitch_align height num_samples slice_align fuel
      (u32 (pitch_aligned + pitch_align))

/-- `ImageSizeLinearAligned` (lines 189-201). -/
def ImageSizeLinearAligned (pitch height bpp num_samples : Nat) : Except Fault (Nat × Nat) :=
  let bytes := u32 (bpp + 7) / 8
  if bytes = 0 then .error .undefined
  else
    let pitch_align := max 8 (64 / bytes)
    let pitch_aligned := alignUp32 pitch pitch_align
    let height_aligned := height
    let slice_align := max 64 (256 / bytes)
    match LinearLoop pitch_align height_aligned num_samples slice_align loopFuel pitch_aligned with
    | none => .error .diverge
    | some (p, log_sz) => .ok (p, u64 (log_sz * bpp + 7) / 8)

/-- The `while` loop of `ImageSizeMicroTiled` (lines 209-212), started at the test
of its condition; returns the final `(pitch_aligned, log_sz)`. -/
def MicroLoop (height_aligned bpp num_samples : Nat) : Nat → Nat → Option (Nat × Nat)
  | 0, _ => none
  | fuel + 1, pitch_aligned =>
    let log_sz := u32 (pitch_aligned * height_aligned * bpp * num_samples + 7) / 8
    if log_sz % 256 = 0 then some (pitch_aligned, log_sz)
    else MicroLoop height_aligned bpp num_samples fuel (u32 (pitch_aligned + 8))

/-- `ImageSizeMicroTiled` (lines 203-214). -/
def ImageSizeMicroTiled (pitch height bpp num_samples : Nat) : Except Fault (Nat × Nat) :=
  let pitch_align := micro_tile_extent.1
  let height_align := micro_tile_extent.2
  let pitch_aligned := alignUp32 pitch pitch_align
  let height_aligned := alignUp32 height height_align
  match MicroLoop height_aligned bpp num_samples loopFuel pitch_aligned with
  | none => .error .diverge
  | some (p, log_sz) => .ok (p, log_sz)

/-- Lines 219-220 of `ImageSizeMacroTiled`: the call of `GetMacroTileExtents` and
`ASSERT(pitch_align != 0 && height_align != 0)`. -/
def MacroTileLookup (tiling_idx bpp num_samples : Nat) : Except Fault (Nat × Nat) :=
  match GetMacroTileExtents tiling_idx bpp num_samples with
  | .error e => .error e
  | .ok (pitch_align, height_align) =>
    if pitch_align ≠ 0 ∧ height_align ≠ 0 then .ok (pitch_align, height_align)
    else .error .assertion

/-- `ImageSizeMacroTiled` (lines 216-236), after the lookup of lines 219-220. Here `log_sz` is `auto`, hence a `u32`,
and `(log_sz * bpp + 7) / 8` is computed on `u32`. -/
def ImageSizeMacroTiled (pitch height bpp num_samples tiling_idx mip_n : Nat) :
    Except Fault (Nat × Nat) :=
  match MacroTileLookup tiling_idx bpp num_samples with
  | .error e => .error e
  | .ok (pitch_align, height_align) =>
    let downgrade_to_micro : Bool :=
      if mip_n > 0 then decide (pitch < pitch_align ∨ height < height_align) else false
    if downgrade_to_micro then ImageSizeMicroTiled pitch height bpp num_samples
    else
      let pitch_aligned := alignUp32 pitch pitch_align
      let height_aligned := alignUp32 height height_align
      let log_sz := u32 (pitch_aligned * height_aligned * num_samples)
      .ok (pitch_aligned, u32 (log_sz * bpp + 7) / 8)

/-! ## The image descriptor -/

/-- The enumeration `vk::ImageType`. -/
inductive ImageType where
  | e1D
  | e2D
  | e3D
  deriving DecidableEq, Repr

/-- The enumeration `AmdGpu::TilingMode`: the six values named by `UpdateSize`, and
`Unhandled` for every other value (the `default:` branch of its `switch`). -/
inductive TilingMode where
  | Depth_MacroTiled
  | Display_Linear
  | Display_MacroTiled
  | Texture_MicroTiled
  | Texture_MacroTiled
  | Texture_Volume
  | Unhandled
  deriving DecidableEq, Repr

/-- The struct `MipInfo`. Its declaration is in `image_info.h`; the field order
`size, pitch, height, offset` is the one `emplace_back(guest_size, pitch, 0)` relies
on, and every field is a `u32`. -/
structure MipInfo where
  size : Nat := 0
  pitch : Nat := 0
  height : Nat := 0
  offset : Nat := 0
  deriving DecidableEq, Repr

/-- The bit-field struct `props`. -/
structure Props where
  is_cube : Bool := false
  is_volume : Bool := false
  is_tiled : Bool := false
  is_pow2 : Bool := false
  is_block : Bool := false
  deriving DecidableEq, Repr

/-- The struct `SubresourceExtent`. -/
structure SubresourceExtent where
  levels : Nat := 1
  layers : Nat := 1
  deriving DecidableEq, Repr

/-- The struct `Extent3D`. -/
structure Extent3D where
  width : Nat := 1
  height : Nat := 1
  depth : Nat := 1
  deriving DecidableEq, Repr

/-- The struct `meta_info`. -/
structure MetaInfo where
  cmask_addr : Nat := 0
  fmask_addr : Nat := 0
  htile_addr : Nat := 0
  deriving DecidableEq, Repr

/-- The struct `ImageInfo`. Its declaration is in `image_info.h`; the fields are the
ones the source file reads and writes. `guest_address`, `stencil_addr` and the
`meta_info` addresses are `VAddr` (`u64`), every other number is a `u32`;
`pixel_format` is the numeric value of the `vk::Format`. -/
structure ImageInfo where
  meta_info : MetaInfo := {}
  props : Props := {}
  pixel_format : Nat := 0
  type : ImageType := .e1D
  resources : SubresourceExtent := {}
  size : Extent3D := {}
  num_bits : Nat := 0
  num_samples : Nat := 1
  pitch : Nat := 0
  tiling_mode : TilingMode := .Display_Linear
  mips_layout : List MipInfo := []
  guest_address : Nat := 0
  guest_size : Nat := 0
  tiling_idx : Nat := 0
  stencil_addr : Nat := 0
  stencil_size : Nat := 0
  deriving DecidableEq, Repr

/-! ## The mip chain builder (lines 340-401) -/

/-- The working values of one mip level after lines 345-361. -/
structure MipDims where
  bpp : Nat
  mip_w : Nat
  mip_h : Nat
  mip_d : Nat
  deriving DecidableEq, Repr

/-- Lines 345-361 of `UpdateSize`: the working bits per unit, width, height and
depth of level `mip`. The shifts `pitch >> mip`, `size.height >> mip` and
`size.depth >> mip` of 32-bit values have no defined result for `mip ≥ 32`. -/
def UpdateSize.dims (info : ImageInfo) (mip : Nat) : Except Fault MipDims :=
  if 32 ≤ mip then .error .undefined
  else
    let bpp := info.num_bits
    let mip_w := info.pitch >>> mip
    let mip_h := info.size.height >>> mip
    let mip_w := if info.props.is_block then u32 (mip_w + 3) / 4 else mip_w
    let mip_h := if info.props.is_block then u32 (mip_h + 3) / 4 else mip_h
    let bpp := if info.props.is_block then u32 (bpp * 16) else bpp
    let mip_w := max mip_w 1
    let mip_h := max mip_h 1
    let mip_d := max (info.size.depth >>> mip) 1
    if info.props.is_pow2 then
      match bit_ceil32 mip_w, bit_ceil32 mip_h, bit_ceil32 mip_d with
      | .ok w, .ok h, .ok d => .ok ⟨bpp, w, h, d⟩
      | _, _, _ => .error .undefined
    else .ok ⟨bpp, mip_w, mip_h, mip_d⟩

/-- Lines 363-394 of `UpdateSize`: the `switch` on the tiling mode. It assigns
`pitch` and `size` of `mip_info` (and `height`, except in the macro-tiled modes) and
may change `mip_d`; the result is the new `mip_info` and `mip_d`. -/
def UpdateSize.dispatch (info : ImageInfo) (mip : Nat) (mip_info : MipInfo) (dm : MipDims) :
    Except Fault (MipInfo × Nat) :=
  match info.tiling_mode with
  | .Display_Linear =>
    match ImageSizeLinearAligned dm.mip_w dm.mip_h dm.bpp info.num_samples with
    | .error e => .error e
    | .ok (p, sz) => .ok ({ mip_info with pitch := p, size := u32 sz, height := dm.mip_h }, dm.mip_d)
  | .Texture_Volume | .Texture_MicroTiled =>
    let mip_d :=
      if info.tiling_mode = .Texture_Volume then u32 (dm.mip_d + (neg32 dm.mip_d &&& 3))
      else dm.mip_d
    match ImageSizeMicroTiled dm.mip_w dm.mip_h dm.bpp info.num_samples with
    | .error e => .error e
    | .ok (p, sz) =>
      let height := max dm.mip_h 8
      if info.props.is_block then
        .ok ({ mip_info with pitch := max (u32 (p * 4)) 32, size := u32 sz,
                             height := max (u32 (height * 4)) 32 }, mip_d)
      else .ok ({ mip_info with pitch := p, size := u32 sz, height := height }, mip_d)
  | .Display_MacroTiled | .Texture_MacroTiled | .Depth_MacroTiled =>
    if info.props.is_block then .error .assertion
    else
      match ImageSizeMacroTiled dm.mip_w dm.mip_h dm.bpp info.num_samples info.tiling_idx mip with
      | .error e => .error e
      | .ok (p, sz) => .ok ({ mip_info with pitch := p, size := u32 sz }, dm.mip_d)
  | .Unhandled => .error .assertion

/-- The variables that live across iterations of the loop of `UpdateSize`. -/
structure LoopState where
  mip_info : MipInfo := {}
  guest_size : Nat := 0
  mips_layout : List MipInfo := []
  deriving DecidableEq, Repr

/-- One iteration of the loop of `UpdateSize` (lines 345-398) for level `mip`. -/
def UpdateSize.body (info : ImageInfo) (mip : Nat) (st : LoopState) : Except Fault LoopState :=
  match UpdateSize.dims info mip with
  | .error e => .error e
  | .ok dm =>
    match UpdateSize.dispatch info mip st.mip_info dm with
    | .error e => .error e
    | .ok (mip_info, mip_d) =>
      let mip_info := { mip_info with size := u32 (mip_info.size * mip_d) }
      let mip_info := { mip_info with offset := st.guest_size }
      .ok { mip_info := mip_info,
            guest_size := u32 (st.guest_size + mip_info.size),
            mips_layout := st.mips_layout ++ [mip_info] }

/-- The loop of `UpdateSize`: `count` iterations starting at level `mip`. -/
def UpdateSize.loop (info : ImageInfo) : Nat → Nat → LoopState → Except Fault LoopState
  | 0, _, st => .ok st
  | count + 1, mip, st =>
    match UpdateSize.body info mip st with
    | .error e => .error e
    | .ok st1 => UpdateSize.loop info count (mip + 1) st1

/-- `ImageInfo::UpdateSize` (lines 340-401). -/
def UpdateSize (info : ImageInfo) : Except Fault ImageInfo :=
  match UpdateSize.loop info info.resources.levels 0 {} with
  | .error e => .error e
  | .ok st =>
    .ok { info with mips_layout := st.mips_layout,
                    guest_size := u32 (st.guest_size * info.resources.layers) }

/-! ## The aliasing queries (lines 403-484) -/

/-- The scan of `IsMipOf` (lines 422-428): the first index `m`, counted from `idx`,
whose mip starts at `guest_address`. -/
def IsMipOf.find (guest_address base : Nat) : List MipInfo → Nat → Option Nat
  | [], _ => none
  | m :: rest, idx =>
    if guest_address = u64 (base + m.offset) then some idx
    else IsMipOf.find guest_address base rest (idx + 1)

/-- `ImageInfo::IsMipOf` (lines 403-454), `self.IsMipOf(info)`. The predicates
`IsCompatible` and `IsTilingCompatible` are declared in `image_info.h` and are
parameters. The shifts `info.size.width >> mip` (and of the height and depth) of
32-bit values have no defined result for `mip ≥ 32`. -/
def IsMipOf (IsCompatible : ImageInfo → ImageInfo → Bool)
    (IsTilingCompatible : Nat → Nat → Bool) (self info : ImageInfo) : Except Fault Int :=
  if !IsCompatible self info then .ok (-1)
  else if IsTilingCompatible info.tiling_idx self.tiling_idx then .ok (-1)
  else if self.resources.levels ≠ 1 then .ok (-1)
  else if info.mips_layout.isEmpty then .error .assertion
  else
    match IsMipOf.find self.guest_address info.guest_address info.mips_layout 0 with
    | none => .ok (-1)
    | some mip =>
      if mip = 0 then .error .assertion
      else if 32 ≤ mip then .error .undefined
      else
        let mip_w := max (info.size.width >>> mip) 1
        let mip_h := max (info.size.height >>> mip) 1
        if self.size.width ≠ mip_w ∨ self.size.height ≠ mip_h then .ok (-1)
        else
          let mip_d := max (info.size.depth >>> mip) 1
          if info.type = .e3D ∧ self.type = .e2D then
            if self.resources.layers ≠ mip_d then .ok (-1) else .ok (mip : Int)
          else
            if self.type ≠ info.type then .ok (-1) else .ok (mip : Int)

/-- `ImageInfo::IsSliceOf` (lines 456-484), `self.IsSliceOf(info)`. The local
`slice_size` is declared `const bool`; in `guest_size % slice_size` it is promoted
to the integer `1` or `0`. -/
def IsSliceOf (IsCompatible : ImageInfo → ImageInfo → Bool) (self info : ImageInfo) :
    Except Fault Int :=
  if !IsCompatible self info then .ok (-1)
  else if self.type ≠ info.type then .ok (-1)
  else if self.size.width ≠ info.size.width ∨ self.size.height ≠ info.size.height then .ok (-1)
  else if info.resources.layers = 0 then .error .undefined
  else
    let slice_size : Bool := decide (info.guest_size / info.resources.layers ≠ 0)
    let slice_size_int : Nat := if slice_size then 1 else 0
    if slice_size_int = 0 then .error .undefined
    else if self.guest_size % slice_size_int ≠ 0 then .ok (-1)
    else
      let addr_diff := u64 (self.guest_address + 18446744073709551616 - info.guest_address)
      if self.guest_size = 0 then .error .undefined
      else if addr_diff % self.guest_size ≠ 0 then .ok (-1)
      else .ok (toInt32 (addr_diff / self.guest_size))

/-- The ranges of the fields of a descriptor: `VAddr` below `2^64`, every other
number below `2^32`. -/
def ImageInfo.WellTyped (i : ImageInfo) : Prop :=
  i.resources.levels < 4294967296 ∧ i.resources.layers < 4294967296 ∧
  i.size.width < 4294967296 ∧ i.size.height < 4294967296 ∧ i.size.depth < 4294967296 ∧
  i.num_bits < 4294967296 ∧ i.num_samples < 4294967296 ∧ i.pitch < 4294967296 ∧
  i.guest_address < 18446744073709551616 ∧ i.guest_size < 4294967296 ∧
  i.tiling_idx < 4294967296 ∧
  ∀ m ∈ i.mips_layout, m.size < 4294967296 ∧ m.pitch < 4294967296 ∧
    m.height < 4294967296 ∧ m.offset < 4294967296

instance (i : ImageInfo) : Decidable i.WellTyped := by
  unfold ImageInfo.WellTyped; infer_instance

/-- Sum of the recorded mip sizes. -/
def sumSizes : List MipInfo → Nat
  | [] => 0
  | m :: rest => m.size + sumSizes rest

/-- The offsets of `layout` are the running totals, modulo `2^32`, of the sizes,
starting from `start` and ending at `stop`. -/
def Chain : Nat → List MipInfo → Nat → Prop
  | start, [], stop => start = stop
  | start, m :: rest, stop => m.offset = start ∧ Chain (u32 (start + m.size)) rest stop

/-- Entry `m` is what one iteration of `UpdateSize` records for level `mip`: for
some value `prev` of `mip_info` left by the previous iteration, the `switch` yields
`(mi, d)` and `m` is `mi` with its size multiplied by the depth `d`. -/
def Recorded (info : ImageInfo) (mip : Nat) (m : MipInfo) : Prop :=
  ∃ prev dm mi d, UpdateSize.dims info mip = .ok dm ∧
    UpdateSize.dispatch info mip prev dm = .ok (mi, d) ∧
    m.size = u32 (mi.size * d) ∧ m.pitch = mi.pitch ∧ m.height = mi.height

/-- A 64x64 micro-tiled 32-bit texture with four levels and one layer. -/
def sampleMicro : ImageInfo :=
  { type := .e2D, resources := ⟨4, 1⟩, size := ⟨64, 64, 1⟩, num_bits := 32, pitch := 64,
    tiling_mode := .Texture_MicroTiled }

/-- The descriptor `UpdateSize` returns on `sampleMicro`. -/
def sampleMicroBuilt : ImageInfo :=
  { sampleMicro with
    mips_layout := [⟨16384, 64, 64, 0⟩, ⟨4096, 32, 32, 16384⟩, ⟨1024, 16, 16, 20480⟩,
      ⟨256, 8, 8, 21504⟩],
    guest_size := 21760 }

/-- The table cell the specification names for `(tiling_idx, bpp, num_samples)`:
table `log2(num_samples)`, row `tiling_idx`, column `bit_width(bpp) - 4`. -/
def tableCell (tiling_idx bpp num_samples : Nat) : Option (Nat × Nat) :=
  match macro_tile_extents[floorLog2 num_samples]? with
  | none => none
  | some table => table[tiling_idx * 5 + (bit_width bpp - 4)]?

/-- A four-layer image of 4096 bytes at address `0x10000`. -/
def sampleArray : ImageInfo :=
  { type := .e2D, resources := ⟨1, 4⟩, size := ⟨16, 16, 1⟩, num_bits := 32, pitch := 16,
    tiling_mode := .Texture_MicroTiled, mips_layout := [⟨1024, 16, 16, 0⟩],
    guest_address := 65536, guest_size := 4096 }

/-- A 16x16 image with two mip levels and one layer (1024 + 256 bytes), placed 2560
bytes after the start of `sampleArray`. -/
def sampleTwoLevel : ImageInfo :=
  { sampleArray with
    resources := ⟨2, 1⟩,
    mips_layout := [⟨1024, 16, 16, 0⟩, ⟨256, 8, 8, 1024⟩],
    guest_address := 65536 + 2560, guest_size := 1280 }

/-- An image with the extent of `sampleArray`, of `bytes` bytes, placed `delta` bytes
after the start of `sampleArray`. -/
def sampleSlice (bytes delta : Nat) : ImageInfo :=
  { sampleArray with resources := ⟨1, 1⟩, guest_address := 65536 + delta, guest_size := bytes }

/-- A three-level 64x64 image at address `0x20000` with mips at offsets 0, 16384, 20480. -/
def sampleMipped : ImageInfo :=
  { type := .e2D, resources := ⟨3, 1⟩, size := ⟨64, 64, 1⟩, num_bits := 32, pitch := 64,
    tiling_mode := .Texture_MicroTiled, tiling_idx := 13,
    mips_layout := [⟨16384, 64, 64, 0⟩, ⟨4096, 32, 32, 16384⟩, ⟨1024, 16, 16, 20480⟩],
    guest_address := 131072, guest_size := 21504 }

/-- A single-level `width` x `height` image placed `delta` bytes after the start of
`sampleMipped`, with a different tiling index. -/
def sampleView (width height delta : Nat) : ImageInfo :=
  { type := .e2D, resources := ⟨1, 1⟩, size := ⟨width, height, 1⟩, num_bits := 32,
    pitch := width, tiling_mode := .Texture_MicroTiled, tiling_idx := 8,
    mips_layout := [⟨4096, 32, 32, 0⟩], guest_address := 131072 + delta, guest_size := 4096 }

/-! ## The display-buffer constructor (lines 238-263) -/

/-- The enumeration `Libraries::VideoOut::TilingMode`, declared outside this file:
the two values the constructor compares with. -/
inductive VideoOutTilingMode where
  | Tile
  | Linear
  deriving DecidableEq, Repr

/-- The enumeration `Libraries::VideoOut::PixelFormat`, declared outside this file:
the values this file names, and `Other` for every other value. -/
inductive VideoOutFormat where
  | A8R8G8B8Srgb
  | A8B8G8R8Srgb
  | A2R10G10B10
  | A2R10G10B10Srgb
  | A16R16G16B16Float
  | Other
  deriving DecidableEq, Repr

/-- The fields of `BufferAttributeGroup::attrib` the constructor reads. -/
structure BufferAttribute where
  pixel_format : VideoOutFormat
  tiling_mode : VideoOutTilingMode
  width : Nat
  height : Nat
  deriving DecidableEq, Repr

/-- `ConvertPixelFormat` (lines 16-30); the result is the numeric value of the
`vk::Format` (`eB8G8R8A8Srgb` = 50, `eR8G8B8A8Srgb` = 43,
`eA2R10G10B10UnormPack32` = 58). -/
def ConvertPixelFormat (format : VideoOutFormat) : Except Fault Nat :=
  match format with
  | .A8R8G8B8Srgb => .ok 50
  | .A8B8G8R8Srgb => .ok 43
  | .A2R10G10B10 => .ok 58
  | .A2R10G10B10Srgb => .ok 58
  | _ => .error .assertion

/-- The constructor `ImageInfo::ImageInfo(const BufferAttributeGroup&, VAddr)`
(lines 238-263). `neo` is the value of `sceKernelIsNeoMode()`; the fields the
constructor does not assign keep the defaults of the structure `ImageInfo`. The
entry `emplace_back(guest_size, pitch, 0)` has size `guest_size`, pitch `pitch`, height
0 and offset 0. -/
def ImageInfo.fromBufferAttributeGroup (neo : Bool) (attrib : BufferAttribute)
    (cpu_address : Nat) : Except Fault ImageInfo :=
  let is_tiled : Bool := decide (attrib.tiling_mode = .Tile)
  let tiling_mode : TilingMode := if is_tiled then .Display_MacroTiled else .Display_Linear
  match ConvertPixelFormat attrib.pixel_format with
  | .error e => .error e
  | .ok pixel_format =>
    let width := attrib.width
    let height := attrib.height
    let pitch := if attrib.tiling_mode = .Linear then width else alignUp32 width 128
    let num_bits := if attrib.pixel_format ≠ .A16R16G16B16Float then 32 else 64
    if num_bits = 32 then
      let guest_size :=
        if !is_tiled then u32 (pitch * height * 4)
        else if neo then u32 (pitch * alignUp32 height 128 * 4)
        else u32 (pitch * alignUp32 height 64 * 4)
      .ok { props := { is_tiled := is_tiled },
            tiling_mode := tiling_mode,
            pixel_format := pixel_format,
            type := .e2D,
            size := { width := width, height := height },
            pitch := pitch,
            num_bits := num_bits,
            guest_address := cpu_address,
            guest_size := guest_size,
            mips_layout := [{ size := guest_size, pitch := pitch, height := 0, offset := 0 }] }
    else .error .assertion

/-- A block-compressed (4 bits per texel) micro-tiled image with `levels` levels whose
pitch and height are both `extent`. -/
def sampleBlock (extent levels : Nat) : ImageInfo :=
  { type := .e2D, props := { is_block := true }, resources := ⟨levels, 1⟩,
    size := ⟨extent, extent, 1⟩, num_bits := 4, pitch := extent,
    tiling_mode := .Texture_MicroTiled }

/-- A 32-bit single-level image of pitch 16 and height 9 in the given tiling mode. -/
def sampleOdd (mode : TilingMode) : ImageInfo :=
  { type := .e2D, resources := ⟨1, 1⟩, size := ⟨16, 9, 1⟩, num_bits := 32, pitch := 16,
    tiling_mode := mode }

/-- The pitch the specification names for the micro-tiled size function: `p` is the
smallest multiple of 8 that is `≥ pitch` for which `ceil(p * H * bpp * s / 8)` is a
multiple of 256, `H` being the aligned height. -/
def IsMicroPitch (pitch H bpp s p : Nat) : Prop :=
  p % 8 = 0 ∧ pitch ≤ p ∧ (p * H * bpp * s + 7) / 8 % 256 = 0 ∧
  ∀ q, q % 8 = 0 → pitch ≤ q → (q * H * bpp * s + 7) / 8 % 256 = 0 → p ≤ q

/-- The pitch the specification names for the linear size function: `p` is the smallest
multiple of `pitch_align` that is `≥ pitch` for which `p * height * s` is a multiple of
`slice_align`. -/
def IsLinearPitch (pitch_align slice_align pitch height s p : Nat) : Prop :=
  p % pitch_align = 0 ∧ pitch ≤ p ∧ p * height * s % slice_align = 0 ∧
  ∀ q, q % pitch_align = 0 → pitch ≤ q → q * height * s % slice_align = 0 → p ≤ q

/-! ## Runs without 32-bit overflow

The functions below repeat the size functions and `UpdateSize` with every `u32` result
checked instead of reduced: a sum or product that does not fit in 32 bits, like an
assertion or an operation without a defined result, makes the run return `none`. A run
that returns `some` is a run of the source in which no 32-bit value wrapped. -/

/-- A `u32` result that must fit. -/
def chk32 (x : Nat) : Option Nat := if x < 4294967296 then some x else none

/-- `(x + align - 1) & ~(align - 1)` when the sum fits. -/
def alignUpChecked (x align : Nat) : Option Nat :=
  match chk32 (x + align - 1) with
  | none => none
  | some y => some (y &&& not32 (align - 1))

/-- `GetMacroTileExtents` and the non-zero assertion (lines 182-187, 219-220) with the
index `tiling_idx * 5 + (bit_width(bpp) - 4)` computed without wrapping. -/
def MacroTileLookupChecked (tiling_idx bpp num_samples : Nat) : Option (Nat × Nat) :=
  if num_samples ≤ 8 ∧ num_samples ≠ 0 ∧ 4 ≤ bit_width bpp then
    match chk32 (tiling_idx * 5 + bit_width bpp - 4) with
    | none => none
    | some index =>
      match macro_tile_extents[floorLog2 num_samples]? with
      | none => none
      | some table =>
        match table[index]? with
        | none => none
        | some (pitch_align, height_align) =>
          if pitch_align ≠ 0 ∧ height_align ≠ 0 then some (pitch_align, height_align)
          else none
  else none

/-- The loop of `ImageSizeLinearAligned` without wrapping. -/
def LinearLoopChecked (pitch_align height num_samples slice_align : Nat) :
    Nat → Nat → Option (Nat × Nat)
  | 0, _ => none
  | fuel + 1, pitch_aligned =>
    match chk32 (pitch_aligned * height * num_samples) with
    | none => none
    | some log_sz =>
      if log_sz % slice_align = 0 then some (pitch_aligned, log_sz)
      else
        match chk32 (pitch_aligned + pitch_align) with
        | none => none
        | some next => LinearLoopChecked pitch_align height num_samples slice_align fuel next

/-- `ImageSizeLinearAligned` without wrapping. -/
def ImageSizeLinearAlignedChecked (pitch height bpp num_samples : Nat) : Option (Nat × Nat) :=
  match chk32 (bpp + 7) with
  | none => none
  | some sum =>
    let bytes := sum / 8
    if bytes = 0 then none
    else
      let pitch_align := max 8 (64 / bytes)
      let slice_align := max 64 (256 / bytes)
      match alignUpChecked pitch pitch_align with
      | none => none
      | some pitch_aligned =>
        match LinearLoopChecked pitch_align height num_samples slice_align loopFuel
            pitch_aligned with
        | none => none
        | some (p, log_sz) => some (p, (log_sz * bpp + 7) / 8)

/-- The loop of `ImageSizeMicroTiled` without wrapping. -/
def MicroLoopChecked (height_aligned bpp num_samples : Nat) : Nat → Nat → Option (Nat × Nat)
  | 0, _ => none
  | fuel + 1, pitch_aligned =>
    match chk32 (pitch_aligned * height_aligned * bpp * num_samples + 7) with
    | none => none
    | some bits =>
      if bits / 8 % 256 = 0 then some (pitch_aligned, bits / 8)
      else
        match chk32 (pitch_aligned + 8) with
        | none => none
        | some next => MicroLoopChecked height_aligned bpp num_samples fuel next

/-- `ImageSizeMicroTiled` without wrapping. -/
def ImageSizeMicroTiledChecked (pitch height bpp num_samples : Nat) : Option (Nat × Nat) :=
  match alignUpChecked pitch 8, alignUpChecked height 8 with
  | some pitch_aligned, some height_aligned =>
    MicroLoopChecked height_aligned bpp num_samples loopFuel pitch_aligned
  | _, _ => none

/-- `ImageSizeMacroTiled` without wrapping. -/
def ImageSizeMacroTiledChecked (pitch height bpp num_samples tiling_idx mip_n : Nat) :
    Option (Nat × Nat) :=
  match MacroTileLookupChecked tiling_idx bpp num_samples with
  | none => none
  | some (pitch_align, height_align) =>
    let downgrade_to_micro : Bool :=
      if mip_n > 0 then decide (pitch < pitch_align ∨ height < height_align) else false
    if downgrade_to_micro then ImageSizeMicroTiledChecked pitch height bpp num_samples
    else
      match alignUpChecked pitch pitch_align, alignUpChecked height height_align with
      | some pitch_aligned, some height_aligned =>
        match chk32 (pitch_aligned * height_aligned * num_samples) with
        | none => none
        | some log_sz =>
          match chk32 (log_sz * bpp + 7) with
          | none => none
          | some bits => some (pitch_aligned, bits / 8)
      | _, _ => none

/-- Lines 345-361 of `UpdateSize` without wrapping, and with no shift by 32 or more. -/
def UpdateSize.dimsChecked (info : ImageInfo) (mip : Nat) : Option MipDims :=
  if 32 ≤ mip then none
  else
    let mip_w := info.pitch >>> mip
    let mip_h := info.size.height >>> mip
    let scaled : Option (Nat × Nat × Nat) :=
      if info.props.is_block then
        match chk32 (mip_w + 3), chk32 (mip_h + 3), chk32 (info.num_bits * 16) with
        | some w, some h, some bpp => some (bpp, w / 4, h / 4)
        | _, _, _ => none
      else some (info.num_bits, mip_w, mip_h)
    match scaled with
    | none => none
    | some (bpp, mip_w, mip_h) =>
      let mip_w := max mip_w 1
      let mip_h := max mip_h 1
      let mip_d := max (info.size.depth >>> mip) 1
      if info.props.is_pow2 then
        match bit_ceil32 mip_w, bit_ceil32 mip_h, bit_ceil32 mip_d with
        | .ok w, .ok h, .ok d => some ⟨bpp, w, h, d⟩
        | _, _, _ => none
      else some ⟨bpp, mip_w, mip_h, mip_d⟩

/-- Lines 363-394 of `UpdateSize` without wrapping; the byte size returned by the size
function must fit the `u32` field `mip_info.size`. -/
def UpdateSize.dispatchChecked (info : ImageInfo) (mip : Nat) (mip_info : MipInfo)
    (dm : MipDims) : Option (MipInfo × Nat) :=
  match info.tiling_mode with
  | .Display_Linear =>
    match ImageSizeLinearAlignedChecked dm.mip_w dm.mip_h dm.bpp info.num_samples with
    | none => none
    | some (p, sz) =>
      match chk32 sz with
      | none => none
      | some size => some ({ mip_info with pitch := p, size := size, height := dm.mip_h }, dm.mip_d)
  | .Texture_Volume | .Texture_MicroTiled =>
    let depth : Option Nat :=
      if info.tiling_mode = .Texture_Volume then chk32 (dm.mip_d + (neg32 dm.mip_d &&& 3))
      else some dm.mip_d
    match depth, ImageSizeMicroTiledChecked dm.mip_w dm.mip_h dm.bpp info.num_samples with
    | some mip_d, some (p, sz) =>
      let height := max dm.mip_h 8
      if info.props.is_block then
        match chk32 (p * 4), chk32 (height * 4) with
        | some p4, some h4 =>
          some ({ mip_info with pitch := max p4 32, size := sz, height := max h4 32 }, mip_d)
        | _, _ => none
      else some ({ mip_info with pitch := p, size := sz, height := height }, mip_d)
    | _, _ => none
  | .Display_MacroTiled | .Texture_MacroTiled | .Depth_MacroTiled =>
    if info.props.is_block then none
    else
      match ImageSizeMacroTiledChecked dm.mip_w dm.mip_h dm.bpp info.num_samples
          info.tiling_idx mip with
      | none => none
      | some (p, sz) => some ({ mip_info with pitch := p, size := sz }, dm.mip_d)
  | .Unhandled => none

/-- One iteration of the loop of `UpdateSize` without wrapping. -/
def UpdateSize.bodyChecked (info : ImageInfo) (mip : Nat) (st : LoopState) : Option LoopState :=
  match UpdateSize.dimsChecked info mip with
  | none => none
  | some dm =>
    match UpdateSize.dispatchChecked info mip st.mip_info dm with
    | none => none
    | some (mip_info, mip_d) =>
      match chk32 (mip_info.size * mip_d) with
      | none => none
      | some size =>
        match chk32 (st.guest_size + size) with
        | none => none
        | some total =>
          some { mip_info := { mip_info with size := size, offset := st.guest_size },
                 guest_size := total,
                 mips_layout := st.mips_layout ++
                   [{ mip_info with size := size, offset := st.guest_size }] }

/-- The loop of `UpdateSize` without wrapping. -/
def UpdateSize.loopChecked (info : ImageInfo) : Nat → Nat → LoopState → Option LoopState
  | 0, _, st => some st
  | count + 1, mip, st =>
    match UpdateSize.bodyChecked info mip st with
    | none => none
    | some st1 => UpdateSize.loopChecked info count (mip + 1) st1

/-- `UpdateSize` without wrapping: `some` exactly when the run hits no assertion, no
operation without a defined result and no 32-bit overflow. -/
def UpdateSizeChecked (info : ImageInfo) : Option ImageInfo :=
  match UpdateSize.loopChecked info info.resources.levels 0 {} with
  | none => none
  | some st =>
    match chk32 (st.guest_size * info.resources.layers) with
    | none => none
    | some total => some { info with mips_layout := st.mips_layout, guest_size := total }

/-- A single-level 32-bit volume texture of the given extent in `Texture_Volume` tiling
mode. -/
def sampleVolume (extent depth : Nat) : ImageInfo :=
  { type := .e3D, props := { is_volume := true }, resources := ⟨1, 1⟩,
    size := ⟨extent, extent, depth⟩, num_bits := 32, pitch := extent,
    tiling_mode := .Texture_Volume }

/-! ## Theorems -/

theorem body_ok {info : ImageInfo} {mip : Nat} {st st1 : LoopState}
    (h : UpdateSize.body info mip st = .ok st1) :
    ∃ dm mi d, UpdateSize.dims info mip = .ok dm ∧
      UpdateSize.dispatch info mip st.mip_info dm = .ok (mi, d) ∧
      st1.mip_info = { mi with size := u32 (mi.size * d), offset := st.guest_size } ∧
      st1.guest_size = u32 (st.guest_size + u32 (mi.size * d)) ∧
      st1.mips_layout = st.mips_layout ++ [st1.mip_info] := by
  unfold UpdateSize.body at h
  split at h
  · cases h
  · rename_i dm hdm
    split at h
    · cases h
    · rename_i mi d hdisp
      cases h
      exact ⟨dm, mi, d, hdm, hdisp, rfl, rfl, rfl⟩

theorem loop_ok {info : ImageInfo} :
    ∀ (count mip : Nat) (st st1 : LoopState),
      UpdateSize.loop info count mip st = .ok st1 →
      ∃ added, st1.mips_layout = st.mips_layout ++ added ∧ added.length = count ∧
        Chain st.guest_size added st1.guest_size ∧
        ∀ i m, added[i]? = some m → Recorded info (mip + i) m := by
  intro count
  induction count with
  | zero =>
    intro mip st st1 h
    simp only [UpdateSize.loop] at h
    cases h
    exact ⟨[], by simp, rfl, rfl, by simp⟩
  | succ n ih =>
    intro mip st st1 h
    simp only [UpdateSize.loop] at h
    split at h
    · cases h
    · rename_i st2 hbody
      obtain ⟨dm, mi, d, hdm, hdisp, hmi, hgs, hlay⟩ := body_ok hbody
      obtain ⟨added, hadd, hlen, hchain, hrec⟩ := ih (mip + 1) st2 st1 h
      refine ⟨st2.mip_info :: added, ?_, by simp [hlen], ?_, ?_⟩
      · rw [hadd, hlay]; simp
      · refine ⟨by rw [hmi], ?_⟩
        rw [hmi]
        simpa [hgs] using hchain
      · intro i m him
        cases i with
        | zero =>
          simp at him
          subst him
          exact ⟨st.mip_info, dm, mi, d, hdm, hdisp, by rw [hmi], by rw [hmi], by rw [hmi]⟩
        | succ j =>
          simp at him
          have := hrec j m him
          rwa [show mip + (j + 1) = mip + 1 + j by omega]

theorem chain_head {start stop : Nat} {layout : List MipInfo} {a : MipInfo}
    (h : Chain start layout stop) (ha : layout[0]? = some a) : a.offset = start := by
  cases layout with
  | nil => simp at ha
  | cons m rest =>
    simp at ha
    subst ha
    exact h.1

theorem chain_step : ∀ (layout : List MipInfo) (start stop : Nat),
    Chain start layout stop → start + sumSizes layout < 4294967296 →
    ∀ i a b, layout[i]? = some a → layout[i + 1]? = some b → a.offset + a.size = b.offset := by
  intro layout
  induction layout with
  | nil => intro start stop _ _ i a b ha; simp at ha
  | cons m rest ih =>
    intro start stop h hsum i a b ha hb
    simp only [sumSizes] at hsum
    obtain ⟨hoff, hrest⟩ := h
    have hu : u32 (start + m.size) = start + m.size := by
      unfold u32; omega
    rw [hu] at hrest
    cases i with
    | zero =>
      simp at ha hb
      subst ha
      have := chain_head hrest hb
      omega
    | succ j =>
      simp at ha hb
      exact ih (start + m.size) stop hrest (by omega) j a b ha hb

theorem chain_stop : ∀ (layout : List MipInfo) (start stop : Nat),
    Chain start layout stop → u32 stop = u32 (start + sumSizes layout) := by
  intro layout
  induction layout with
  | nil => intro start stop h; simp only [Chain] at h; simp [sumSizes, h]
  | cons m rest ih =>
    intro start stop h
    obtain ⟨_, hrest⟩ := h
    rw [ih _ _ hrest]
    simp only [sumSizes, u32]
    omega

theorem UpdateSize_ok {info info1 : ImageInfo} (h : UpdateSize info = .ok info1) :
    ∃ st, UpdateSize.loop info info.resources.levels 0 {} = .ok st ∧
      info1 = { info with mips_layout := st.mips_layout,
                          guest_size := u32 (st.guest_size * info.resources.layers) } := by
  unfold UpdateSize at h
  split at h
  · cases h
  · rename_i st hst
    cases h
    exact ⟨st, hst, rfl⟩

/-- C1: when `UpdateSize` completes on a descriptor with at least one level and the
recorded sizes add up to less than `2^32` (no 32-bit overflow of the running total),
`mips_layout` has exactly `resources.levels` entries, entry 0 has offset 0, and each
entry ends where the next one starts. -/
theorem UpdateSize_mips_contiguous (info info1 : ImageInfo)
    (hlev : 1 ≤ info.resources.levels)
    (hrun : UpdateSize info = .ok info1)
    (hno : sumSizes info1.mips_layout < 4294967296) :
    info1.mips_layout.length = info.resources.levels ∧
    (∃ m0, info1.mips_layout[0]? = some m0 ∧ m0.offset = 0) ∧
    ∀ i, i + 1 < info.resources.levels →
      ∃ a b, info1.mips_layout[i]? = some a ∧ info1.mips_layout[i + 1]? = some b ∧
        a.offset + a.size = b.offset := by
  obtain ⟨st, hloop, rfl⟩ := UpdateSize_ok hrun
  obtain ⟨added, hadd, hlen, hchain, _⟩ := loop_ok _ _ _ _ hloop
  have hL : st.mips_layout = added := by simpa using hadd
  simp only [hL] at hno ⊢
  have h0 : (0 : Nat) = ({} : LoopState).guest_size := rfl
  rw [← h0] at hchain
  refine ⟨hlen, ?_, ?_⟩
  · have hpos : 0 < added.length := by omega
    refine ⟨added[0], by simp [List.getElem?_eq_getElem hpos], ?_⟩
    exact chain_head hchain (by simp [List.getElem?_eq_getElem hpos])
  · intro i hi
    have h1 : i < added.length := by omega
    have h2 : i + 1 < added.length := by omega
    refine ⟨added[i], added[i + 1], by simp [List.getElem?_eq_getElem h1],
      by simp [List.getElem?_eq_getElem h2], ?_⟩
    exact chain_step added 0 _ hchain (by omega) i _ _
      (by simp [List.getElem?_eq_getElem h1]) (by simp [List.getElem?_eq_getElem h2])

theorem UpdateSize_mips_contiguous_witness :
    UpdateSize sampleMicro = .ok sampleMicroBuilt ∧
    sampleMicroBuilt.mips_layout.length = 4 ∧
    (∃ m0, sampleMicroBuilt.mips_layout[0]? = some m0 ∧ m0.offset = 0) ∧
    ∀ i, i + 1 < 4 →
      ∃ a b, sampleMicroBuilt.mips_layout[i]? = some a ∧
        sampleMicroBuilt.mips_layout[i + 1]? = some b ∧ a.offset + a.size = b.offset :=
  ⟨by decide, UpdateSize_mips_contiguous sampleMicro sampleMicroBuilt (by decide) (by decide)
    (by decide)⟩

/-- C2: when `UpdateSize` completes and `layers` times the sum of the recorded sizes
is below `2^32` (no 32-bit overflow), `guest_size` is `resources.layers` times the sum
of the recorded mip sizes; and every recorded size is the size the tiling `switch`
produced for that level multiplied by the working depth. -/
theorem UpdateSize_guest_size (info info1 : ImageInfo)
    (hrun : UpdateSize info = .ok info1)
    (hno : info.resources.layers * sumSizes info1.mips_layout < 4294967296) :
    info1.guest_size = info.resources.layers * sumSizes info1.mips_layout ∧
    ∀ i, i < info.resources.levels →
      ∃ m, info1.mips_layout[i]? = some m ∧ Recorded info i m := by
  obtain ⟨st, hloop, rfl⟩ := UpdateSize_ok hrun
  obtain ⟨added, hadd, hlen, hchain, hrec⟩ := loop_ok _ _ _ _ hloop
  have hL : st.mips_layout = added := by simpa using hadd
  simp only [hL] at hno ⊢
  have h0 : (0 : Nat) = ({} : LoopState).guest_size := rfl
  rw [← h0] at hchain
  have hstop := chain_stop added 0 _ hchain
  constructor
  · have : u32 (st.guest_size * info.resources.layers)
        = u32 (u32 st.guest_size * info.resources.layers) := by
      simp [u32, Nat.mul_mod, Nat.mod_mod]
    rw [this, hstop]
    simp only [u32, Nat.zero_add]
    rw [Nat.mod_mul_mod, Nat.mul_comm]
    exact Nat.mod_eq_of_lt hno
  · intro i hi
    have h1 : i < added.length := by omega
    refine ⟨added[i], by simp [List.getElem?_eq_getElem h1], ?_⟩
    simpa using hrec i added[i] (by simp [List.getElem?_eq_getElem h1])

theorem UpdateSize_guest_size_witness :
    sampleMicroBuilt.guest_size = 1 * sumSizes sampleMicroBuilt.mips_layout ∧
    ∀ i, i < 4 → ∃ m, sampleMicroBuilt.mips_layout[i]? = some m ∧ Recorded sampleMicro i m :=
  UpdateSize_guest_size sampleMicro sampleMicroBuilt (by decide) (by decide)

theorem find_spec : ∀ (layout : List MipInfo) (addr base idx m : Nat) (mi : MipInfo),
    List.Pairwise (fun a b : MipInfo => a.offset < b.offset) layout →
    layout[m]? = some mi → addr = base + mi.offset → addr < 18446744073709551616 →
    IsMipOf.find addr base layout idx = some (idx + m) := by
  intro layout
  induction layout with
  | nil => intro addr base idx m mi _ h; simp at h
  | cons hd rest ih =>
    intro addr base idx m mi hp hm haddr hlt
    rw [List.pairwise_cons] at hp
    cases m with
    | zero =>
      simp at hm
      subst hm
      have : addr = u64 (base + hd.offset) := by unfold u64; omega
      simp [IsMipOf.find, this]
    | succ j =>
      simp at hm
      have hmem : mi ∈ rest := List.getElem?_mem hm
      have hlt2 := hp.1 mi hmem
      have hne : ¬ addr = u64 (base + hd.offset) := by unfold u64; omega
      simp only [IsMipOf.find, hne, if_false]
      rw [ih addr base (idx + 1) j mi hp.2 hm haddr hlt]
      congr 1
      omega

/-- C3 (counterexample): a single-level image that starts exactly at the base address
of a compatible image with a different tiling index does not make `IsMipOf` return
`-1`; the call stops on `ASSERT(mip != 0)`. -/
theorem IsMipOf_mip0_not_sentinel :
    (sampleView 64 64 0).resources.levels = 1 ∧
    (∃ m0, sampleMipped.mips_layout[0]? = some m0 ∧ m0.offset = 0) ∧
    (sampleView 64 64 0).guest_address = sampleMipped.guest_address ∧
    IsMipOf (fun _ _ => true) (fun lhs rhs => decide (lhs = rhs)) (sampleView 64 64 0)
      sampleMipped ≠ .ok (-1) := by
  decide

/-- C3 (amended): for descriptors `A`, `B` that pass `IsCompatible`, whose tiling
indices are not tiling-compatible, with `A.resources.levels == 1`, `B.mips_layout`
non-empty with first offset 0 and `A.guest_address == B.guest_address`, the call
`A.IsMipOf(B)` fails on `ASSERT(mip != 0)`. -/
theorem IsMipOf_mip0_asserts (IsCompatible : ImageInfo → ImageInfo → Bool)
    (IsTilingCompatible : Nat → Nat → Bool) (A B : ImageInfo) (m0 : MipInfo)
    (hcompat : IsCompatible A B = true)
    (htiling : IsTilingCompatible B.tiling_idx A.tiling_idx = false)
    (hlevels : A.resources.levels = 1)
    (hfirst : B.mips_layout[0]? = some m0) (hoff : m0.offset = 0)
    (haddr : A.guest_address = B.guest_address)
    (htyped : B.guest_address < 18446744073709551616) :
    IsMipOf IsCompatible IsTilingCompatible A B = .error .assertion := by
  cases hB : B.mips_layout with
  | nil => simp [hB] at hfirst
  | cons hd rest =>
    simp [hB] at hfirst
    subst hfirst
    have hu : B.guest_address = u64 (B.guest_address + hd.offset) := by
      unfold u64; omega
    have hfind : IsMipOf.find A.guest_address B.guest_address (hd :: rest) 0 = some 0 := by
      simp only [IsMipOf.find, haddr]
      rw [if_pos hu]
    simp [IsMipOf, hcompat, htiling, hlevels, hB, hfind]

theorem IsMipOf_mip0_asserts_witness :
    IsMipOf (fun _ _ => true) (fun lhs rhs => decide (lhs = rhs)) (sampleView 64 64 0)
      sampleMipped = .error .assertion :=
  IsMipOf_mip0_asserts _ _ (sampleView 64 64 0) sampleMipped ⟨16384, 64, 64, 0⟩
    (by decide) (by decide) (by decide) (by decide) (by decide) (by decide) (by decide)

/-- C4 (evaluation at the failing input): `B` is a 16x16 image with 4 layers and 4096
bytes, so its slice size is 1024; `A` is a 16x16 image with two mip levels and 1280
bytes, which is not a multiple of 1024, and starts 2560 bytes after `B`; both layouts
are the ones `UpdateSize` computes. `A.IsSliceOf(B)` returns 2, not `-1`. -/
theorem IsSliceOf_unaligned_size_accepted :
    UpdateSize sampleArray = .ok sampleArray ∧
    UpdateSize sampleTwoLevel = .ok sampleTwoLevel ∧
    sampleArray.guest_size / sampleArray.resources.layers = 1024 ∧
    sampleTwoLevel.guest_size % 1024 ≠ 0 ∧
    (sampleTwoLevel.guest_address - sampleArray.guest_address) % sampleTwoLevel.guest_size = 0 ∧
    IsSliceOf (fun _ _ => true) sampleTwoLevel sampleArray = .ok 2 := by
  decide

/-- C5: when the offsets of `B.mips_layout` are strictly increasing and `A` is a
single-level image of the same type that starts at mip `m ≥ 1` of `B`, has the extent
of that mip, passes `IsCompatible` and has a tiling index that is not
tiling-compatible, `A.IsMipOf(B)` returns `m`.  The extent `B.size.width >> m` of the
premise is a shift of a 32-bit value, defined for `m < 32`. -/
theorem IsMipOf_returns_mip (IsCompatible : ImageInfo → ImageInfo → Bool)
    (IsTilingCompatible : Nat → Nat → Bool) (A B : ImageInfo) (m : Nat) (mi : MipInfo)
    (hinc : List.Pairwise (fun a b : MipInfo => a.offset < b.offset) B.mips_layout)
    (hm : 1 ≤ m) (hm32 : m < 32) (hmi : B.mips_layout[m]? = some mi)
    (haddr : A.guest_address = B.guest_address + mi.offset)
    (htyped : A.guest_address < 18446744073709551616)
    (hlevels : A.resources.levels = 1)
    (hwidth : A.size.width = max (B.size.width >>> m) 1)
    (hheight : A.size.height = max (B.size.height >>> m) 1)
    (htype : A.type = B.type)
    (hcompat : IsCompatible A B = true)
    (htiling : IsTilingCompatible B.tiling_idx A.tiling_idx = false) :
    IsMipOf IsCompatible IsTilingCompatible A B = .ok (m : Int) := by
  have hfind := find_spec B.mips_layout A.guest_address B.guest_address 0 m mi hinc hmi
    haddr htyped
  rw [Nat.zero_add] at hfind
  have hne : B.mips_layout.isEmpty = false := by
    cases hB : B.mips_layout with
    | nil => simp [hB] at hmi
    | cons _ _ => rfl
  have hm0 : m ≠ 0 := by omega
  have hshift : ¬ 32 ≤ m := by omega
  have h32 : ¬ (B.type = ImageType.e3D ∧ B.type = ImageType.e2D) := by
    rintro ⟨h1, h2⟩
    rw [h1] at h2
    cases h2
  simp [IsMipOf, hcompat, htiling, hlevels, hne, hfind, hm0, hshift, hwidth, hheight, htype,
    h32]

theorem IsMipOf_returns_mip_witness :
    IsMipOf (fun _ _ => true) (fun lhs rhs => decide (lhs = rhs)) (sampleView 32 32 16384)
      sampleMipped = .ok ((1 : Nat) : Int) :=
  IsMipOf_returns_mip _ _ (sampleView 32 32 16384) sampleMipped 1 ⟨4096, 32, 32, 16384⟩
    (by decide) (by decide) (by decide) (by decide) (by decide) (by decide) (by decide)
    (by decide) (by decide) (by decide) (by decide) (by decide)

/-- C6 (counterexample): `B` has 4 layers and 4096 bytes, `A` has 1024 bytes and
starts `2^41` bytes after `B`; the difference is an exact multiple of `A.guest_size`
with quotient `2^31`, and `A.IsSliceOf(B)` returns `-2^31`, not the quotient. -/
theorem IsSliceOf_quotient_truncated :
    sampleArray.guest_address ≤ (sampleSlice 1024 2199023255552).guest_address ∧
    (sampleSlice 1024 2199023255552).guest_address < 18446744073709551616 ∧
    (sampleSlice 1024 2199023255552).guest_size %
      (sampleArray.guest_size / sampleArray.resources.layers) = 0 ∧
    ((sampleSlice 1024 2199023255552).guest_address - sampleArray.guest_address) %
      (sampleSlice 1024 2199023255552).guest_size = 0 ∧
    ((sampleSlice 1024 2199023255552).guest_address - sampleArray.guest_address) /
      (sampleSlice 1024 2199023255552).guest_size = 2147483648 ∧
    IsSliceOf (fun _ _ => true) (sampleSlice 1024 2199023255552) sampleArray
      = .ok (-2147483648) := by
  decide

/-- C6 (amended): for `A`, `B` that pass `IsCompatible`, have the same image type,
width and height, with `B.resources.layers >= 1`, `A.guest_size > 0` a multiple of the
non-zero `B.guest_size / B.resources.layers` and `A.guest_address >= B.guest_address`:
`A.IsSliceOf(B)` returns `-1` when the address difference is not a multiple of
`A.guest_size`, and returns the quotient when it is a multiple and the quotient is
below `2^31`. -/
theorem IsSliceOf_returns_quotient (IsCompatible : ImageInfo → ImageInfo → Bool)
    (A B : ImageInfo)
    (hcompat : IsCompatible A B = true)
    (htype : A.type = B.type)
    (hwidth : A.size.width = B.size.width) (hheight : A.size.height = B.size.height)
    (hlayers : 1 ≤ B.resources.layers)
    (hslice : 0 < B.guest_size / B.resources.layers)
    (hsize : 0 < A.guest_size)
    (_hmult : A.guest_size % (B.guest_size / B.resources.layers) = 0)
    (hge : B.guest_address ≤ A.guest_address)
    (htyped : A.guest_address < 18446744073709551616) :
    ((A.guest_address - B.guest_address) % A.guest_size ≠ 0 →
      IsSliceOf IsCompatible A B = .ok (-1)) ∧
    ((A.guest_address - B.guest_address) % A.guest_size = 0 →
      (A.guest_address - B.guest_address) / A.guest_size < 2147483648 →
      IsSliceOf IsCompatible A B =
        .ok (((A.guest_address - B.guest_address) / A.guest_size : Nat) : Int)) := by
  have hdiff : u64 (A.guest_address + 18446744073709551616 - B.guest_address)
      = A.guest_address - B.guest_address := by
    unfold u64; omega
  have hl : B.resources.layers ≠ 0 := by omega
  have hs : B.guest_size / B.resources.layers ≠ 0 := by omega
  have hz : A.guest_size ≠ 0 := by omega
  constructor
  · intro hrem
    simp [IsSliceOf, hcompat, htype, hwidth, hheight, hl, hs, hz, hdiff, hrem, Nat.mod_one]
  · intro hrem hfit
    have hto : toInt32 ((A.guest_address - B.guest_address) / A.guest_size)
        = (((A.guest_address - B.guest_address) / A.guest_size : Nat) : Int) := by
      unfold toInt32
      have : (A.guest_address - B.guest_address) / A.guest_size % 4294967296
          = (A.guest_address - B.guest_address) / A.guest_size :=
        Nat.mod_eq_of_lt (Nat.lt_trans hfit (by decide))
      rw [this, if_pos hfit]
    simp [IsSliceOf, hcompat, htype, hwidth, hheight, hl, hs, hz, hdiff, hrem, Nat.mod_one, hto]

theorem IsSliceOf_returns_quotient_witness :
    IsSliceOf (fun _ _ => true) (sampleSlice 1024 100) sampleArray = .ok (-1) ∧
    IsSliceOf (fun _ _ => true) (sampleSlice 1024 2048) sampleArray = .ok ((2 : Nat) : Int) :=
  ⟨(IsSliceOf_returns_quotient (fun _ _ => true) (sampleSlice 1024 100) sampleArray
      (by decide) (by decide) (by decide) (by decide) (by decide) (by decide) (by decide)
      (by decide) (by decide) (by decide)).1 (by decide),
   (IsSliceOf_returns_quotient (fun _ _ => true) (sampleSlice 1024 2048) sampleArray
      (by decide) (by decide) (by decide) (by decide) (by decide) (by decide) (by decide)
      (by decide) (by decide) (by decide)).2 (by decide) (by decide)⟩

/-- C7 (counterexample): `B` has 4 layers and 4096 bytes (slice size 1024). An `A` of
2048 bytes that starts 2048 bytes after `B` makes `A.IsSliceOf(B)` return 1, but layer 1
of `B` starts 1024 bytes after `B`, not where `A` starts. An `A` of 1024 bytes that
starts 8192 bytes after `B` makes it return 8, which is not below the 4 layers of `B`. -/
theorem IsSliceOf_result_not_layer_index :
    (IsSliceOf (fun _ _ => true) (sampleSlice 2048 2048) sampleArray = .ok 1 ∧
      sampleArray.guest_address
        + 1 * (sampleArray.guest_size / sampleArray.resources.layers)
        ≠ (sampleSlice 2048 2048).guest_address) ∧
    (IsSliceOf (fun _ _ => true) (sampleSlice 1024 8192) sampleArray = .ok 8 ∧
      ¬ 8 < sampleArray.resources.layers) := by
  decide

/-- C7 (amended): whenever `A.IsSliceOf(B)` returns a value `i` other than `-1`, with
`A.guest_address >= B.guest_address` and the quotient of the address difference by
`A.guest_size` below `2^31`, `i` is non-negative and `A` starts `i` times its own size
after `B`: `B.guest_address + i * A.guest_size == A.guest_address`. -/
theorem IsSliceOf_result_offset (IsCompatible : ImageInfo → ImageInfo → Bool)
    (A B : ImageInfo) (i : Int)
    (hge : B.guest_address ≤ A.guest_address)
    (htyped : A.guest_address < 18446744073709551616)
    (hfit : (A.guest_address - B.guest_address) / A.guest_size < 2147483648)
    (hres : IsSliceOf IsCompatible A B = .ok i) (hne : i ≠ -1) :
    0 ≤ i ∧ (B.guest_address : Int) + i * (A.guest_size : Int) = (A.guest_address : Int) := by
  have hdiff : u64 (A.guest_address + 18446744073709551616 - B.guest_address)
      = A.guest_address - B.guest_address := by
    unfold u64; omega
  have hto : toInt32 ((A.guest_address - B.guest_address) / A.guest_size)
      = (((A.guest_address - B.guest_address) / A.guest_size : Nat) : Int) := by
    unfold toInt32
    have : (A.guest_address - B.guest_address) / A.guest_size % 4294967296
        = (A.guest_address - B.guest_address) / A.guest_size :=
      Nat.mod_eq_of_lt (Nat.lt_trans hfit (by decide))
    rw [this, if_pos hfit]
  unfold IsSliceOf at hres
  simp only [hdiff, hto] at hres
  split_ifs at hres
  all_goals first
    | (cases hres; done)
    | (cases hres; exact absurd rfl hne)
    | skip
  all_goals
    cases hres
    refine ⟨Int.ofNat_nonneg _, ?_⟩
    have hrem : (A.guest_address - B.guest_address) % A.guest_size = 0 :=
      Classical.not_not.mp (by assumption)
    have hdvd : (A.guest_address - B.guest_address) / A.guest_size * A.guest_size
        = A.guest_address - B.guest_address :=
      Nat.div_mul_cancel (Nat.dvd_of_mod_eq_zero hrem)
    have : B.guest_address + (A.guest_address - B.guest_address) / A.guest_size * A.guest_size
        = A.guest_address := by omega
    exact_mod_cast this

theorem IsSliceOf_result_offset_witness :
    (0 : Int) ≤ 1 ∧ ((sampleArray.guest_address : Nat) : Int)
      + 1 * (((sampleSlice 2048 2048).guest_size : Nat) : Int)
      = (((sampleSlice 2048 2048).guest_address : Nat) : Int) :=
  IsSliceOf_result_offset (fun _ _ => true) (sampleSlice 2048 2048) sampleArray 1
    (by decide) (by decide) (by decide) (by decide) (by decide)

set_option maxRecDepth 100000 in
theorem table_cells_uniform :
    ∀ table ∈ macro_tile_extents, ∀ cell ∈ table, (cell.1 = 0 ↔ cell.2 = 0) := by
  decide

set_option maxRecDepth 100000 in
theorem table_lengths : ∀ table ∈ macro_tile_extents, table.length = 135 := by
  decide

theorem bit_width_bpp {bpp : Nat} (hb : bpp ∈ [8, 16, 32, 64, 128]) :
    4 ≤ bit_width bpp ∧ bit_width bpp ≤ 8 := by
  simp only [List.mem_cons, List.mem_singleton, List.not_mem_nil, or_false] at hb
  rcases hb with rfl | rfl | rfl | rfl | rfl <;> decide

theorem floorLog2_samples {s : Nat} (h1 : 1 ≤ s) (h8 : s ≤ 8) : floorLog2 s < 4 := by
  interval_cases s <;> decide

theorem tableCell_some {t bpp s : Nat} (ht : t < 27) (hb : bpp ∈ [8, 16, 32, 64, 128])
    (h1 : 1 ≤ s) (h8 : s ≤ 8) :
    ∃ table cell, table ∈ macro_tile_extents ∧ cell ∈ table ∧
      tableCell t bpp s = some cell := by
  have hk := floorLog2_samples h1 h8
  have hlen : macro_tile_extents.length = 4 := rfl
  have hk2 : floorLog2 s < macro_tile_extents.length := by omega
  have htab : macro_tile_extents[floorLog2 s]? = some macro_tile_extents[floorLog2 s] :=
    List.getElem?_eq_getElem hk2
  have hmem : macro_tile_extents[floorLog2 s] ∈ macro_tile_extents := List.getElem_mem _
  have hl := table_lengths _ hmem
  have hbw := bit_width_bpp hb
  have hidx : t * 5 + (bit_width bpp - 4) < (macro_tile_extents[floorLog2 s]).length := by
    omega
  refine ⟨_, (macro_tile_extents[floorLog2 s])[t * 5 + (bit_width bpp - 4)], hmem,
    List.getElem_mem _, ?_⟩
  simp only [tableCell, htab]
  exact List.getElem?_eq_getElem hidx

theorem GetMacroTileExtents_eq {t bpp s : Nat} (ht : t < 27)
    (hb : bpp ∈ [8, 16, 32, 64, 128]) (h1 : 1 ≤ s) (h8 : s ≤ 8) :
    ∃ cell, tableCell t bpp s = some cell ∧ GetMacroTileExtents t bpp s = .ok cell ∧
      (cell.1 = 0 ↔ cell.2 = 0) := by
  obtain ⟨table, cell, htable, hcell, hsome⟩ := tableCell_some ht hb h1 h8
  refine ⟨cell, hsome, ?_, table_cells_uniform table htable cell hcell⟩
  have hbw := bit_width_bpp hb
  have hidx : u32 (u32 (t * 5) + bit_width bpp + (4294967296 - 4))
      = t * 5 + (bit_width bpp - 4) := by
    unfold u32; omega
  have hs0 : s ≠ 0 := by omega
  unfold tableCell at hsome
  unfold GetMacroTileExtents
  simp only [h8, if_true, hs0, if_false, hidx]
  split at hsome
  · cases hsome
  · rename_i tb htb
    simp only [htb, hsome]

theorem MacroTileLookup_eq {t bpp s : Nat} (ht : t < 27)
    (hb : bpp ∈ [8, 16, 32, 64, 128]) (h1 : 1 ≤ s) (h8 : s ≤ 8) :
    ∃ cell, tableCell t bpp s = some cell ∧
      (cell = (0, 0) → MacroTileLookup t bpp s = .error .assertion) ∧
      (cell ≠ (0, 0) → cell.1 ≠ 0 ∧ cell.2 ≠ 0 ∧ MacroTileLookup t bpp s = .ok cell) := by
  obtain ⟨cell, hsome, hget, huni⟩ := GetMacroTileExtents_eq ht hb h1 h8
  refine ⟨cell, hsome, ?_, ?_⟩
  · intro hz
    subst hz
    simp [MacroTileLookup, hget]
  · intro hnz
    obtain ⟨a, b⟩ := cell
    have ha : a ≠ 0 := by
      intro h0
      have hb0 : b = 0 := huni.mp h0
      exact hnz (by simp [h0, hb0])
    have hb0 : b ≠ 0 := fun h => ha (huni.mpr h)
    refine ⟨ha, hb0, ?_⟩
    simp [MacroTileLookup, hget, ha, hb0]

/-- C8: for a tiling index in 0..26, `bpp` in {8,16,32,64,128} and a sample count in
{1,2,4,8} whose table cell `(pitch_align, height_align)` is not `(0, 0)`, for every
`mip_n > 0` and every `pitch`, `height` with `pitch < pitch_align` or
`height < height_align`, `ImageSizeMacroTiled` returns exactly what
`ImageSizeMicroTiled` returns on the same `pitch`, `height`, `bpp`, `num_samples`. -/
theorem ImageSizeMacroTiled_downgrade (tiling_idx bpp num_samples mip_n pitch height : Nat)
    (pitch_align height_align : Nat)
    (ht : tiling_idx ≤ 26) (hb : bpp ∈ [8, 16, 32, 64, 128])
    (hs : num_samples ∈ [1, 2, 4, 8])
    (hcell : tableCell tiling_idx bpp num_samples = some (pitch_align, height_align))
    (hnz : (pitch_align, height_align) ≠ (0, 0))
    (hmip : 0 < mip_n)
    (hless : pitch < pitch_align ∨ height < height_align) :
    ImageSizeMacroTiled pitch height bpp num_samples tiling_idx mip_n
      = ImageSizeMicroTiled pitch height bpp num_samples := by
  have hs18 : 1 ≤ num_samples ∧ num_samples ≤ 8 := by
    simp only [List.mem_cons, List.mem_singleton, List.not_mem_nil, or_false] at hs
    omega
  obtain ⟨cell, hsome, _, hok⟩ := MacroTileLookup_eq (Nat.lt_succ_of_le ht) hb hs18.1 hs18.2
  rw [hcell] at hsome
  cases hsome
  obtain ⟨_, _, hlook⟩ := hok hnz
  simp [ImageSizeMacroTiled, hlook, hmip, hless]

set_option maxRecDepth 100000 in
theorem ImageSizeMacroTiled_downgrade_witness :
    ImageSizeMacroTiled 32 32 32 1 14 2 = ImageSizeMicroTiled 32 32 32 1 :=
  ImageSizeMacroTiled_downgrade 14 32 1 2 32 32 128 64 (by decide) (by decide) (by decide)
    (by decide) (by decide) (by decide) (by decide)

set_option maxRecDepth 100000 in
/-- C9 (counterexample): with 3 samples, which is not a power of two, the lookup for
tiling index 0 and 8 bits per texel does not assert; it returns the cell `(256, 128)`
of the 2-sample table. -/
theorem MacroTileLookup_three_samples :
    3 ∉ [1, 2, 4, 8] ∧ MacroTileLookup 0 8 3 = .ok (256, 128) := by
  decide

/-- C9 (amended): for a tiling index in 0..26, `bpp` in {8,16,32,64,128} and
`num_samples >= 1`, the lookup of `ImageSizeMacroTiled` fails with an assertion if and
only if `num_samples > 8` or the cell in row `tiling_idx`, column `bit_width(bpp) - 4`
of table `floor(log2(num_samples))` is `(0, 0)`; when `num_samples <= 8` and the cell is
not `(0, 0)`, it returns the cell. -/
theorem MacroTileLookup_asserts_iff (tiling_idx bpp num_samples : Nat)
    (ht : tiling_idx ≤ 26) (hb : bpp ∈ [8, 16, 32, 64, 128]) (hs : 1 ≤ num_samples) :
    (MacroTileLookup tiling_idx bpp num_samples = .error .assertion ↔
      (8 < num_samples ∨ tableCell tiling_idx bpp num_samples = some (0, 0))) ∧
    (num_samples ≤ 8 → ∃ cell, tableCell tiling_idx bpp num_samples = some cell ∧
      (cell ≠ (0, 0) → MacroTileLookup tiling_idx bpp num_samples = .ok cell)) := by
  by_cases h8 : num_samples ≤ 8
  · obtain ⟨cell, hsome, hzero, hok⟩ := MacroTileLookup_eq (Nat.lt_succ_of_le ht) hb hs h8
    refine ⟨⟨?_, ?_⟩, fun _ => ⟨cell, hsome, fun hnz => (hok hnz).2.2⟩⟩
    · intro hfail
      right
      by_cases hc : cell = (0, 0)
      · rw [hsome, hc]
      · rw [(hok hc).2.2] at hfail
        cases hfail
    · rintro (hgt | hc)
      · omega
      · rw [hsome] at hc
        cases hc
        exact hzero rfl
  · have hfail : MacroTileLookup tiling_idx bpp num_samples = .error .assertion := by
      simp [MacroTileLookup, GetMacroTileExtents, h8]
    exact ⟨⟨fun _ => Or.inl (by omega), fun _ => hfail⟩, fun h => absurd h h8⟩

set_option maxRecDepth 100000 in
theorem MacroTileLookup_asserts_iff_witness :
    (MacroTileLookup 5 32 4 = .error .assertion ↔
      (8 < 4 ∨ tableCell 5 32 4 = some (0, 0))) ∧
    (4 ≤ 8 → ∃ cell, tableCell 5 32 4 = some cell ∧
      (cell ≠ (0, 0) → MacroTileLookup 5 32 4 = .ok cell)) :=
  MacroTileLookup_asserts_iff 5 32 4 (by decide) (by decide) (by decide)

theorem alignUp32_pow2 (x k : Nat) (hk : k ≤ 32) :
    alignUp32 x (2 ^ k) = u32 (x + 2 ^ k - 1) / 2 ^ k * 2 ^ k := by
  unfold alignUp32
  have hy : u32 (x + 2 ^ k - 1) < 2 ^ 32 := Nat.mod_lt _ (by decide)
  generalize u32 (x + 2 ^ k - 1) = y at hy ⊢
  have hpos : 0 < 2 ^ k := Nat.two_pow_pos k
  have hle : 2 ^ k ≤ 2 ^ 32 := Nat.pow_le_pow_right (by decide) hk
  have hmask : not32 (2 ^ k - 1) = 2 ^ 32 - (2 ^ k - 1 + 1) := by
    unfold not32
    have h32 : (4294967296 : Nat) = 2 ^ 32 := by norm_num
    have : (2 ^ k - 1) % 4294967296 = 2 ^ k - 1 := Nat.mod_eq_of_lt (by omega)
    rw [this]
    omega
  rw [hmask]
  apply Nat.eq_of_testBit_eq
  intro i
  rw [Nat.testBit_and, Nat.testBit_two_pow_sub_succ (by omega), Nat.testBit_two_pow_sub_one,
    Nat.mul_comm, Nat.testBit_mul_pow_two, ← Nat.shiftRight_eq_div_pow, Nat.testBit_shiftRight]
  by_cases hik : i < k
  · simp [hik, Nat.not_le_of_lt hik]
  · have hki : k ≤ i := Nat.le_of_not_lt hik
    by_cases hi32 : i < 32
    · simp [hik, hki, hi32, Nat.add_sub_cancel' hki]
    · have hyi : y < 2 ^ i :=
        Nat.lt_of_lt_of_le hy (Nat.pow_le_pow_right (by decide) (Nat.le_of_not_lt hi32))
      simp [hik, hki, hi32, Nat.add_sub_cancel' hki, Nat.testBit_lt_two_pow hyi]

theorem alignUp32_8 (x : Nat) : alignUp32 x 8 = u32 (x + 7) / 8 * 8 :=
  alignUp32_pow2 x 3 (by decide)

theorem alignUp32_16 (x : Nat) : alignUp32 x 16 = u32 (x + 15) / 16 * 16 :=
  alignUp32_pow2 x 4 (by decide)

theorem alignUp32_32 (x : Nat) : alignUp32 x 32 = u32 (x + 31) / 32 * 32 :=
  alignUp32_pow2 x 5 (by decide)

theorem alignUp32_64 (x : Nat) : alignUp32 x 64 = u32 (x + 63) / 64 * 64 :=
  alignUp32_pow2 x 6 (by decide)

theorem alignUp32_128 (x : Nat) : alignUp32 x 128 = u32 (x + 127) / 128 * 128 :=
  alignUp32_pow2 x 7 (by decide)

theorem alignUp32_256 (x : Nat) : alignUp32 x 256 = u32 (x + 255) / 256 * 256 :=
  alignUp32_pow2 x 8 (by decide)

theorem micro_check {p H : Nat} (bpp s : Nat) (hp : p % 256 = 0) (hH : H % 8 = 0) :
    u32 (p * H * bpp * s + 7) / 8 % 256 = 0 := by
  obtain ⟨a, rfl⟩ := Nat.dvd_of_mod_eq_zero hp
  obtain ⟨b, rfl⟩ := Nat.dvd_of_mod_eq_zero hH
  have : 256 * a * (8 * b) * bpp * s = 2048 * (a * b * bpp * s) := by ring
  rw [this]
  generalize a * b * bpp * s = c
  unfold u32
  omega

theorem micro_loop_inv (H bpp s : Nat) : ∀ (fuel p0 p sz : Nat),
    MicroLoop H bpp s fuel p0 = some (p, sz) → p0 % 8 = 0 → p0 < 4294967296 →
    p % 8 = 0 ∧ p < 4294967296 ∧ sz = u32 (p * H * bpp * s + 7) / 8 ∧ sz % 256 = 0 := by
  intro fuel
  induction fuel with
  | zero => intro p0 p sz h; simp [MicroLoop] at h
  | succ n ih =>
    intro p0 p sz h h8 hlt
    rw [MicroLoop] at h
    split_ifs at h with hc
    · cases h
      exact ⟨h8, hlt, rfl, hc⟩
    · exact ih _ p sz h (by unfold u32; omega) (Nat.mod_lt _ (by decide))

theorem micro_loop_total (H bpp s : Nat) (hH : H % 8 = 0) : ∀ (k fuel p0 : Nat),
    (p0 + 8 * k) % 256 = 0 → k < fuel → ∃ r, MicroLoop H bpp s fuel p0 = some r := by
  intro k
  induction k with
  | zero =>
    intro fuel p0 hk hf
    obtain ⟨n, rfl⟩ : ∃ n, fuel = n + 1 := ⟨fuel - 1, by omega⟩
    have := micro_check bpp s (p := p0) (by omega) hH
    rw [MicroLoop]
    simp only [this, if_true]
    exact ⟨_, rfl⟩
  | succ j ih =>
    intro fuel p0 hk hf
    obtain ⟨n, rfl⟩ : ∃ n, fuel = n + 1 := ⟨fuel - 1, by omega⟩
    rw [MicroLoop]
    split_ifs with hc
    · exact ⟨_, rfl⟩
    · exact ih n _ (by unfold u32; omega) (by omega)

theorem micro_loop_first {H bpp s p sz : Nat}
    (hsz : sz = u32 (p * H * bpp * s + 7) / 8) (hc : sz % 256 = 0) :
    MicroLoop H bpp s loopFuel p = some (p, sz) := by
  have : loopFuel = 4294967295 + 1 := rfl
  rw [this, MicroLoop]
  subst hsz
  simp only [hc, if_true]

theorem ImageSizeMicroTiled_total (pitch height bpp s : Nat) :
    ∃ p sz, ImageSizeMicroTiled pitch height bpp s = .ok (p, sz) ∧
      p % 8 = 0 ∧ p < 4294967296 ∧
      sz = u32 (p * alignUp32 height 8 * bpp * s + 7) / 8 ∧ sz % 256 = 0 := by
  have hH : alignUp32 height 8 % 8 = 0 := by rw [alignUp32_8]; omega
  have hp8 : alignUp32 pitch 8 % 8 = 0 := by rw [alignUp32_8]; omega
  have hplt : alignUp32 pitch 8 < 4294967296 := by
    rw [alignUp32_8]; unfold u32; omega
  obtain ⟨⟨p, sz⟩, hr⟩ := micro_loop_total (alignUp32 height 8) bpp s hH
    ((256 - alignUp32 pitch 8 % 256) / 8) loopFuel (alignUp32 pitch 8) (by omega)
    (by unfold loopFuel; omega)
  refine ⟨p, sz, ?_, micro_loop_inv _ _ _ _ _ _ _ hr hp8 hplt⟩
  simp only [ImageSizeMicroTiled, micro_tile_extent, hr]

theorem linear_params {bpp : Nat} (hb : bpp ∈ [8, 16, 32, 64, 128]) :
    u32 (bpp + 7) / 8 ≠ 0 ∧
    (max 8 (64 / (u32 (bpp + 7) / 8)), max 64 (256 / (u32 (bpp + 7) / 8)))
      ∈ [(64, 256), (32, 128), (16, 64), (8, 64)] := by
  simp only [List.mem_cons, List.mem_singleton, List.not_mem_nil, or_false] at hb
  rcases hb with rfl | rfl | rfl | rfl | rfl <;> decide

theorem linear_align {pa sa : Nat} (hpa : (pa, sa) ∈ [(64, 256), (32, 128), (16, 64), (8, 64)])
    (x : Nat) : alignUp32 x pa = u32 (x + pa - 1) / pa * pa := by
  simp only [List.mem_cons, List.mem_singleton, List.not_mem_nil, or_false,
    Prod.mk.injEq] at hpa
  rcases hpa with ⟨rfl, rfl⟩ | ⟨rfl, rfl⟩ | ⟨rfl, rfl⟩ | ⟨rfl, rfl⟩
  · exact alignUp32_64 x
  · exact alignUp32_32 x
  · exact alignUp32_16 x
  · exact alignUp32_8 x

theorem linear_check {pa sa : Nat}
    (hpa : (pa, sa) ∈ [(64, 256), (32, 128), (16, 64), (8, 64)]) {p : Nat} (h s : Nat)
    (hp : p % sa = 0) : u32 (p * h * s) % sa = 0 := by
  obtain ⟨a, rfl⟩ := Nat.dvd_of_mod_eq_zero hp
  have : sa * a * h * s = sa * (a * h * s) := by ring
  rw [this]
  generalize a * h * s = c
  simp only [List.mem_cons, List.mem_singleton, List.not_mem_nil, or_false,
    Prod.mk.injEq] at hpa
  unfold u32
  rcases hpa with ⟨rfl, rfl⟩ | ⟨rfl, rfl⟩ | ⟨rfl, rfl⟩ | ⟨rfl, rfl⟩ <;> omega

theorem linear_loop_inv {pa sa : Nat}
    (hpa : (pa, sa) ∈ [(64, 256), (32, 128), (16, 64), (8, 64)]) (h s : Nat) :
    ∀ (fuel p0 p lsz : Nat),
      LinearLoop pa h s sa fuel p0 = some (p, lsz) → p0 % pa = 0 → p0 < 4294967296 →
      p % pa = 0 ∧ p < 4294967296 ∧ lsz = u32 (p * h * s) ∧ lsz % sa = 0 := by
  intro fuel
  induction fuel with
  | zero => intro p0 p lsz hr; simp [LinearLoop] at hr
  | succ n ih =>
    intro p0 p lsz hr h0 hlt
    rw [LinearLoop] at hr
    split_ifs at hr with hc
    · cases hr
      exact ⟨h0, hlt, rfl, hc⟩
    · refine ih _ p lsz hr ?_ (Nat.mod_lt _ (by decide))
      simp only [List.mem_cons, List.mem_singleton, List.not_mem_nil, or_false,
        Prod.mk.injEq] at hpa
      unfold u32
      rcases hpa with ⟨rfl, rfl⟩ | ⟨rfl, rfl⟩ | ⟨rfl, rfl⟩ | ⟨rfl, rfl⟩ <;> omega

theorem linear_loop_total {pa sa : Nat}
    (hpa : (pa, sa) ∈ [(64, 256), (32, 128), (16, 64), (8, 64)]) (h s : Nat) :
    ∀ (k fuel p0 : Nat),
      (p0 + pa * k) % sa = 0 → k < fuel → ∃ r, LinearLoop pa h s sa fuel p0 = some r := by
  intro k
  induction k with
  | zero =>
    intro fuel p0 hk hf
    obtain ⟨n, rfl⟩ : ∃ n, fuel = n + 1 := ⟨fuel - 1, by omega⟩
    have := linear_check hpa h s (p := p0) (by simpa using hk)
    rw [LinearLoop]
    simp only [this, if_true]
    exact ⟨_, rfl⟩
  | succ j ih =>
    intro fuel p0 hk hf
    obtain ⟨n, rfl⟩ : ∃ n, fuel = n + 1 := ⟨fuel - 1, by omega⟩
    rw [LinearLoop]
    split_ifs with hc
    · exact ⟨_, rfl⟩
    · refine ih n _ ?_ (by omega)
      simp only [List.mem_cons, List.mem_singleton, List.not_mem_nil, or_false,
        Prod.mk.injEq] at hpa
      unfold u32
      rcases hpa with ⟨rfl, rfl⟩ | ⟨rfl, rfl⟩ | ⟨rfl, rfl⟩ | ⟨rfl, rfl⟩ <;> omega

theorem linear_loop_first {pa sa h s p lsz : Nat}
    (hl : lsz = u32 (p * h * s)) (hc : lsz % sa = 0) :
    LinearLoop pa h s sa loopFuel p = some (p, lsz) := by
  have : loopFuel = 4294967295 + 1 := rfl
  rw [this, LinearLoop]
  subst hl
  simp only [hc, if_true]

theorem linear_core {pa sa : Nat}
    (hpa : (pa, sa) ∈ [(64, 256), (32, 128), (16, 64), (8, 64)]) (pitch h s : Nat) :
    ∃ p lsz, LinearLoop pa h s sa loopFuel (alignUp32 pitch pa) = some (p, lsz) ∧
      alignUp32 p pa = p ∧ p < 4294967296 ∧ lsz = u32 (p * h * s) ∧ lsz % sa = 0 := by
  have hal := linear_align hpa
  have hpa2 := hpa
  simp only [List.mem_cons, List.mem_singleton, List.not_mem_nil, or_false,
    Prod.mk.injEq] at hpa2
  have h0 : alignUp32 pitch pa % pa = 0 ∧ alignUp32 pitch pa < 4294967296 := by
    rw [hal]
    unfold u32
    rcases hpa2 with ⟨rfl, rfl⟩ | ⟨rfl, rfl⟩ | ⟨rfl, rfl⟩ | ⟨rfl, rfl⟩ <;> omega
  obtain ⟨⟨p, lsz⟩, hr⟩ := linear_loop_total hpa h s
    ((sa - alignUp32 pitch pa % sa) / pa) loopFuel (alignUp32 pitch pa)
    (by
      have := h0.1
      generalize alignUp32 pitch pa = q at this ⊢
      rcases hpa2 with ⟨rfl, rfl⟩ | ⟨rfl, rfl⟩ | ⟨rfl, rfl⟩ | ⟨rfl, rfl⟩ <;> omega)
    (by
      unfold loopFuel
      generalize alignUp32 pitch pa = q
      rcases hpa2 with ⟨rfl, rfl⟩ | ⟨rfl, rfl⟩ | ⟨rfl, rfl⟩ | ⟨rfl, rfl⟩ <;> omega)
  obtain ⟨hp, hplt, hl, hc⟩ := linear_loop_inv hpa h s _ _ _ _ hr h0.1 h0.2
  refine ⟨p, lsz, hr, ?_, hplt, hl, hc⟩
  rw [hal]
  unfold u32
  rcases hpa2 with ⟨rfl, rfl⟩ | ⟨rfl, rfl⟩ | ⟨rfl, rfl⟩ | ⟨rfl, rfl⟩ <;> omega

/-- C10: the micro-tiled and the linear size function return a result, and are
idempotent under their own alignment. For every `pitch`, `num_samples` and `bpp`, and
every `height` whose round-up to a multiple of 8 is below `2^32`,
`ImageSizeMicroTiled(pitch, height, bpp, s)` returns some `(p, sz)` and
`ImageSizeMicroTiled(p, height rounded up to a multiple of 8, bpp, s)` returns the same
`(p, sz)`; for `bpp` in {8,16,32,64,128}, `ImageSizeLinearAligned(pitch, height, bpp, s)`
returns some `(p, sz)` and `ImageSizeLinearAligned(p, height, bpp, s)` returns the same
`(p, sz)`. -/
theorem size_functions_idempotent (pitch height bpp num_samples : Nat)
    (hb : bpp ∈ [8, 16, 32, 64, 128])
    (hno : (height + 7) / 8 * 8 < 4294967296) :
    (∃ p sz, ImageSizeMicroTiled pitch height bpp num_samples = .ok (p, sz) ∧
      ImageSizeMicroTiled p ((height + 7) / 8 * 8) bpp num_samples = .ok (p, sz)) ∧
    (∃ p sz, ImageSizeLinearAligned pitch height bpp num_samples = .ok (p, sz) ∧
      ImageSizeLinearAligned p height bpp num_samples = .ok (p, sz)) := by
  constructor
  · obtain ⟨p, sz, hr, hp8, hplt, hsz, hc⟩ :=
      ImageSizeMicroTiled_total pitch height bpp num_samples
    refine ⟨p, sz, hr, ?_⟩
    have hH : alignUp32 height 8 = (height + 7) / 8 * 8 := by
      rw [alignUp32_8]; unfold u32; omega
    have hH2 : alignUp32 ((height + 7) / 8 * 8) 8 = (height + 7) / 8 * 8 := by
      rw [alignUp32_8]; unfold u32; omega
    have hP : alignUp32 p 8 = p := by
      rw [alignUp32_8]; unfold u32; omega
    rw [hH] at hsz
    simp only [ImageSizeMicroTiled, micro_tile_extent, hH2, hP, micro_loop_first hsz hc]
  · obtain ⟨hbytes, hpa⟩ := linear_params hb
    obtain ⟨p, lsz, hr, hP, _, hl, hc⟩ := linear_core hpa pitch height num_samples
    refine ⟨p, u64 (lsz * bpp + 7) / 8, ?_, ?_⟩
    · simp only [ImageSizeLinearAligned, hbytes, if_false, hr]
    · simp only [ImageSizeLinearAligned, hbytes, if_false, hP, linear_loop_first hl hc]

theorem size_functions_idempotent_witness :
    (∃ p sz, ImageSizeMicroTiled 20 20 32 1 = .ok (p, sz) ∧
      ImageSizeMicroTiled p ((20 + 7) / 8 * 8) 32 1 = .ok (p, sz)) ∧
    (∃ p sz, ImageSizeLinearAligned 20 20 32 1 = .ok (p, sz) ∧
      ImageSizeLinearAligned p 20 32 1 = .ok (p, sz)) :=
  size_functions_idempotent 20 20 32 1 (by decide) (by decide)

/-- C13: for a display buffer with one of the 32-bit formats, width `w` and height
`h`: a linear buffer gets `pitch == w` and `guest_size == w * h * 4`; a tiled buffer
gets `pitch` = `w` rounded up to a multiple of 128 and `guest_size == pitch * H * 4`,
where `H` is `h` rounded up to a multiple of 128 in Neo mode and of 64 otherwise
(the rounded values and the byte count being below `2^32`); in both cases
`mips_layout` is the single entry of size `guest_size`, that pitch, height 0 and
offset 0 (an entry is written size, pitch, height, offset). -/
theorem display_buffer_layout (neo : Bool) (attrib : BufferAttribute) (cpu_address : Nat)
    (P H : Nat)
    (hfmt : attrib.pixel_format ∈ [VideoOutFormat.A8R8G8B8Srgb, VideoOutFormat.A8B8G8R8Srgb,
      VideoOutFormat.A2R10G10B10, VideoOutFormat.A2R10G10B10Srgb])
    (hP : P = if attrib.tiling_mode = .Linear then attrib.width
      else (attrib.width + 127) / 128 * 128)
    (hH : H = if attrib.tiling_mode = .Linear then attrib.height
      else if neo then (attrib.height + 127) / 128 * 128
      else (attrib.height + 63) / 64 * 64)
    (hPfit : P < 4294967296) (hHfit : H < 4294967296)
    (hno : P * H * 4 < 4294967296) :
    ∃ info, ImageInfo.fromBufferAttributeGroup neo attrib cpu_address = .ok info ∧
      info.pitch = P ∧ info.guest_size = P * H * 4 ∧
      info.mips_layout = [(⟨P * H * 4, P, 0, 0⟩ : MipInfo)] := by
  obtain ⟨fmt, hconv⟩ : ∃ fmt, ConvertPixelFormat attrib.pixel_format = .ok fmt := by
    simp only [List.mem_cons, List.mem_singleton, List.not_mem_nil, or_false] at hfmt
    rcases hfmt with h | h | h | h <;> rw [h] <;> exact ⟨_, rfl⟩
  have hne : attrib.pixel_format ≠ VideoOutFormat.A16R16G16B16Float := by
    simp only [List.mem_cons, List.mem_singleton, List.not_mem_nil, or_false] at hfmt
    rcases hfmt with h | h | h | h <;> rw [h] <;> decide
  have key : ∃ info, ImageInfo.fromBufferAttributeGroup neo attrib cpu_address = .ok info ∧
      info.pitch = (if attrib.tiling_mode = .Linear then attrib.width
        else alignUp32 attrib.width 128) ∧
      info.guest_size = (if (!decide (attrib.tiling_mode = .Tile)) = true then
          u32 ((if attrib.tiling_mode = .Linear then attrib.width
            else alignUp32 attrib.width 128) * attrib.height * 4)
        else if neo = true then
          u32 ((if attrib.tiling_mode = .Linear then attrib.width
            else alignUp32 attrib.width 128) * alignUp32 attrib.height 128 * 4)
        else
          u32 ((if attrib.tiling_mode = .Linear then attrib.width
            else alignUp32 attrib.width 128) * alignUp32 attrib.height 64 * 4)) ∧
      info.mips_layout = [(⟨info.guest_size, info.pitch, 0, 0⟩ : MipInfo)] := by
    simp only [ImageInfo.fromBufferAttributeGroup, hconv, hne, ne_eq, not_false_eq_true,
      if_true]
    exact ⟨_, rfl, rfl, rfl, rfl⟩
  obtain ⟨info, hinfo, hpitch, hsize, hmips⟩ := key
  have hu : u32 (P * H * 4) = P * H * 4 := Nat.mod_eq_of_lt hno
  have hpitch2 : info.pitch = P := by
    rw [hpitch, hP]
    cases hmode : attrib.tiling_mode with
    | Linear => simp
    | Tile =>
      have hP2 : P = (attrib.width + 127) / 128 * 128 := by simpa [hmode] using hP
      simp only [reduceCtorEq, if_false]
      rw [alignUp32_128]; unfold u32; omega
  have hsize2 : info.guest_size = P * H * 4 := by
    rw [hsize, ← hpitch, hpitch2]
    cases hmode : attrib.tiling_mode with
    | Linear =>
      have hH2 : H = attrib.height := by simpa [hmode] using hH
      simp [hu, ← hH2]
    | Tile =>
      cases neo with
      | true =>
        have hH2 : H = (attrib.height + 127) / 128 * 128 := by simpa [hmode] using hH
        have hha : alignUp32 attrib.height 128 = H := by
          rw [alignUp32_128, hH2]; unfold u32; omega
        simp [hu, hha]
      | false =>
        have hH2 : H = (attrib.height + 63) / 64 * 64 := by simpa [hmode] using hH
        have hha : alignUp32 attrib.height 64 = H := by
          rw [alignUp32_64, hH2]; unfold u32; omega
        simp [hu, hha]
  exact ⟨info, hinfo, hpitch2, hsize2, by rw [hmips, hsize2, hpitch2]⟩

/-- A linear 1920x1080 display buffer. -/
theorem display_buffer_layout_witness :
    (∃ info, ImageInfo.fromBufferAttributeGroup false
        ⟨.A8R8G8B8Srgb, .Linear, 1920, 1080⟩ 4096 = .ok info ∧
      info.pitch = 1920 ∧ info.guest_size = 1920 * 1080 * 4 ∧
      info.mips_layout = [(⟨1920 * 1080 * 4, 1920, 0, 0⟩ : MipInfo)]) ∧
    (∃ info, ImageInfo.fromBufferAttributeGroup true
        ⟨.A8R8G8B8Srgb, .Tile, 1920, 1080⟩ 4096 = .ok info ∧
      info.pitch = 1920 ∧ info.guest_size = 1920 * 1152 * 4 ∧
      info.mips_layout = [(⟨1920 * 1152 * 4, 1920, 0, 0⟩ : MipInfo)]) :=
  ⟨display_buffer_layout false ⟨.A8R8G8B8Srgb, .Linear, 1920, 1080⟩ 4096 1920 1080
      (by decide) (by decide) (by decide) (by decide) (by decide) (by decide),
   display_buffer_layout true ⟨.A8R8G8B8Srgb, .Tile, 1920, 1080⟩ 4096 1920 1152
      (by decide) (by decide) (by decide) (by decide) (by decide) (by decide)⟩

theorem UpdateSize_recorded {info info1 : ImageInfo} (h : UpdateSize info = .ok info1) :
    info1.mips_layout.length = info.resources.levels ∧
    (∃ stop, Chain 0 info1.mips_layout stop) ∧
    info1.guest_size = u32 (sumSizes info1.mips_layout * info.resources.layers) ∧
    ∀ i m, info1.mips_layout[i]? = some m → Recorded info i m := by
  obtain ⟨st, hloop, rfl⟩ := UpdateSize_ok h
  obtain ⟨added, hadd, hlen, hchain, hrec⟩ := loop_ok _ _ _ _ hloop
  have hL : st.mips_layout = added := by simpa using hadd
  have h0 : (0 : Nat) = ({} : LoopState).guest_size := rfl
  rw [← h0] at hchain
  have hstop := chain_stop added 0 _ hchain
  simp only [hL]
  refine ⟨hlen, ⟨_, hchain⟩, ?_, ?_⟩
  · have : u32 (st.guest_size * info.resources.layers)
        = u32 (u32 st.guest_size * info.resources.layers) := by
      simp [u32, Nat.mul_mod, Nat.mod_mod]
    rw [this, hstop]
    simp only [u32, Nat.zero_add]
    rw [Nat.mod_mul_mod]
  · intro i m him
    simpa using hrec i m him

/-- C15 (counterexample): for a block-compressed image of pitch and height 20, the
working width and height of level 1 are `ceil((20 >> 1) / 4) = 3`, while
`ceil(20 / 4) >> 1 = 2`. -/
theorem dims_block_shift_first :
    UpdateSize.dims (sampleBlock 20 2) 1 = .ok ⟨64, 3, 3, 1⟩ ∧
    max ((((sampleBlock 20 2).pitch + 3) / 4) >>> 1) 1 = 2 ∧
    max ((((sampleBlock 20 2).size.height + 3) / 4) >>> 1) 1 = 2 := by
  decide

/-- C15 (amended): for a block-compressed descriptor and a level `m < 32`, the range
in which the 32-bit shifts by `m` are defined (with `pitch + 3`, `size.height + 3` and
`16 * num_bits` below `2^32`), the bits per unit passed to the size function are
`16 * num_bits` and the working width and height are `max(ceil((pitch >> m) / 4), 1)`
and `max(ceil((size.height >> m) / 4), 1)`: the shift is applied to the texel extent
and the result is converted to 4x4 block units; when `is_pow2` is set each of them is
then rounded up to a power of two. -/
theorem dims_block (info : ImageInfo) (m : Nat) (hm32 : m < 32)
    (hblock : info.props.is_block = true)
    (hp : info.pitch + 3 < 4294967296) (hh : info.size.height + 3 < 4294967296)
    (hb : 16 * info.num_bits < 4294967296) :
    (info.props.is_pow2 = false →
      UpdateSize.dims info m = .ok ⟨16 * info.num_bits,
        max (((info.pitch >>> m) + 3) / 4) 1, max (((info.size.height >>> m) + 3) / 4) 1,
        max (info.size.depth >>> m) 1⟩) ∧
    (info.props.is_pow2 = true → max (info.size.depth >>> m) 1 ≤ 2147483648 →
      UpdateSize.dims info m = .ok ⟨16 * info.num_bits,
        bit_ceil (max (((info.pitch >>> m) + 3) / 4) 1),
        bit_ceil (max (((info.size.height >>> m) + 3) / 4) 1),
        bit_ceil (max (info.size.depth >>> m) 1)⟩) := by
  have hsp : info.pitch >>> m ≤ info.pitch := by
    rw [Nat.shiftRight_eq_div_pow]; exact Nat.div_le_self _ _
  have hsh : info.size.height >>> m ≤ info.size.height := by
    rw [Nat.shiftRight_eq_div_pow]; exact Nat.div_le_self _ _
  have hw : u32 (info.pitch >>> m + 3) = info.pitch >>> m + 3 :=
    Nat.mod_eq_of_lt (by omega)
  have hh2 : u32 (info.size.height >>> m + 3) = info.size.height >>> m + 3 :=
    Nat.mod_eq_of_lt (by omega)
  have hb2 : u32 (info.num_bits * 16) = 16 * info.num_bits := by
    unfold u32; omega
  have hshift : ¬ 32 ≤ m := by omega
  constructor
  · intro hpow
    simp [UpdateSize.dims, hshift, hblock, hpow, hw, hh2, hb2]
  · intro hpow hd
    have h1 : max ((info.pitch >>> m + 3) / 4) 1 ≤ 2147483648 := by omega
    have h2 : max ((info.size.height >>> m + 3) / 4) 1 ≤ 2147483648 := by omega
    simp [UpdateSize.dims, hshift, hblock, hpow, hw, hh2, hb2, bit_ceil32, h1, h2, hd]

theorem dims_block_witness :
    ((sampleBlock 20 2).props.is_pow2 = false →
      UpdateSize.dims (sampleBlock 20 2) 1 = .ok ⟨16 * 4,
        max (((20 >>> 1) + 3) / 4) 1, max (((20 >>> 1) + 3) / 4) 1, max (1 >>> 1) 1⟩) ∧
    ((sampleBlock 20 2).props.is_pow2 = true → max (1 >>> 1) 1 ≤ 2147483648 →
      UpdateSize.dims (sampleBlock 20 2) 1 = .ok ⟨16 * 4,
        bit_ceil (max (((20 >>> 1) + 3) / 4) 1), bit_ceil (max (((20 >>> 1) + 3) / 4) 1),
        bit_ceil (max (1 >>> 1) 1)⟩) :=
  dims_block (sampleBlock 20 2) 1 (by decide) (by decide) (by decide) (by decide)
    (by decide)

theorem dispatch_micro {info : ImageInfo} {mip : Nat} {prev mi : MipInfo} {dm : MipDims}
    {d : Nat}
    (hmode : info.tiling_mode = .Texture_MicroTiled ∨ info.tiling_mode = .Texture_Volume)
    (h : UpdateSize.dispatch info mip prev dm = .ok (mi, d)) :
    ∃ p sz, ImageSizeMicroTiled dm.mip_w dm.mip_h dm.bpp info.num_samples = .ok (p, sz) ∧
      mi.size = u32 sz ∧
      mi.pitch = (if info.props.is_block then max (u32 (p * 4)) 32 else p) ∧
      mi.height = (if info.props.is_block then max (u32 (max dm.mip_h 8 * 4)) 32
        else max dm.mip_h 8) ∧
      d = (if info.tiling_mode = .Texture_Volume then u32 (dm.mip_d + (neg32 dm.mip_d &&& 3))
        else dm.mip_d) := by
  unfold UpdateSize.dispatch at h
  rcases hmode with hm | hm
  all_goals
    simp only [hm] at h
    split at h
    · cases h
    · rename_i p sz hsz
      refine ⟨p, sz, hsz, ?_⟩
      split_ifs at h with hb
      all_goals first
        | contradiction
        | (cases h; simp [hb, hm])

theorem dispatch_linear {info : ImageInfo} {mip : Nat} {prev mi : MipInfo} {dm : MipDims}
    {d : Nat} (hmode : info.tiling_mode = .Display_Linear)
    (h : UpdateSize.dispatch info mip prev dm = .ok (mi, d)) :
    ∃ p sz, ImageSizeLinearAligned dm.mip_w dm.mip_h dm.bpp info.num_samples = .ok (p, sz) ∧
      mi.size = u32 sz ∧ mi.pitch = p ∧ mi.height = dm.mip_h ∧ d = dm.mip_d := by
  unfold UpdateSize.dispatch at h
  simp only [hmode] at h
  split at h
  · cases h
  · rename_i p sz hsz
    cases h
    exact ⟨p, sz, hsz, rfl, rfl, rfl, rfl⟩

/-- C12 (counterexample): a block-compressed micro-tiled image of pitch and height 36
has working height `ceil(36 / 4) = 9` at level 0; the recorded height is
`4 * max(9, 8) = 36`, which is not a multiple of `4 * 16 = 64`, four times the working
height rounded up to a multiple of 8. -/
theorem block_height_not_aligned :
    UpdateSize.dims (sampleBlock 36 1) 0 = .ok ⟨64, 9, 9, 1⟩ ∧
    (UpdateSize (sampleBlock 36 1)).map (fun i => i.mips_layout)
      = .ok [⟨2048, 64, 36, 0⟩] ∧
    36 % (4 * ((9 + 7) / 8 * 8)) ≠ 0 := by
  decide

/-- C12 (amended): for a block-compressed descriptor in micro-tiled or volume tiling
mode on which `UpdateSize` completes, the recorded pitch and height of every level are
at least 32, with no further condition.  With `p` the aligned pitch returned by
`ImageSizeMicroTiled` for the working extents, the recorded pitch is
`max(4 * p mod 2^32, 32)` and the recorded height is
`max(4 * max(working height, 8) mod 2^32, 32)`.  So the recorded pitch is `4 * p`, a
multiple of 4 times the aligned pitch, when `p` is not 0 and `4 * p` is below `2^32`;
and the recorded height is `4 * max(working height, 8)`, not a multiple of 4 times the
working height rounded up to a multiple of 8, when that product is below `2^32`. -/
theorem block_micro_pitch_height (info info1 : ImageInfo) (i : Nat) (m : MipInfo)
    (hblock : info.props.is_block = true)
    (hmode : info.tiling_mode = .Texture_MicroTiled ∨ info.tiling_mode = .Texture_Volume)
    (hrun : UpdateSize info = .ok info1)
    (hm : info1.mips_layout[i]? = some m) :
    32 ≤ m.pitch ∧ 32 ≤ m.height ∧
    ∃ dm p sz, UpdateSize.dims info i = .ok dm ∧
      ImageSizeMicroTiled dm.mip_w dm.mip_h dm.bpp info.num_samples = .ok (p, sz) ∧
      m.pitch = max (u32 (p * 4)) 32 ∧
      m.height = max (u32 (max dm.mip_h 8 * 4)) 32 ∧
      (0 < p → 4 * p < 4294967296 → m.pitch = 4 * p ∧ 4 * p ∣ m.pitch) ∧
      (4 * max dm.mip_h 8 < 4294967296 →
        m.height = 4 * max dm.mip_h 8 ∧ 4 * max dm.mip_h 8 ∣ m.height) := by
  obtain ⟨_, _, _, hrec⟩ := UpdateSize_recorded hrun
  obtain ⟨prev, dm, mi, d, hdims, hdisp, _, hpitch, hheight⟩ := hrec i m hm
  obtain ⟨p, sz, hsize, _, hmp, hmh, _⟩ := dispatch_micro hmode hdisp
  simp only [hblock, if_true] at hmp hmh
  have e1 : m.pitch = max (u32 (p * 4)) 32 := by rw [hpitch, hmp]
  have e2 : m.height = max (u32 (max dm.mip_h 8 * 4)) 32 := by rw [hheight, hmh]
  refine ⟨by rw [e1]; exact le_max_right _ _, by rw [e2]; exact le_max_right _ _,
    dm, p, sz, hdims, hsize, e1, e2, ?_, ?_⟩
  · intro hp hno
    have h1 : u32 (p * 4) = 4 * p := by unfold u32; omega
    have hp8 : 8 ≤ p := by
      obtain ⟨q, sq, hq, hq8, _, _, _⟩ :=
        ImageSizeMicroTiled_total dm.mip_w dm.mip_h dm.bpp info.num_samples
      rw [hsize] at hq
      cases hq
      omega
    have e3 : m.pitch = 4 * p := by
      rw [e1, h1]
      omega
    exact ⟨e3, by rw [e3]⟩
  · intro hno2
    have h2 : u32 (max dm.mip_h 8 * 4) = 4 * max dm.mip_h 8 := by unfold u32; omega
    have e4 : m.height = 4 * max dm.mip_h 8 := by
      rw [e2, h2]
      omega
    exact ⟨e4, by rw [e4]⟩

theorem block_micro_pitch_height_witness :
    UpdateSize (sampleBlock 36 1)
      = .ok { sampleBlock 36 1 with mips_layout := [⟨2048, 64, 36, 0⟩],
                                    guest_size := 2048 } ∧
    32 ≤ (⟨2048, 64, 36, 0⟩ : MipInfo).pitch ∧ 32 ≤ (⟨2048, 64, 36, 0⟩ : MipInfo).height ∧
    ∃ dm p sz, UpdateSize.dims (sampleBlock 36 1) 0 = .ok dm ∧
      ImageSizeMicroTiled dm.mip_w dm.mip_h dm.bpp (sampleBlock 36 1).num_samples
        = .ok (p, sz) ∧
      (⟨2048, 64, 36, 0⟩ : MipInfo).pitch = max (u32 (p * 4)) 32 ∧
      (⟨2048, 64, 36, 0⟩ : MipInfo).height = max (u32 (max dm.mip_h 8 * 4)) 32 ∧
      (0 < p → 4 * p < 4294967296 →
        (⟨2048, 64, 36, 0⟩ : MipInfo).pitch = 4 * p ∧
        4 * p ∣ (⟨2048, 64, 36, 0⟩ : MipInfo).pitch) ∧
      (4 * max dm.mip_h 8 < 4294967296 →
        (⟨2048, 64, 36, 0⟩ : MipInfo).height = 4 * max dm.mip_h 8 ∧
        4 * max dm.mip_h 8 ∣ (⟨2048, 64, 36, 0⟩ : MipInfo).height) :=
  ⟨by decide, block_micro_pitch_height (sampleBlock 36 1)
    { sampleBlock 36 1 with mips_layout := [⟨2048, 64, 36, 0⟩], guest_size := 2048 }
    0 ⟨2048, 64, 36, 0⟩ (by decide) (by decide) (by decide) (by decide)⟩

set_option maxRecDepth 100000 in
/-- C16 (counterexample): a micro-tiled, non-block 32-bit image of height 9 records the
height `max(9, 8) = 9` for level 0, not 16, the height rounded up to a multiple of 8.
The same image in macro-tiled mode (tiling index 0) records the height 0: the
macro-tiled branch assigns no height. -/
theorem micro_height_not_aligned :
    (UpdateSize (sampleOdd .Texture_MicroTiled)).map (fun i => i.mips_layout)
      = .ok [⟨1024, 16, 9, 0⟩] ∧
    (9 + 7) / 8 * 8 = 16 ∧
    (UpdateSize (sampleOdd .Texture_MacroTiled)).map (fun i => i.mips_layout)
      = .ok [⟨131072, 256, 0, 0⟩] := by
  decide

/-- C16 (amended): for a non-block descriptor on which `UpdateSize` completes, the
recorded height of a level is the working height in linear mode and
`max(working height, 8)` in micro-tiled and volume mode; in these modes it is never
smaller than the working height. -/
theorem nonblock_recorded_height (info info1 : ImageInfo) (i : Nat) (m : MipInfo)
    (dm : MipDims)
    (hblock : info.props.is_block = false)
    (hrun : UpdateSize info = .ok info1)
    (hm : info1.mips_layout[i]? = some m)
    (hdims : UpdateSize.dims info i = .ok dm) :
    (info.tiling_mode = .Display_Linear → m.height = dm.mip_h) ∧
    (info.tiling_mode = .Texture_MicroTiled ∨ info.tiling_mode = .Texture_Volume →
      m.height = max dm.mip_h 8 ∧ dm.mip_h ≤ m.height) := by
  obtain ⟨_, _, _, hrec⟩ := UpdateSize_recorded hrun
  obtain ⟨prev, dm2, mi, d, hdims2, hdisp, _, _, hheight⟩ := hrec i m hm
  rw [hdims] at hdims2
  cases hdims2
  constructor
  · intro hmode
    obtain ⟨_, _, _, _, _, hmh, _⟩ := dispatch_linear hmode hdisp
    rw [hheight, hmh]
  · intro hmode
    obtain ⟨_, _, _, _, _, hmh, _⟩ := dispatch_micro hmode hdisp
    rw [hheight, hmh]
    simp [hblock]

theorem nonblock_recorded_height_witness :
    ((sampleOdd .Texture_MicroTiled).tiling_mode = .Display_Linear →
      (⟨1024, 16, 9, 0⟩ : MipInfo).height = (⟨32, 16, 9, 1⟩ : MipDims).mip_h) ∧
    ((sampleOdd .Texture_MicroTiled).tiling_mode = .Texture_MicroTiled ∨
        (sampleOdd .Texture_MicroTiled).tiling_mode = .Texture_Volume →
      (⟨1024, 16, 9, 0⟩ : MipInfo).height = max (⟨32, 16, 9, 1⟩ : MipDims).mip_h 8 ∧
      (⟨32, 16, 9, 1⟩ : MipDims).mip_h ≤ (⟨1024, 16, 9, 0⟩ : MipInfo).height) :=
  nonblock_recorded_height (sampleOdd .Texture_MicroTiled)
    { sampleOdd .Texture_MicroTiled with mips_layout := [⟨1024, 16, 9, 0⟩], guest_size := 1024 }
    0 ⟨1024, 16, 9, 0⟩ ⟨32, 16, 9, 1⟩ (by decide) (by decide) (by decide) (by decide)

theorem mul3_mono {a b : Nat} (H c s : Nat) (h : a ≤ b) : a * H * c * s ≤ b * H * c * s :=
  Nat.mul_le_mul_right _ (Nat.mul_le_mul_right _ (Nat.mul_le_mul_right _ h))

theorem le_mul3 {a H c s : Nat} (hH : 1 ≤ H) (hc : 1 ≤ c) (hs : 1 ≤ s) : a ≤ a * H * c * s := by
  calc a = a * 1 * 1 * 1 := by simp
    _ ≤ a * H * c * s :=
      Nat.mul_le_mul (Nat.mul_le_mul (Nat.mul_le_mul_left _ hH) hc) hs

theorem micro_loop_exact (H bpp s : Nat) : ∀ (j fuel q : Nat),
    (∀ i, i < j → ¬ (((q + 8 * i) * H * bpp * s + 7) / 8 % 256 = 0)) →
    ((q + 8 * j) * H * bpp * s + 7) / 8 % 256 = 0 →
    (q + 8 * j) * H * bpp * s + 7 < 4294967296 → q + 8 * j < 4294967296 → j < fuel →
    MicroLoop H bpp s fuel q
      = some (q + 8 * j, ((q + 8 * j) * H * bpp * s + 7) / 8) := by
  intro j
  induction j with
  | zero =>
    intro fuel q _ hgood hfit _ hf
    obtain ⟨n, rfl⟩ : ∃ n, fuel = n + 1 := ⟨fuel - 1, by omega⟩
    simp only [Nat.mul_zero, Nat.add_zero] at hgood hfit ⊢
    have hu : u32 (q * H * bpp * s + 7) = q * H * bpp * s + 7 := Nat.mod_eq_of_lt hfit
    rw [MicroLoop]
    simp only [hu, hgood, if_true]
  | succ j ih =>
    intro fuel q hbad hgood hfit hq hf
    obtain ⟨n, rfl⟩ : ∃ n, fuel = n + 1 := ⟨fuel - 1, by omega⟩
    have hmono : q * H * bpp * s ≤ (q + 8 * (j + 1)) * H * bpp * s :=
      mul3_mono H bpp s (by omega)
    have hu : u32 (q * H * bpp * s + 7) = q * H * bpp * s + 7 :=
      Nat.mod_eq_of_lt (by omega)
    have h0 := hbad 0 (by omega)
    simp only [Nat.mul_zero, Nat.add_zero] at h0
    have hq8 : u32 (q + 8) = q + 8 := Nat.mod_eq_of_lt (by omega)
    have hshift : q + 8 + 8 * j = q + 8 * (j + 1) := by omega
    rw [MicroLoop]
    simp only [hu, h0, if_false, hq8]
    rw [ih n (q + 8) (fun i hi => by
        have := hbad (i + 1) (by omega)
        rwa [show q + 8 * (i + 1) = q + 8 + 8 * i by omega] at this)
      (by rw [hshift]; exact hgood) (by rw [hshift]; exact hfit) (by omega) (by omega)]
    rw [hshift]

theorem micro_good_256 {q H : Nat} (bpp s : Nat) (hq : q % 256 = 0) (hH : H % 8 = 0) :
    (q * H * bpp * s + 7) / 8 % 256 = 0 := by
  obtain ⟨a, rfl⟩ := Nat.dvd_of_mod_eq_zero hq
  obtain ⟨b, rfl⟩ := Nat.dvd_of_mod_eq_zero hH
  have : 256 * a * (8 * b) * bpp * s = 2048 * (a * b * bpp * s) := by ring
  rw [this]
  generalize a * b * bpp * s = c
  omega

theorem micro_pitch_exists (pitch H bpp s : Nat) (hH : H % 8 = 0) :
    ∃ j, IsMicroPitch pitch H bpp s ((pitch + 7) / 8 * 8 + 8 * j) ∧
      ∀ i, i < j → ¬ ((((pitch + 7) / 8 * 8 + 8 * i) * H * bpp * s + 7) / 8 % 256 = 0) := by
  have hex : ∃ j, (((pitch + 7) / 8 * 8 + 8 * j) * H * bpp * s + 7) / 8 % 256 = 0 :=
    ⟨(256 - (pitch + 7) / 8 * 8 % 256) / 8, micro_good_256 bpp s (by omega) hH⟩
  refine ⟨Nat.find hex, ⟨by omega, by omega, Nat.find_spec hex, ?_⟩,
    fun i hi => Nat.find_min hex hi⟩
  intro q hq8 hge hgood
  have hq : q = (pitch + 7) / 8 * 8 + 8 * ((q - (pitch + 7) / 8 * 8) / 8) := by omega
  rw [hq] at hgood
  have := Nat.find_min' hex hgood
  omega

/-- C17: for `pitch, height, bpp, num_samples >= 1`, with `H` the height rounded up to
a multiple of 8, there is a smallest multiple `p` of 8 that is `>= pitch` for which
`ceil(p * H * bpp * num_samples / 8)` is a multiple of 256; when the bit count
`p * H * bpp * num_samples + 7` of that `p` is below `2^32` (no 32-bit overflow),
`ImageSizeMicroTiled` returns `(p, sz)` with `sz` exactly that byte count, a positive
multiple of 256. -/
theorem ImageSizeMicroTiled_least (pitch height bpp s : Nat)
    (hp : 1 ≤ pitch) (hh : 1 ≤ height) (hb : 1 ≤ bpp) (hs : 1 ≤ s)
    (hno : ∀ p, IsMicroPitch pitch ((height + 7) / 8 * 8) bpp s p →
      p * ((height + 7) / 8 * 8) * bpp * s + 7 < 4294967296) :
    ∃ p sz, IsMicroPitch pitch ((height + 7) / 8 * 8) bpp s p ∧
      sz = (p * ((height + 7) / 8 * 8) * bpp * s + 7) / 8 ∧
      ImageSizeMicroTiled pitch height bpp s = .ok (p, sz) ∧ 0 < sz ∧ sz % 256 = 0 := by
  obtain ⟨j, hleast, hbad⟩ := micro_pitch_exists pitch ((height + 7) / 8 * 8) bpp s (by omega)
  have hfit := hno _ hleast
  have hH1 : 1 ≤ (height + 7) / 8 * 8 := by omega
  have hple := le_mul3 (a := (pitch + 7) / 8 * 8 + 8 * j) hH1 hb hs
  have hHle : (height + 7) / 8 * 8
      ≤ ((pitch + 7) / 8 * 8 + 8 * j) * ((height + 7) / 8 * 8) * bpp * s := by
    calc (height + 7) / 8 * 8 = 1 * ((height + 7) / 8 * 8) * 1 * 1 := by simp
      _ ≤ ((pitch + 7) / 8 * 8 + 8 * j) * ((height + 7) / 8 * 8) * bpp * s :=
        Nat.mul_le_mul (Nat.mul_le_mul (Nat.mul_le_mul_right _ (by omega)) hb) hs
  have hpa : alignUp32 pitch 8 = (pitch + 7) / 8 * 8 := by
    rw [alignUp32_8]; unfold u32; omega
  have hha : alignUp32 height 8 = (height + 7) / 8 * 8 := by
    rw [alignUp32_8]; unfold u32; omega
  have hloop := micro_loop_exact ((height + 7) / 8 * 8) bpp s j loopFuel
    ((pitch + 7) / 8 * 8) hbad hleast.2.2.1 hfit (by omega) (by unfold loopFuel; omega)
  refine ⟨_, _, hleast, rfl, ?_, ?_, hleast.2.2.1⟩
  · simp only [ImageSizeMicroTiled, micro_tile_extent, hpa, hha, hloop]
  · have : 1 ≤ ((pitch + 7) / 8 * 8 + 8 * j) * ((height + 7) / 8 * 8) * bpp * s := by omega
    omega

theorem ImageSizeMicroTiled_least_witness :
    ∃ p sz, IsMicroPitch 20 ((20 + 7) / 8 * 8) 32 1 p ∧
      sz = (p * ((20 + 7) / 8 * 8) * 32 * 1 + 7) / 8 ∧
      ImageSizeMicroTiled 20 20 32 1 = .ok (p, sz) ∧ 0 < sz ∧ sz % 256 = 0 :=
  ImageSizeMicroTiled_least 20 20 32 1 (by decide) (by decide) (by decide) (by decide)
    (fun p hp => by
      have := hp.2.2.2 24 (by decide) (by decide) (by decide)
      have h2 : p * ((20 + 7) / 8 * 8) * 32 * 1 ≤ 24 * ((20 + 7) / 8 * 8) * 32 * 1 :=
        mul3_mono _ _ _ this
      omega)

theorem mul2_mono {a b : Nat} (h s : Nat) (hab : a ≤ b) : a * h * s ≤ b * h * s :=
  Nat.mul_le_mul_right _ (Nat.mul_le_mul_right _ hab)

theorem linear_loop_exact (pa sa h s : Nat) : ∀ (j fuel q : Nat),
    (∀ i, i < j → ¬ ((q + pa * i) * h * s % sa = 0)) →
    (q + pa * j) * h * s % sa = 0 →
    (q + pa * j) * h * s < 4294967296 → q + pa * j < 4294967296 → j < fuel →
    LinearLoop pa h s sa fuel q = some (q + pa * j, (q + pa * j) * h * s) := by
  intro j
  induction j with
  | zero =>
    intro fuel q _ hgood hfit _ hf
    obtain ⟨n, rfl⟩ : ∃ n, fuel = n + 1 := ⟨fuel - 1, by omega⟩
    simp only [Nat.mul_zero, Nat.add_zero] at hgood hfit ⊢
    have hu : u32 (q * h * s) = q * h * s := Nat.mod_eq_of_lt hfit
    rw [LinearLoop]
    simp only [hu, hgood, if_true]
  | succ j ih =>
    intro fuel q hbad hgood hfit hq hf
    obtain ⟨n, rfl⟩ : ∃ n, fuel = n + 1 := ⟨fuel - 1, by omega⟩
    have hshift : q + pa + pa * j = q + pa * (j + 1) := by
      rw [Nat.mul_succ]; omega
    have hle : q ≤ q + pa * (j + 1) := Nat.le_add_right _ _
    have hle2 : q + pa ≤ q + pa * (j + 1) := by
      rw [← hshift]; exact Nat.le_add_right _ _
    have hmono : q * h * s ≤ (q + pa * (j + 1)) * h * s := mul2_mono h s hle
    have hu : u32 (q * h * s) = q * h * s := Nat.mod_eq_of_lt (by omega)
    have h0 := hbad 0 (by omega)
    simp only [Nat.mul_zero, Nat.add_zero] at h0
    have hqp : u32 (q + pa) = q + pa := Nat.mod_eq_of_lt (by omega)
    rw [LinearLoop]
    simp only [hu, h0, if_false, hqp]
    rw [ih n (q + pa) (fun i hi => by
        have := hbad (i + 1) (by omega)
        rwa [show q + pa * (i + 1) = q + pa + pa * i by rw [Nat.mul_succ]; omega] at this)
      (by rw [hshift]; exact hgood) (by rw [hshift]; exact hfit) (by omega) (by omega)]
    rw [hshift]

theorem linear_good {sa q : Nat} (h s : Nat) (hq : q % sa = 0) : q * h * s % sa = 0 := by
  obtain ⟨a, rfl⟩ := Nat.dvd_of_mod_eq_zero hq
  have : sa * a * h * s = sa * (a * h * s) := by ring
  rw [this]
  exact Nat.mul_mod_right _ _

theorem linear_pitch_exists {pa sa : Nat}
    (hpa : (pa, sa) ∈ [(64, 256), (32, 128), (16, 64), (8, 64)]) (pitch h s : Nat) :
    ∃ j, IsLinearPitch pa sa pitch h s ((pitch + pa - 1) / pa * pa + pa * j) ∧
      ∀ i, i < j → ¬ (((pitch + pa - 1) / pa * pa + pa * i) * h * s % sa = 0) := by
  simp only [List.mem_cons, List.mem_singleton, List.not_mem_nil, or_false,
    Prod.mk.injEq] at hpa
  have hex : ∃ j, ((pitch + pa - 1) / pa * pa + pa * j) * h * s % sa = 0 := by
    refine ⟨(sa - (pitch + pa - 1) / pa * pa % sa) / pa, linear_good h s ?_⟩
    rcases hpa with ⟨rfl, rfl⟩ | ⟨rfl, rfl⟩ | ⟨rfl, rfl⟩ | ⟨rfl, rfl⟩ <;> omega
  refine ⟨Nat.find hex, ⟨?_, ?_, Nat.find_spec hex, ?_⟩, fun i hi => Nat.find_min hex hi⟩
  · generalize Nat.find hex = j
    rcases hpa with ⟨rfl, rfl⟩ | ⟨rfl, rfl⟩ | ⟨rfl, rfl⟩ | ⟨rfl, rfl⟩ <;> omega
  · generalize Nat.find hex = j
    rcases hpa with ⟨rfl, rfl⟩ | ⟨rfl, rfl⟩ | ⟨rfl, rfl⟩ | ⟨rfl, rfl⟩ <;> omega
  · intro q hq8 hge hgood
    have hq : q = (pitch + pa - 1) / pa * pa + pa * ((q - (pitch + pa - 1) / pa * pa) / pa) := by
      rcases hpa with ⟨rfl, rfl⟩ | ⟨rfl, rfl⟩ | ⟨rfl, rfl⟩ | ⟨rfl, rfl⟩ <;> omega
    rw [hq] at hgood
    have hmin := Nat.find_min' hex hgood
    have hmul : pa * Nat.find hex ≤ pa * ((q - (pitch + pa - 1) / pa * pa) / pa) :=
      Nat.mul_le_mul_left _ hmin
    omega

theorem linear_size_eq {bpp sa L : Nat} (hb : bpp ∈ [8, 16, 32, 64, 128])
    (hsa : max 64 (256 / (bpp / 8)) = sa) (hL : L % sa = 0) (hfit : L < 4294967296) :
    u64 (L * bpp + 7) / 8 = L * bpp / 8 ∧ L * bpp / 8 % sa = 0 := by
  simp only [List.mem_cons, List.mem_singleton, List.not_mem_nil, or_false] at hb
  unfold u64
  rcases hb with rfl | rfl | rfl | rfl | rfl
  · have : sa = 256 := by rw [← hsa]; decide
    subst this; omega
  · have : sa = 128 := by rw [← hsa]; decide
    subst this; omega
  · have : sa = 64 := by rw [← hsa]; decide
    subst this; omega
  · have : sa = 64 := by rw [← hsa]; decide
    subst this; omega
  · have : sa = 64 := by rw [← hsa]; decide
    subst this; omega

theorem linear_params_spec {bpp : Nat} (hb : bpp ∈ [8, 16, 32, 64, 128]) :
    max 8 (64 / (u32 (bpp + 7) / 8)) = max 8 (64 / (bpp / 8)) ∧
    max 64 (256 / (u32 (bpp + 7) / 8)) = max 64 (256 / (bpp / 8)) := by
  simp only [List.mem_cons, List.mem_singleton, List.not_mem_nil, or_false] at hb
  rcases hb with rfl | rfl | rfl | rfl | rfl <;> decide

/-- C18: for `pitch, height >= 1`, `bpp` in {8,16,32,64,128} and `num_samples` in
{1,2,4,8}, with `pitch_align = max(8, 64 / (bpp/8))` and
`slice_align = max(64, 256 / (bpp/8))`, there is a smallest multiple `p` of
`pitch_align` that is `>= pitch` for which `p * height * num_samples` is a multiple of
`slice_align`; when `p * height * num_samples` is below `2^32` (no 32-bit overflow),
`ImageSizeLinearAligned` returns `(p, sz)` with
`sz == p * height * num_samples * bpp / 8`, and `sz` is a multiple of `slice_align`.
The height enters unaligned. -/
theorem ImageSizeLinearAligned_least (pitch height bpp s : Nat)
    (hp : 1 ≤ pitch) (hh : 1 ≤ height)
    (hb : bpp ∈ [8, 16, 32, 64, 128]) (hs : s ∈ [1, 2, 4, 8])
    (hno : ∀ p, IsLinearPitch (max 8 (64 / (bpp / 8))) (max 64 (256 / (bpp / 8)))
      pitch height s p → p * height * s < 4294967296) :
    ∃ p sz, IsLinearPitch (max 8 (64 / (bpp / 8))) (max 64 (256 / (bpp / 8)))
        pitch height s p ∧
      sz = p * height * s * bpp / 8 ∧
      ImageSizeLinearAligned pitch height bpp s = .ok (p, sz) ∧
      sz % max 64 (256 / (bpp / 8)) = 0 := by
  obtain ⟨hbytes, hpair⟩ := linear_params hb
  obtain ⟨hpa_eq, hsa_eq⟩ := linear_params_spec hb
  rw [hpa_eq, hsa_eq] at hpair
  have hs1 : 1 ≤ s := by
    simp only [List.mem_cons, List.mem_singleton, List.not_mem_nil, or_false] at hs
    omega
  generalize hpa : max 8 (64 / (bpp / 8)) = pa at *
  generalize hsa : max 64 (256 / (bpp / 8)) = sa at *
  obtain ⟨j, hleast, hbad⟩ := linear_pitch_exists hpair pitch height s
  have hfit := hno _ hleast
  have hpair2 := hpair
  simp only [List.mem_cons, List.mem_singleton, List.not_mem_nil, or_false,
    Prod.mk.injEq] at hpair2
  have hple : (pitch + pa - 1) / pa * pa + pa * j
      ≤ ((pitch + pa - 1) / pa * pa + pa * j) * height * s := by
    calc (pitch + pa - 1) / pa * pa + pa * j
        = ((pitch + pa - 1) / pa * pa + pa * j) * 1 * 1 := by simp
      _ ≤ ((pitch + pa - 1) / pa * pa + pa * j) * height * s :=
        Nat.mul_le_mul (Nat.mul_le_mul_left _ hh) hs1
  have hge := hleast.2.1
  have hp0 : (pitch + pa - 1) / pa * pa ≤ (pitch + pa - 1) / pa * pa + pa * j :=
    Nat.le_add_right _ _
  have hal : alignUp32 pitch pa = (pitch + pa - 1) / pa * pa := by
    rw [linear_align hpair]
    unfold u32
    rcases hpair2 with ⟨rfl, rfl⟩ | ⟨rfl, rfl⟩ | ⟨rfl, rfl⟩ | ⟨rfl, rfl⟩ <;> omega
  have hloop := linear_loop_exact pa sa height s j loopFuel ((pitch + pa - 1) / pa * pa)
    hbad hleast.2.2.1 hfit (by omega) (by
      unfold loopFuel
      have hj : j ≤ pa * j := by
        rcases hpair2 with ⟨rfl, rfl⟩ | ⟨rfl, rfl⟩ | ⟨rfl, rfl⟩ | ⟨rfl, rfl⟩ <;> omega
      omega)
  obtain ⟨hsz1, hsz2⟩ := linear_size_eq hb hsa hleast.2.2.1 hfit
  refine ⟨_, _, hleast, rfl, ?_, hsz2⟩
  simp only [ImageSizeLinearAligned, hbytes, if_false, hpa_eq, hsa_eq, hpa, hsa, hal, hloop,
    hsz1]

theorem ImageSizeLinearAligned_least_witness :
    ∃ p sz, IsLinearPitch (max 8 (64 / (32 / 8))) (max 64 (256 / (32 / 8))) 20 3 1 p ∧
      sz = p * 3 * 1 * 32 / 8 ∧
      ImageSizeLinearAligned 20 3 32 1 = .ok (p, sz) ∧
      sz % max 64 (256 / (32 / 8)) = 0 :=
  ImageSizeLinearAligned_least 20 3 32 1 (by decide) (by decide) (by decide) (by decide)
    (fun p hp => by
      have := hp.2.2.2 64 (by decide) (by decide) (by decide)
      have h2 : p * 3 * 1 ≤ 64 * 3 * 1 := mul2_mono _ _ this
      omega)

set_option maxRecDepth 100000 in
theorem table_cells_pow2 :
    ∀ table ∈ macro_tile_extents, ∀ cell ∈ table,
      cell = (0, 0) ∨ (cell.1 ∈ [64, 128, 256] ∧ cell.2 ∈ [64, 128, 256]) := by
  decide

theorem alignUp32_cell {a : Nat} (ha : a ∈ [64, 128, 256]) (x : Nat) :
    alignUp32 x a = u32 (x + a - 1) / a * a := by
  simp only [List.mem_cons, List.mem_singleton, List.not_mem_nil, or_false] at ha
  rcases ha with rfl | rfl | rfl
  · exact alignUp32_64 x
  · exact alignUp32_128 x
  · exact alignUp32_256 x

/-- C20: for a tiling index in 0..26, `bpp` in {8,16,32,64,128} and a sample count in
{1,2,4,8} whose table cell `(pa, ha)` is not `(0, 0)`, and `pitch, height >= 1` with
`mip_n == 0` or (`pitch >= pa` and `height >= ha`): with `P` and `H` the least
multiples of `pa` and `ha` that are `>= pitch` and `>= height`, and the bit count
`P * H * num_samples * bpp + 7` below `2^32` (no 32-bit overflow),
`ImageSizeMacroTiled` returns `(P, ceil(P * H * num_samples * bpp / 8))`; level 0 is
not downgraded to the micro-tiled function however small it is. -/
theorem ImageSizeMacroTiled_aligned (tiling_idx bpp s mip_n pitch height pa ha : Nat)
    (ht : tiling_idx ≤ 26) (hb : bpp ∈ [8, 16, 32, 64, 128]) (hs : s ∈ [1, 2, 4, 8])
    (hcell : tableCell tiling_idx bpp s = some (pa, ha)) (hnz : (pa, ha) ≠ (0, 0))
    (hp : 1 ≤ pitch) (hh : 1 ≤ height)
    (hmip : mip_n = 0 ∨ (pa ≤ pitch ∧ ha ≤ height))
    (hno : (pitch + pa - 1) / pa * pa * ((height + ha - 1) / ha * ha) * s * bpp + 7
      < 4294967296) :
    ImageSizeMacroTiled pitch height bpp s tiling_idx mip_n
      = .ok ((pitch + pa - 1) / pa * pa,
          ((pitch + pa - 1) / pa * pa * ((height + ha - 1) / ha * ha) * s * bpp + 7) / 8) ∧
    ((pitch + pa - 1) / pa * pa % pa = 0 ∧ pitch ≤ (pitch + pa - 1) / pa * pa ∧
      ∀ q, q % pa = 0 → pitch ≤ q → (pitch + pa - 1) / pa * pa ≤ q) ∧
    ((height + ha - 1) / ha * ha % ha = 0 ∧ height ≤ (height + ha - 1) / ha * ha ∧
      ∀ q, q % ha = 0 → height ≤ q → (height + ha - 1) / ha * ha ≤ q) := by
  have hs18 : 1 ≤ s ∧ s ≤ 8 := by
    simp only [List.mem_cons, List.mem_singleton, List.not_mem_nil, or_false] at hs
    omega
  have hb1 : 1 ≤ bpp := by
    simp only [List.mem_cons, List.mem_singleton, List.not_mem_nil, or_false] at hb
    omega
  obtain ⟨table, cell, htable, hmem, hsome⟩ :=
    tableCell_some (Nat.lt_succ_of_le ht) hb hs18.1 hs18.2
  rw [hcell] at hsome
  cases hsome
  obtain ⟨cell2, hsome2, _, hok⟩ := MacroTileLookup_eq (Nat.lt_succ_of_le ht) hb hs18.1 hs18.2
  rw [hcell] at hsome2
  cases hsome2
  obtain ⟨_, _, hlook⟩ := hok hnz
  have hpow := (table_cells_pow2 table htable (pa, ha) hmem).resolve_left hnz
  have hpa : pa ∈ [64, 128, 256] := hpow.1
  have hha : ha ∈ [64, 128, 256] := hpow.2
  have hal1 := alignUp32_cell hpa pitch
  have hal2 := alignUp32_cell hha height
  simp only [List.mem_cons, List.mem_singleton, List.not_mem_nil, or_false] at hpa hha
  have hP1 : 1 ≤ (pitch + pa - 1) / pa * pa := by
    rcases hpa with rfl | rfl | rfl <;> omega
  have hH1 : 1 ≤ (height + ha - 1) / ha * ha := by
    rcases hha with rfl | rfl | rfl <;> omega
  generalize hP : (pitch + pa - 1) / pa * pa = P at *
  generalize hH : (height + ha - 1) / ha * ha = H at *
  have hPle : P ≤ P * H * s * bpp := le_mul3 hH1 hs18.1 hb1
  have hHle : H ≤ P * H * s * bpp := by
    calc H = 1 * H * 1 * 1 := by simp
      _ ≤ P * H * s * bpp :=
        Nat.mul_le_mul (Nat.mul_le_mul (Nat.mul_le_mul_right _ hP1) hs18.1) hb1
  have hPHs : P * H * s ≤ P * H * s * bpp := Nat.le_mul_of_pos_right _ hb1
  have ha1 : alignUp32 pitch pa = P := by
    rw [hal1, ← hP]; unfold u32
    rcases hpa with rfl | rfl | rfl <;> omega
  have ha2 : alignUp32 height ha = H := by
    rw [hal2, ← hH]; unfold u32
    rcases hha with rfl | rfl | rfl <;> omega
  have hdown : (if mip_n > 0 then decide (pitch < pa ∨ height < ha) else false) = false := by
    rcases hmip with h0 | ⟨h1, h2⟩
    · simp [h0]
    · have : ¬ (pitch < pa ∨ height < ha) := by omega
      simp [this]
  have hu1 : u32 (P * H * s) = P * H * s := Nat.mod_eq_of_lt (by omega)
  have hu2 : u32 (P * H * s * bpp + 7) = P * H * s * bpp + 7 := Nat.mod_eq_of_lt hno
  refine ⟨?_, ⟨?_, ?_, ?_⟩, ⟨?_, ?_, ?_⟩⟩
  · simp only [ImageSizeMacroTiled, hlook, hdown, ha1, ha2, hu1, hu2, Bool.false_eq_true,
      if_false]
  · rw [← hP]; rcases hpa with rfl | rfl | rfl <;> omega
  · rw [← hP]; rcases hpa with rfl | rfl | rfl <;> omega
  · intro q hq hge
    rw [← hP]; rcases hpa with rfl | rfl | rfl <;> omega
  · rw [← hH]; rcases hha with rfl | rfl | rfl <;> omega
  · rw [← hH]; rcases hha with rfl | rfl | rfl <;> omega
  · intro q hq hge
    rw [← hH]; rcases hha with rfl | rfl | rfl <;> omega

set_option maxRecDepth 100000 in
theorem ImageSizeMacroTiled_aligned_witness :
    ImageSizeMacroTiled 16 9 32 1 0 0
      = .ok ((16 + 256 - 1) / 256 * 256,
          ((16 + 256 - 1) / 256 * 256 * ((9 + 128 - 1) / 128 * 128) * 1 * 32 + 7) / 8) ∧
    ((16 + 256 - 1) / 256 * 256 % 256 = 0 ∧ 16 ≤ (16 + 256 - 1) / 256 * 256 ∧
      ∀ q, q % 256 = 0 → 16 ≤ q → (16 + 256 - 1) / 256 * 256 ≤ q) ∧
    ((9 + 128 - 1) / 128 * 128 % 128 = 0 ∧ 9 ≤ (9 + 128 - 1) / 128 * 128 ∧
      ∀ q, q % 128 = 0 → 9 ≤ q → (9 + 128 - 1) / 128 * 128 ≤ q) :=
  ImageSizeMacroTiled_aligned 0 32 1 0 16 9 256 128 (by decide) (by decide) (by decide)
    (by decide) (by decide) (by decide) (by decide) (by decide) (by decide)

theorem alignUp32_lt (x a : Nat) : alignUp32 x a < 4294967296 :=
  Nat.lt_of_le_of_lt Nat.and_le_left (Nat.mod_lt _ (by decide))

theorem alignUp32_12 (x : Nat) : alignUp32 x 12 % 4 = 0 := by
  have h : alignUp32 x 12 % 2 ^ 2 = alignUp32 x 12 &&& (2 ^ 2 - 1) :=
    (Nat.and_pow_two_sub_one_eq_mod _ 2).symm
  have hmask : not32 (12 - 1) &&& (2 ^ 2 - 1) = 0 := by decide
  have h4 : (2 : Nat) ^ 2 = 4 := by norm_num
  rw [← h4, h]
  unfold alignUp32
  rw [Nat.and_assoc, hmask, Nat.and_zero]

theorem alignUp32_10 (x : Nat) : alignUp32 x 10 % 2 = 0 := by
  have h : alignUp32 x 10 % 2 ^ 1 = alignUp32 x 10 &&& (2 ^ 1 - 1) :=
    (Nat.and_pow_two_sub_one_eq_mod _ 1).symm
  have hmask : not32 (10 - 1) &&& (2 ^ 1 - 1) = 0 := by decide
  have h2 : (2 : Nat) ^ 1 = 2 := by norm_num
  rw [← h2, h]
  unfold alignUp32
  rw [Nat.and_assoc, hmask, Nat.and_zero]

theorem linear_params_all {bpp : Nat} (hbytes : u32 (bpp + 7) / 8 ≠ 0) :
    (max 8 (64 / (u32 (bpp + 7) / 8)), max 64 (256 / (u32 (bpp + 7) / 8)))
      ∈ [(64, 256), (32, 128), (21, 85), (16, 64), (12, 64), (10, 64), (9, 64), (8, 64)] := by
  generalize u32 (bpp + 7) / 8 = b at hbytes
  by_cases h8 : b < 8
  · interval_cases b <;> first | contradiction | decide
  · have h1 : 64 / b ≤ 8 := by
      calc 64 / b ≤ 64 / 8 := Nat.div_le_div_left (by omega) (by decide)
        _ = 8 := by norm_num
    have h2 : 256 / b ≤ 32 := by
      calc 256 / b ≤ 256 / 8 := Nat.div_le_div_left (by omega) (by decide)
        _ = 32 := by norm_num
    have e1 : max 8 (64 / b) = 8 := Nat.max_eq_left h1
    have e2 : max 64 (256 / b) = 64 := Nat.max_eq_left (by omega)
    rw [e1, e2]
    decide

theorem linear_exit_index {pa sa : Nat}
    (hpa : (pa, sa) ∈ [(64, 256), (32, 128), (21, 85), (16, 64), (12, 64), (10, 64), (9, 64),
      (8, 64)]) (x : Nat) :
    ∃ k, k < 4294967296 ∧ u32 (alignUp32 x pa + pa * k) = 0 := by
  have hlt := alignUp32_lt x pa
  simp only [List.mem_cons, List.mem_singleton, List.not_mem_nil, or_false,
    Prod.mk.injEq] at hpa
  unfold u32
  rcases hpa with h64 | h32 | h21 | h16 | h12 | h10 | h9 | h8
  · obtain ⟨rfl, rfl⟩ := h64
    have h := alignUp32_64 x
    generalize alignUp32 x 64 = p0 at h hlt
    exact ⟨(4294967296 - p0) / 64 % 67108864, by omega, by omega⟩
  · obtain ⟨rfl, rfl⟩ := h32
    have h := alignUp32_32 x
    generalize alignUp32 x 32 = p0 at h hlt
    exact ⟨(4294967296 - p0) / 32 % 134217728, by omega, by omega⟩
  · obtain ⟨rfl, rfl⟩ := h21
    generalize alignUp32 x 21 = p0 at hlt
    exact ⟨(4294967296 - p0) * 1022611261 % 4294967296, by omega, by omega⟩
  · obtain ⟨rfl, rfl⟩ := h16
    have h := alignUp32_16 x
    generalize alignUp32 x 16 = p0 at h hlt
    exact ⟨(4294967296 - p0) / 16 % 268435456, by omega, by omega⟩
  · obtain ⟨rfl, rfl⟩ := h12
    have h := alignUp32_12 x
    generalize alignUp32 x 12 = p0 at h hlt
    exact ⟨(4294967296 - p0) / 4 * 715827883 % 1073741824, by omega, by omega⟩
  · obtain ⟨rfl, rfl⟩ := h10
    have h := alignUp32_10 x
    generalize alignUp32 x 10 = p0 at h hlt
    exact ⟨(4294967296 - p0) / 2 * 1288490189 % 2147483648, by omega, by omega⟩
  · obtain ⟨rfl, rfl⟩ := h9
    generalize alignUp32 x 9 = p0 at hlt
    exact ⟨(4294967296 - p0) * 954437177 % 4294967296, by omega, by omega⟩
  · obtain ⟨rfl, rfl⟩ := h8
    have h := alignUp32_8 x
    generalize alignUp32 x 8 = p0 at h hlt
    exact ⟨(4294967296 - p0) / 8 % 536870912, by omega, by omega⟩

theorem linear_loop_reach (pa sa h s : Nat) : ∀ (k fuel q : Nat),
    u32 (q + pa * k) = 0 → q < 4294967296 → k < fuel →
    ∃ r, LinearLoop pa h s sa fuel q = some r := by
  intro k
  induction k with
  | zero =>
    intro fuel q hk hq hf
    obtain ⟨n, rfl⟩ : ∃ n, fuel = n + 1 := ⟨fuel - 1, by omega⟩
    have hq0 : q = 0 := by
      simp only [Nat.mul_zero, Nat.add_zero] at hk
      unfold u32 at hk
      omega
    subst hq0
    rw [LinearLoop]
    have : u32 (0 * h * s) % sa = 0 := by simp [u32]
    simp only [this, if_true]
    exact ⟨_, rfl⟩
  | succ j ih =>
    intro fuel q hk hq hf
    obtain ⟨n, rfl⟩ : ∃ n, fuel = n + 1 := ⟨fuel - 1, by omega⟩
    rw [LinearLoop]
    split_ifs with hc
    · exact ⟨_, rfl⟩
    · refine ih n _ ?_ (Nat.mod_lt _ (by decide)) (by omega)
      have : q + pa * (j + 1) = q + pa + pa * j := by rw [Nat.mul_succ]; omega
      rw [this] at hk
      unfold u32 at hk ⊢
      omega

/-- C19 (counterexample): for the `u32` value `bpp = 2^32 - 1`, which is `>= 1`, the sum
`bpp + 7` wraps to 6, `(bpp + 7) / 8` is 0 and `ImageSizeLinearAligned` divides by zero
before it reaches its loop. -/
theorem linear_wrapped_bpp_divides_by_zero :
    1 ≤ 4294967295 ∧ 4294967295 < 4294967296 ∧
    ImageSizeLinearAligned 1 1 4294967295 1 = .error .undefined := by
  decide

/-- C19 (amended): with 32-bit arithmetic wrapping modulo `2^32`, both pitch-growth
loops exit: `ImageSizeMicroTiled` returns a result for every pitch, height, sample
count and `bpp`, and `ImageSizeLinearAligned` returns a result for every pitch, height,
sample count and every `bpp` with `1 <= bpp <= 2^32 - 8` (outside this range
`(bpp + 7) / 8` is 0 and the function divides by zero). -/
theorem size_loops_terminate (pitch height bpp s : Nat)
    (hb1 : 1 ≤ bpp) (hb2 : bpp + 7 < 4294967296) :
    (∀ b, ∃ r, ImageSizeMicroTiled pitch height b s = .ok r) ∧
    ∃ r, ImageSizeLinearAligned pitch height bpp s = .ok r := by
  constructor
  · intro b
    obtain ⟨p, sz, hr, _⟩ := ImageSizeMicroTiled_total pitch height b s
    exact ⟨_, hr⟩
  · have hbytes : u32 (bpp + 7) / 8 ≠ 0 := by unfold u32; omega
    have hpair := linear_params_all hbytes
    obtain ⟨k, hk, hexit⟩ := linear_exit_index hpair pitch
    obtain ⟨⟨p, lsz⟩, hr⟩ := linear_loop_reach _ (max 64 (256 / (u32 (bpp + 7) / 8))) height s
      k loopFuel _ hexit (alignUp32_lt _ _) (by unfold loopFuel; omega)
    simp only [ImageSizeLinearAligned, hbytes, if_false, hr]
    exact ⟨_, rfl⟩

theorem size_loops_terminate_witness :
    (∀ b, ∃ r, ImageSizeMicroTiled 1920 1080 b 1 = .ok r) ∧
    ∃ r, ImageSizeLinearAligned 1920 1080 24 1 = .ok r :=
  size_loops_terminate 1920 1080 24 1 (by decide) (by decide)

theorem chk32_some {x y : Nat} (h : chk32 x = some y) : y = x ∧ x < 4294967296 ∧ u32 x = x := by
  unfold chk32 at h
  split_ifs at h with hx
  cases h
  exact ⟨rfl, hx, Nat.mod_eq_of_lt hx⟩

theorem alignUpChecked_some {x a r : Nat} (h : alignUpChecked x a = some r) :
    alignUp32 x a = r ∧ x + a - 1 < 4294967296 ∧ r = (x + a - 1) &&& not32 (a - 1) := by
  unfold alignUpChecked at h
  split at h
  · cases h
  · rename_i y hy
    obtain ⟨rfl, hlt, hu⟩ := chk32_some hy
    cases h
    exact ⟨by unfold alignUp32; rw [hu], hlt, rfl⟩

theorem MacroTileLookupChecked_some {t bpp s : Nat} {cell : Nat × Nat}
    (h : MacroTileLookupChecked t bpp s = some cell) :
    MacroTileLookup t bpp s = .ok cell ∧ cell.1 ≠ 0 ∧ cell.2 ≠ 0 := by
  unfold MacroTileLookupChecked at h
  split_ifs at h with hc
  obtain ⟨h8, h0, hbw⟩ := hc
  split at h
  · cases h
  · rename_i index hindex
    obtain ⟨rfl, hlt, _⟩ := chk32_some hindex
    have hidx : u32 (u32 (t * 5) + bit_width bpp + (4294967296 - 4))
        = t * 5 + bit_width bpp - 4 := by
      unfold u32; omega
    split at h
    · cases h
    · rename_i table htable
      split at h
      · cases h
      · rename_i pa ha hcell
        split_ifs at h with hnz
        cases h
        refine ⟨?_, hnz.1, hnz.2⟩
        simp only [MacroTileLookup, GetMacroTileExtents, h8, if_true, h0, if_false, hidx,
          htable, hcell, hnz, ne_eq, not_false_eq_true, and_self]

theorem LinearLoopChecked_some (pa h s sa : Nat) : ∀ (fuel q : Nat) (r : Nat × Nat),
    LinearLoopChecked pa h s sa fuel q = some r →
    LinearLoop pa h s sa fuel q = some r ∧ q ≤ r.1 ∧ r.2 = r.1 * h * s ∧
      r.2 < 4294967296 := by
  intro fuel
  induction fuel with
  | zero => intro q r hr; simp [LinearLoopChecked] at hr
  | succ n ih =>
    intro q r hr
    rw [LinearLoopChecked] at hr
    split at hr
    · cases hr
    · rename_i L hL
      obtain ⟨rfl, hLlt, hu⟩ := chk32_some hL
      rw [LinearLoop]
      split_ifs at hr with hc
      · cases hr
        simp [hu, hc, hLlt]
      · split at hr
        · cases hr
        · rename_i next hnext
          obtain ⟨rfl, _, hu2⟩ := chk32_some hnext
          obtain ⟨h1, h2, h3, h4⟩ := ih _ r hr
          simp only [hu, hc, if_false, hu2]
          exact ⟨h1, by omega, h3, h4⟩

theorem MicroLoopChecked_some (H bpp s : Nat) : ∀ (fuel q : Nat) (r : Nat × Nat),
    MicroLoopChecked H bpp s fuel q = some r →
    MicroLoop H bpp s fuel q = some r ∧ q ≤ r.1 ∧ r.2 = (r.1 * H * bpp * s + 7) / 8 ∧
      r.2 < 4294967296 := by
  intro fuel
  induction fuel with
  | zero => intro q r hr; simp [MicroLoopChecked] at hr
  | succ n ih =>
    intro q r hr
    rw [MicroLoopChecked] at hr
    split at hr
    · cases hr
    · rename_i bits hbits
      obtain ⟨rfl, hblt, hu⟩ := chk32_some hbits
      rw [MicroLoop]
      split_ifs at hr with hc
      · cases hr
        simp only [hu, hc, if_true, true_and, Nat.le_refl]
        omega
      · split at hr
        · cases hr
        · rename_i next hnext
          obtain ⟨rfl, _, hu2⟩ := chk32_some hnext
          obtain ⟨h1, h2, h3, h4⟩ := ih _ r hr
          simp only [hu, hc, if_false, hu2]
          exact ⟨h1, by omega, h3, h4⟩

theorem and_not32_pos {y m : Nat} (hy : y < 4294967296) (hm : m < y) : 0 < y &&& not32 m := by
  have h32 : (2 : Nat) ^ 32 = 4294967296 := by norm_num
  have hmlt : m % 2 ^ 32 < 2 ^ 32 := Nat.mod_lt _ (by norm_num)
  have hn : not32 m = 2 ^ 32 - (m % 2 ^ 32 + 1) := by
    unfold not32; rw [h32]; omega
  by_contra hpos
  have h0 : y &&& not32 m = 0 := by omega
  have hsub : ∀ i, y.testBit i = true → (m % 2 ^ 32).testBit i = true := by
    intro i hi
    have hbit : (y &&& not32 m).testBit i = false := by rw [h0]; exact Nat.zero_testBit i
    rw [Nat.testBit_and, hn, Nat.testBit_two_pow_sub_succ hmlt, hi] at hbit
    have hi32 : i < 32 := by
      by_contra hge
      have hyi : y < 2 ^ i :=
        Nat.lt_of_lt_of_le (by rw [h32]; exact hy)
          (Nat.pow_le_pow_right (by decide) (Nat.le_of_not_lt hge))
      rw [Nat.testBit_lt_two_pow hyi] at hi
      cases hi
    simpa [hi32] using hbit
  have heq : y &&& (m % 2 ^ 32) = y := by
    apply Nat.eq_of_testBit_eq
    intro i
    rw [Nat.testBit_and]
    cases h : y.testBit i
    · simp
    · rw [hsub i h]; rfl
  have h1 : y ≤ m % 2 ^ 32 := by
    calc y = y &&& (m % 2 ^ 32) := heq.symm
      _ ≤ m % 2 ^ 32 := Nat.and_le_right
  have h2 : m % 2 ^ 32 ≤ m := Nat.mod_le _ _
  omega

theorem alignUpChecked_pos {x a r : Nat} (h : alignUpChecked x a = some r)
    (hx : 1 ≤ x) (ha : 1 ≤ a) : 0 < r := by
  obtain ⟨_, hlt, rfl⟩ := alignUpChecked_some h
  exact and_not32_pos hlt (by omega)

theorem ImageSizeMicroTiledChecked_some {w h bpp s p sz : Nat}
    (hr : ImageSizeMicroTiledChecked w h bpp s = some (p, sz)) :
    ImageSizeMicroTiled w h bpp s = .ok (p, sz) ∧ sz < 4294967296 ∧
      (1 ≤ w → 1 ≤ h → 1 ≤ bpp → 1 ≤ s → 0 < sz) := by
  unfold ImageSizeMicroTiledChecked at hr
  split at hr
  · rename_i p0 H hp0 hH
    obtain ⟨hloop, hle, hsz, hszlt⟩ := MicroLoopChecked_some _ _ _ _ _ _ hr
    have ha1 := (alignUpChecked_some hp0).1
    have ha2 := (alignUpChecked_some hH).1
    refine ⟨?_, ?_, ?_⟩
    · simp only [ImageSizeMicroTiled, micro_tile_extent, ha1, ha2, hloop]
    · exact hszlt
    · intro hw hh hb hs
      have hp0pos := alignUpChecked_pos hp0 hw (by decide)
      have hHpos := alignUpChecked_pos hH hh (by decide)
      have hprod : 1 ≤ p * H * bpp * s := by
        have h1 : 1 ≤ p := by simp only at hle; omega
        calc 1 = 1 * 1 * 1 * 1 := by norm_num
          _ ≤ p * H * bpp * s :=
            Nat.mul_le_mul (Nat.mul_le_mul (Nat.mul_le_mul h1 hHpos) hb) hs
      simp only at hsz
      omega
  · cases hr

theorem ImageSizeLinearAlignedChecked_some {w h bpp s p sz : Nat}
    (hr : ImageSizeLinearAlignedChecked w h bpp s = some (p, sz)) :
    ImageSizeLinearAligned w h bpp s = .ok (p, sz) ∧
      (1 ≤ w → 1 ≤ h → 1 ≤ bpp → 1 ≤ s → 0 < sz) := by
  unfold ImageSizeLinearAlignedChecked at hr
  split at hr
  · cases hr
  · rename_i sum hsum
    obtain ⟨rfl, hblt, hu⟩ := chk32_some hsum
    simp only at hr
    split_ifs at hr with hbytes
    split at hr
    · cases hr
    · rename_i p0 hp0
      split at hr
      · cases hr
      · rename_i q L hloop
        cases hr
        obtain ⟨hmach, hle, hL, hLlt⟩ := LinearLoopChecked_some _ _ _ _ _ _ _ hloop
        have ha1 := (alignUpChecked_some hp0).1
        simp only at hle hL hLlt
        have h64 : u64 (L * bpp + 7) = L * bpp + 7 := by
          have hmul : L * bpp ≤ 4294967295 * 4294967295 :=
            Nat.mul_le_mul (by omega) (by omega)
          unfold u64
          omega
        refine ⟨?_, ?_⟩
        · simp only [ImageSizeLinearAligned, hu, hbytes, if_false, ha1, hmach, h64]
        · intro hw hh hb hs
          have hp0pos := alignUpChecked_pos hp0 hw (by omega)
          have hprod : 1 ≤ L * bpp := by
            rw [hL]
            calc 1 = 1 * 1 * 1 * 1 := by norm_num
              _ ≤ p * h * s * bpp :=
                Nat.mul_le_mul (Nat.mul_le_mul (Nat.mul_le_mul (by omega) hh) hs) hb
          omega

theorem ImageSizeMacroTiledChecked_some {w h bpp s t mip p sz : Nat}
    (hr : ImageSizeMacroTiledChecked w h bpp s t mip = some (p, sz)) :
    ImageSizeMacroTiled w h bpp s t mip = .ok (p, sz) ∧ sz < 4294967296 ∧
      (1 ≤ w → 1 ≤ h → 1 ≤ bpp → 1 ≤ s → 0 < sz) := by
  unfold ImageSizeMacroTiledChecked at hr
  split at hr
  · cases hr
  · rename_i pa ha hlook
    obtain ⟨hmach, hpa, hha⟩ := MacroTileLookupChecked_some hlook
    simp only at hpa hha hr
    generalize hdg : (if mip > 0 then decide (w < pa ∨ h < ha) else false) = dg at hr
    cases dg with
    | true =>
      simp only [if_true] at hr
      obtain ⟨h1, h2, h3⟩ := ImageSizeMicroTiledChecked_some hr
      refine ⟨?_, h2, h3⟩
      simp only [ImageSizeMacroTiled, hmach, hdg, if_true, h1]
    | false =>
      simp only [Bool.false_eq_true, if_false] at hr
      split at hr
      · rename_i P H hP hH
        split at hr
        · cases hr
        · rename_i L hL
          split at hr
          · cases hr
          · rename_i bits hbits
            obtain ⟨rfl, hLlt, hu1⟩ := chk32_some hL
            obtain ⟨rfl, hblt, hu2⟩ := chk32_some hbits
            have ha1 := (alignUpChecked_some hP).1
            have ha2 := (alignUpChecked_some hH).1
            have hPpos := alignUpChecked_pos hP
            have hHpos := alignUpChecked_pos hH
            cases hr
            refine ⟨?_, by omega, ?_⟩
            · simp only [ImageSizeMacroTiled, hmach, hdg, Bool.false_eq_true, if_false, ha1,
                ha2, hu1, hu2]
            · intro hw hh hb hs
              have hprod : 1 ≤ p * H * s * bpp := by
                calc 1 = 1 * 1 * 1 * 1 := by norm_num
                  _ ≤ p * H * s * bpp :=
                    Nat.mul_le_mul (Nat.mul_le_mul (Nat.mul_le_mul (hPpos hw (by omega))
                      (hHpos hh (by omega))) hs) hb
              omega
      · cases hr

theorem bit_ceil_pos (x : Nat) : 1 ≤ bit_ceil x := by
  unfold bit_ceil
  split_ifs
  · exact Nat.le_refl 1
  · exact Nat.one_le_two_pow

theorem bit_ceil32_ok {x r : Nat} (h : bit_ceil32 x = .ok r) : 1 ≤ r := by
  unfold bit_ceil32 at h
  split_ifs at h
  cases h
  exact bit_ceil_pos x

theorem dimsChecked_some {info : ImageInfo} {mip : Nat} {dm : MipDims}
    (h : UpdateSize.dimsChecked info mip = some dm) :
    UpdateSize.dims info mip = .ok dm ∧ 1 ≤ dm.mip_w ∧ 1 ≤ dm.mip_h ∧ 1 ≤ dm.mip_d ∧
      (0 < info.num_bits → 1 ≤ dm.bpp) := by
  unfold UpdateSize.dimsChecked at h
  unfold UpdateSize.dims
  by_cases hlevel : 32 ≤ mip
  · rw [if_pos hlevel] at h
    cases h
  rw [if_neg hlevel] at h
  rw [if_neg hlevel]
  cases hb : info.props.is_block <;> cases hp : info.props.is_pow2
  · simp only [hb, hp, Bool.false_eq_true, if_false] at h ⊢
    cases h
    exact ⟨rfl, Nat.le_max_right _ _, Nat.le_max_right _ _, Nat.le_max_right _ _, fun h => h⟩
  · simp only [hb, hp, Bool.false_eq_true, if_false, if_true] at h ⊢
    split at h
    · rename_i w1 h1 d1 hw1 hh1 hd1
      cases h
      simp only [hw1, hh1, hd1]
      exact ⟨trivial, bit_ceil32_ok hw1, bit_ceil32_ok hh1, bit_ceil32_ok hd1, fun h => h⟩
    · cases h
  · simp only [hb, hp, Bool.false_eq_true, if_false, if_true] at h ⊢
    split at h
    · cases h
    · rename_i bpp w1 h1 hscaled
      split at hscaled
      · rename_i w2 h2 b2 hw2 hh2 hb2
        cases hscaled
        obtain ⟨rfl, _, hu1⟩ := chk32_some hw2
        obtain ⟨rfl, _, hu2⟩ := chk32_some hh2
        obtain ⟨rfl, _, hu3⟩ := chk32_some hb2
        cases h
        simp only [hu1, hu2, hu3]
        exact ⟨trivial, Nat.le_max_right _ _, Nat.le_max_right _ _, Nat.le_max_right _ _,
          fun h => by omega⟩
      · cases hscaled
  · simp only [hb, hp, Bool.false_eq_true, if_false, if_true] at h ⊢
    split at h
    · cases h
    · rename_i bpp w1 h1 hscaled
      split at hscaled
      · rename_i w2 h2 b2 hw2 hh2 hb2
        cases hscaled
        obtain ⟨rfl, _, hu1⟩ := chk32_some hw2
        obtain ⟨rfl, _, hu2⟩ := chk32_some hh2
        obtain ⟨rfl, _, hu3⟩ := chk32_some hb2
        split at h
        · rename_i w3 h3 d3 hw3 hh3 hd3
          cases h
          simp only [hu1, hu2, hu3, hw3, hh3, hd3]
          exact ⟨trivial, bit_ceil32_ok hw3, bit_ceil32_ok hh3, bit_ceil32_ok hd3,
            fun h => by omega⟩
        · cases h
      · cases hscaled

theorem dispatchChecked_some {info : ImageInfo} {mip : Nat} {prev mi : MipInfo}
    {dm : MipDims} {d : Nat}
    (h : UpdateSize.dispatchChecked info mip prev dm = some (mi, d)) :
    UpdateSize.dispatch info mip prev dm = .ok (mi, d) ∧
      (1 ≤ dm.mip_w → 1 ≤ dm.mip_h → 1 ≤ dm.mip_d → 1 ≤ dm.bpp → 1 ≤ info.num_samples →
        0 < mi.size ∧ 1 ≤ d) := by
  unfold UpdateSize.dispatchChecked at h
  unfold UpdateSize.dispatch
  cases hmode : info.tiling_mode
  case Display_Linear =>
    simp only [hmode] at h ⊢
    split at h
    · cases h
    · rename_i p sz hsz
      split at h
      · cases h
      · rename_i size hsize
        obtain ⟨rfl, _, hu⟩ := chk32_some hsize
        obtain ⟨hmach, hpos⟩ := ImageSizeLinearAlignedChecked_some hsz
        cases h
        simp only [hmach, hu]
        exact ⟨trivial, fun hw hh hd hb hs => ⟨hpos hw hh hb hs, hd⟩⟩
  case Texture_MicroTiled =>
    simp only [hmode, reduceCtorEq, if_false] at h ⊢
    split at h
    · rename_i d1 p sz hd1 hsz
      cases hd1
      obtain ⟨hmach, hszlt, hpos⟩ := ImageSizeMicroTiledChecked_some hsz
      have hu : u32 sz = sz := Nat.mod_eq_of_lt hszlt
      split_ifs at h with hblock
      · split at h
        · rename_i p4 h4 hp4 hh4
          obtain ⟨rfl, _, hu1⟩ := chk32_some hp4
          obtain ⟨rfl, _, hu2⟩ := chk32_some hh4
          cases h
          simp only [hmach, hblock, if_true, hu, hu1, hu2]
          exact ⟨trivial, fun hw hh hd hb hs => ⟨hpos hw hh hb hs, hd⟩⟩
        · cases h
      · cases h
        simp only [hmach, hblock, Bool.false_eq_true, if_false, hu]
        exact ⟨trivial, fun hw hh hd hb hs => ⟨hpos hw hh hb hs, hd⟩⟩
    · cases h
  case Texture_Volume =>
    simp only [hmode, if_true] at h ⊢
    split at h
    · rename_i d1 p sz hd1 hsz
      obtain ⟨rfl, _, hud⟩ := chk32_some hd1
      obtain ⟨hmach, hszlt, hpos⟩ := ImageSizeMicroTiledChecked_some hsz
      have hu : u32 sz = sz := Nat.mod_eq_of_lt hszlt
      split_ifs at h with hblock
      · split at h
        · rename_i p4 h4 hp4 hh4
          obtain ⟨rfl, _, hu1⟩ := chk32_some hp4
          obtain ⟨rfl, _, hu2⟩ := chk32_some hh4
          cases h
          simp only [hmach, hblock, if_true, hu, hu1, hu2, hud]
          exact ⟨trivial, fun hw hh hd hb hs => ⟨hpos hw hh hb hs, by omega⟩⟩
        · cases h
      · cases h
        simp only [hmach, hblock, Bool.false_eq_true, if_false, hu, hud]
        exact ⟨trivial, fun hw hh hd hb hs => ⟨hpos hw hh hb hs, by omega⟩⟩
    · cases h
  case Unhandled =>
    simp only [hmode] at h
    cases h
  all_goals
    simp only [hmode] at h ⊢
    split_ifs at h with hblock
    split at h
    · cases h
    · rename_i p sz hsz
      obtain ⟨hmach, hszlt, hpos⟩ := ImageSizeMacroTiledChecked_some hsz
      have hu : u32 sz = sz := Nat.mod_eq_of_lt hszlt
      cases h
      simp only [hmach, hblock, Bool.false_eq_true, if_false, hu]
      exact ⟨trivial, fun hw hh hd hb hs => ⟨hpos hw hh hb hs, hd⟩⟩

theorem bodyChecked_some {info : ImageInfo} {mip : Nat} {st st1 : LoopState}
    (h : UpdateSize.bodyChecked info mip st = some st1) :
    UpdateSize.body info mip st = .ok st1 ∧
      ∃ m, st1.mips_layout = st.mips_layout ++ [m] ∧
        st1.guest_size = st.guest_size + m.size ∧ st1.guest_size < 4294967296 ∧
        (0 < info.num_bits → 1 ≤ info.num_samples → 0 < m.size) := by
  unfold UpdateSize.bodyChecked at h
  split at h
  · cases h
  · rename_i dm hdm
    obtain ⟨hdims, hw, hh, hd, hb⟩ := dimsChecked_some hdm
    split at h
    · cases h
    · rename_i mi d hdisp
      obtain ⟨hmach, hpos⟩ := dispatchChecked_some hdisp
      split at h
      · cases h
      · rename_i size hsize
        obtain ⟨rfl, _, hu1⟩ := chk32_some hsize
        split at h
        · cases h
        · rename_i total htotal
          obtain ⟨rfl, hlt, hu2⟩ := chk32_some htotal
          cases h
          refine ⟨?_, _, rfl, rfl, hlt, ?_⟩
          · simp only [UpdateSize.body, hdims, hmach, hu1, hu2]
          · intro hbits hs
            obtain ⟨h1, h2⟩ := hpos hw hh hd (hb hbits) hs
            exact Nat.mul_pos h1 h2

theorem loopChecked_some {info : ImageInfo} :
    ∀ (count mip : Nat) (st st1 : LoopState),
      UpdateSize.loopChecked info count mip st = some st1 →
      UpdateSize.loop info count mip st = .ok st1 ∧
        ∃ added, st1.mips_layout = st.mips_layout ++ added ∧
          st1.guest_size = st.guest_size + sumSizes added ∧
          (st.guest_size < 4294967296 → st1.guest_size < 4294967296) ∧
          (0 < info.num_bits → 1 ≤ info.num_samples → ∀ m ∈ added, 0 < m.size) := by
  intro count
  induction count with
  | zero =>
    intro mip st st1 h
    simp only [UpdateSize.loopChecked] at h
    cases h
    exact ⟨rfl, [], by simp, by simp [sumSizes], fun h => h, fun _ _ m hm => by simp at hm⟩
  | succ n ih =>
    intro mip st st1 h
    simp only [UpdateSize.loopChecked] at h
    split at h
    · cases h
    · rename_i st2 hbody
      obtain ⟨hmach, m, hlay, hgs, hlt, hpos⟩ := bodyChecked_some hbody
      obtain ⟨hloop, added, hadd, hsum, hbound, hposs⟩ := ih (mip + 1) st2 st1 h
      refine ⟨by simp only [UpdateSize.loop, hmach, hloop], m :: added, ?_, ?_,
        fun _ => hbound hlt, ?_⟩
      · rw [hadd, hlay]; simp
      · rw [hsum, hgs]; simp only [sumSizes]; omega
      · intro hbits hs e he
        rcases List.mem_cons.mp he with rfl | he2
        · exact hpos hbits hs
        · exact hposs hbits hs e he2

theorem UpdateSizeChecked_some {info info1 : ImageInfo}
    (h : UpdateSizeChecked info = some info1) :
    UpdateSize info = .ok info1 ∧ sumSizes info1.mips_layout < 4294967296 ∧
      (0 < info.num_bits → 1 ≤ info.num_samples → ∀ m ∈ info1.mips_layout, 0 < m.size) := by
  unfold UpdateSizeChecked at h
  split at h
  · cases h
  · rename_i st hst
    obtain ⟨hloop, added, hadd, hsum, hbound, hpos⟩ := loopChecked_some _ _ _ _ hst
    split at h
    · cases h
    · rename_i total htotal
      obtain ⟨rfl, _, hu⟩ := chk32_some htotal
      cases h
      have hL : st.mips_layout = added := by simpa using hadd
      have hgs : st.guest_size = sumSizes added := by
        have : ({} : LoopState).guest_size = 0 := rfl
        rw [hsum, this, Nat.zero_add]
      have hlt : st.guest_size < 4294967296 := hbound (by decide)
      refine ⟨?_, ?_, ?_⟩
      · simp only [UpdateSize, hloop, hu]
      · simp only [hL]; omega
      · intro hbits hs m hm
        simp only [hL] at hm
        exact hpos hbits hs m hm

/-- C11: when `UpdateSize` runs on a descriptor with `num_bits > 0` and `num_samples`
in {1,2,4,8} (any number of levels) without hitting an assertion and without 32-bit
overflow
(`UpdateSizeChecked` returns the descriptor), `UpdateSize` returns that descriptor,
every recorded mip size is strictly positive and the mip offsets are strictly
increasing. -/
theorem UpdateSize_sizes_positive (info info1 : ImageInfo)
    (hbits : 0 < info.num_bits) (hs : info.num_samples ∈ [1, 2, 4, 8])
    (hrun : UpdateSizeChecked info = some info1) :
    UpdateSize info = .ok info1 ∧
    info1.mips_layout.length = info.resources.levels ∧
    (∀ m ∈ info1.mips_layout, 0 < m.size) ∧
    ∀ i a b, info1.mips_layout[i]? = some a → info1.mips_layout[i + 1]? = some b →
      a.offset < b.offset := by
  have hs1 : 1 ≤ info.num_samples := by
    simp only [List.mem_cons, List.mem_singleton, List.not_mem_nil, or_false] at hs
    omega
  obtain ⟨hmach, hsum, hpos⟩ := UpdateSizeChecked_some hrun
  obtain ⟨hlen, ⟨stop, hchain⟩, _, _⟩ := UpdateSize_recorded hmach
  refine ⟨hmach, hlen, hpos hbits hs1, ?_⟩
  intro i a b ha hb
  have hstep := chain_step _ 0 stop hchain (by omega) i a b ha hb
  have hapos := hpos hbits hs1 a (List.getElem?_mem ha)
  omega

theorem UpdateSize_sizes_positive_witness :
    UpdateSize sampleMicro = .ok sampleMicroBuilt ∧
    sampleMicroBuilt.mips_layout.length = 4 ∧
    (∀ m ∈ sampleMicroBuilt.mips_layout, 0 < m.size) ∧
    ∀ i a b, sampleMicroBuilt.mips_layout[i]? = some a →
      sampleMicroBuilt.mips_layout[i + 1]? = some b → a.offset < b.offset :=
  UpdateSize_sizes_positive sampleMicro sampleMicroBuilt (by decide) (by decide) (by decide)

/-! ### `UpdateSize` re-derives the layout from the other fields -/

theorem body_frame (info : ImageInfo) (L : List MipInfo) (g mip : Nat) (st : LoopState) :
    UpdateSize.body { info with mips_layout := L, guest_size := g } mip st
      = UpdateSize.body info mip st := rfl

theorem loop_frame (info : ImageInfo) (L : List MipInfo) (g : Nat) :
    ∀ (count mip : Nat) (st : LoopState),
      UpdateSize.loop { info with mips_layout := L, guest_size := g } count mip st
        = UpdateSize.loop info count mip st := by
  intro count
  induction count with
  | zero => intro mip st; rfl
  | succ n ih =>
    intro mip st
    simp only [UpdateSize.loop, body_frame]
    cases UpdateSize.body info mip st with
    | error e => rfl
    | ok st1 => exact ih (mip + 1) st1

theorem UpdateSize_frame (info : ImageInfo) (L : List MipInfo) (g : Nat) :
    UpdateSize { info with mips_layout := L, guest_size := g } = UpdateSize info := by
  unfold UpdateSize
  simp only [loop_frame]

/-- C24: `UpdateSize` is a wholesale re-derivation.  When it returns `info1` on `info`,
`info1` is `info` with only `mips_layout` and `guest_size` replaced; the call returns the
same `info1` whatever `mips_layout` and `guest_size` held before; and a second call, on
`info1`, returns `info1` again. -/
theorem UpdateSize_rederives (info info1 : ImageInfo) (h : UpdateSize info = .ok info1) :
    info1 = { info with mips_layout := info1.mips_layout, guest_size := info1.guest_size } ∧
    (∀ L g, UpdateSize { info with mips_layout := L, guest_size := g } = .ok info1) ∧
    UpdateSize info1 = .ok info1 := by
  obtain ⟨st, hloop, rfl⟩ := UpdateSize_ok h
  refine ⟨rfl, ?_, ?_⟩
  · intro L g
    rw [UpdateSize_frame, h]
  · rw [UpdateSize_frame, h]

theorem UpdateSize_rederives_witness :
    UpdateSize sampleMicro = .ok sampleMicroBuilt ∧
    sampleMicroBuilt = { sampleMicro with mips_layout := sampleMicroBuilt.mips_layout,
                                          guest_size := sampleMicroBuilt.guest_size } ∧
    (∀ L g, UpdateSize { sampleMicro with mips_layout := L, guest_size := g }
      = .ok sampleMicroBuilt) ∧
    UpdateSize sampleMicroBuilt = .ok sampleMicroBuilt :=
  ⟨by decide, UpdateSize_rederives sampleMicro sampleMicroBuilt (by decide)⟩
/-! ### The macro-tile tables -/

set_option maxRecDepth 100000 in
theorem table_zero_rows :
    ∀ table ∈ macro_tile_extents, ∀ p ∈ table.enum,
      (p.2 = (0, 0) ↔ p.1 / 5 ∈ [5, 8, 9, 13, 19]) := by
  decide

theorem log2_bpp {bpp : Nat} (hb : bpp ∈ [8, 16, 32, 64, 128]) :
    bit_width bpp - 4 = floorLog2 bpp - 3 ∧ floorLog2 bpp - 3 < 5 ∧
    2 ^ floorLog2 bpp = bpp := by
  simp only [List.mem_cons, List.mem_singleton, List.not_mem_nil, or_false] at hb
  rcases hb with rfl | rfl | rfl | rfl | rfl <;> decide

theorem log2_samples {s : Nat} (hs : s ∈ [1, 2, 4, 8]) :
    1 ≤ s ∧ s ≤ 8 ∧ 2 ^ floorLog2 s = s := by
  simp only [List.mem_cons, List.mem_singleton, List.not_mem_nil, or_false] at hs
  rcases hs with rfl | rfl | rfl | rfl <;> decide

/-- C22: each of the four macro-tile tables has `27 * 5 = 135` cells.  For a tiling index
`t ≤ 26`, `bpp` in `{8, 16, 32, 64, 128}` and a sample count in `{1, 2, 4, 8}`, the index
`GetMacroTileExtents` computes is `t * 5 + (bit_width bpp - 4)`; it is below 135 and, with
five cells per row, lies in row `t` and column `log2 bpp - 3`; the function returns the
cell at that index of table number `log2 num_samples`.  That cell is `(0, 0)` exactly when
`t` is one of 5, 8, 9, 13, 19, and otherwise both components are among 64, 128, 256. -/
theorem macro_tile_tables (t bpp s : Nat) (ht : t ≤ 26) (hb : bpp ∈ [8, 16, 32, 64, 128])
    (hs : s ∈ [1, 2, 4, 8]) :
    macro_tile_extents.length = 4 ∧
    (∀ table ∈ macro_tile_extents, table.length = 27 * 5) ∧
    2 ^ floorLog2 bpp = bpp ∧ 2 ^ floorLog2 s = s ∧
    u32 (u32 (t * 5) + bit_width bpp + (4294967296 - 4)) = t * 5 + (bit_width bpp - 4) ∧
    t * 5 + (bit_width bpp - 4) < 135 ∧
    (t * 5 + (bit_width bpp - 4)) / 5 = t ∧
    (t * 5 + (bit_width bpp - 4)) % 5 = floorLog2 bpp - 3 ∧
    ∃ table cell, macro_tile_extents[floorLog2 s]? = some table ∧
      table[t * 5 + (bit_width bpp - 4)]? = some cell ∧
      GetMacroTileExtents t bpp s = .ok cell ∧
      (cell = (0, 0) ↔ t ∈ [5, 8, 9, 13, 19]) ∧
      (cell ≠ (0, 0) → cell.1 ∈ [64, 128, 256] ∧ cell.2 ∈ [64, 128, 256]) := by
  obtain ⟨hcol, hc5, hbpp⟩ := log2_bpp hb
  obtain ⟨h1, h8, hsp⟩ := log2_samples hs
  have hbw := bit_width_bpp hb
  have hk := floorLog2_samples h1 h8
  have hdiv : (t * 5 + (bit_width bpp - 4)) / 5 = t := by omega
  refine ⟨rfl, table_lengths, hbpp, hsp, by unfold u32; omega, by omega, hdiv, by omega, ?_⟩
  obtain ⟨cell, hsome, hget, -⟩ := GetMacroTileExtents_eq (Nat.lt_succ_of_le ht) hb h1 h8
  have hk2 : floorLog2 s < macro_tile_extents.length := hk
  have htab : macro_tile_extents[floorLog2 s]? = some macro_tile_extents[floorLog2 s] :=
    List.getElem?_eq_getElem hk2
  have hmem : macro_tile_extents[floorLog2 s] ∈ macro_tile_extents := List.getElem_mem _
  simp only [tableCell, htab] at hsome
  refine ⟨_, cell, htab, hsome, hget, ?_, ?_⟩
  · have hrow := table_zero_rows _ hmem (t * 5 + (bit_width bpp - 4), cell)
      (List.mk_mem_enum_iff_getElem?.mpr hsome)
    rw [hdiv] at hrow
    exact hrow
  · intro hne
    rcases table_cells_pow2 _ hmem cell (List.getElem?_mem hsome) with hz | hp
    · exact absurd hz hne
    · exact hp

set_option maxRecDepth 100000 in
theorem macro_tile_tables_witness :
    GetMacroTileExtents 14 32 4 = .ok (128, 64) ∧
    macro_tile_extents.length = 4 ∧
    (∀ table ∈ macro_tile_extents, table.length = 27 * 5) ∧
    2 ^ floorLog2 32 = 32 ∧ 2 ^ floorLog2 4 = 4 ∧
    u32 (u32 (14 * 5) + bit_width 32 + (4294967296 - 4)) = 14 * 5 + (bit_width 32 - 4) ∧
    14 * 5 + (bit_width 32 - 4) < 135 ∧
    (14 * 5 + (bit_width 32 - 4)) / 5 = 14 ∧
    (14 * 5 + (bit_width 32 - 4)) % 5 = floorLog2 32 - 3 ∧
    ∃ table cell, macro_tile_extents[floorLog2 4]? = some table ∧
      table[14 * 5 + (bit_width 32 - 4)]? = some cell ∧
      GetMacroTileExtents 14 32 4 = .ok cell ∧
      (cell = (0, 0) ↔ 14 ∈ [5, 8, 9, 13, 19]) ∧
      (cell ≠ (0, 0) → cell.1 ∈ [64, 128, 256] ∧ cell.2 ∈ [64, 128, 256]) :=
  ⟨by decide, macro_tile_tables 14 32 4 (by decide) (by decide) (by decide)⟩
/-! ### What a successful `IsMipOf` guarantees -/

theorem find_sound : ∀ (layout : List MipInfo) (addr base idx r : Nat),
    IsMipOf.find addr base layout idx = some r →
    ∃ j mi, r = idx + j ∧ layout[j]? = some mi ∧ u64 (base + mi.offset) = addr ∧
      ∀ i e, i < j → layout[i]? = some e → u64 (base + e.offset) ≠ addr := by
  intro layout
  induction layout with
  | nil => intro addr base idx r h; simp [IsMipOf.find] at h
  | cons hd rest ih =>
    intro addr base idx r h
    simp only [IsMipOf.find] at h
    split_ifs at h with heq
    · cases h
      refine ⟨0, hd, rfl, by simp, heq.symm, ?_⟩
      intro i e hi
      omega
    · obtain ⟨j, mi, hr, hj, hmi, hmin⟩ := ih addr base (idx + 1) r h
      refine ⟨j + 1, mi, by omega, by simpa using hj, hmi, ?_⟩
      intro i e hi hie
      cases i with
      | zero =>
        simp at hie
        subst hie
        exact fun hc => heq hc.symm
      | succ k =>
        simp at hie
        exact hmin k e (by omega) hie

/-- C21: when `A.IsMipOf(B)` returns a value other than `-1`, that value is an index `m`
with `1 ≤ m < |B.mips_layout|`; `m` is the smallest index whose mip starts at
`A.guest_address` (the sum `B.guest_address + offset` taken as the code forms it, in 64
bits); `A` has exactly one level; `A`'s width and height are `max(B.width >> m, 1)` and
`max(B.height >> m, 1)`; and either `B` is 3D, `A` is 2D and `A` has
`max(B.depth >> m, 1)` layers, or `A` and `B` have the same image type. -/
theorem IsMipOf_sound (IsCompatible : ImageInfo → ImageInfo → Bool)
    (IsTilingCompatible : Nat → Nat → Bool) (A B : ImageInfo) (r : Int)
    (h : IsMipOf IsCompatible IsTilingCompatible A B = .ok r) (hr : r ≠ -1) :
    ∃ (m : Nat) (mi : MipInfo), r = (m : Int) ∧ 1 ≤ m ∧ m < B.mips_layout.length ∧
      B.mips_layout[m]? = some mi ∧
      u64 (B.guest_address + mi.offset) = A.guest_address ∧
      (∀ i e, i < m → B.mips_layout[i]? = some e →
        u64 (B.guest_address + e.offset) ≠ A.guest_address) ∧
      A.resources.levels = 1 ∧
      A.size.width = max (B.size.width >>> m) 1 ∧
      A.size.height = max (B.size.height >>> m) 1 ∧
      ((B.type = .e3D ∧ A.type = .e2D ∧ A.resources.layers = max (B.size.depth >>> m) 1) ∨
        A.type = B.type) := by
  unfold IsMipOf at h
  by_cases h1 : (!IsCompatible A B) = true
  · rw [if_pos h1] at h; cases h; exact absurd rfl hr
  rw [if_neg h1] at h
  by_cases h2 : IsTilingCompatible B.tiling_idx A.tiling_idx = true
  · rw [if_pos h2] at h; cases h; exact absurd rfl hr
  rw [if_neg h2] at h
  by_cases h3 : A.resources.levels ≠ 1
  · rw [if_pos h3] at h; cases h; exact absurd rfl hr
  rw [if_neg h3] at h
  by_cases h4 : B.mips_layout.isEmpty = true
  · rw [if_pos h4] at h; cases h
  rw [if_neg h4] at h
  cases hfind : IsMipOf.find A.guest_address B.guest_address B.mips_layout 0 with
  | none => rw [hfind] at h; cases h; exact absurd rfl hr
  | some mip =>
    rw [hfind] at h
    obtain ⟨j, mi, hj, hmi, haddr, hmin⟩ := find_sound _ _ _ _ _ hfind
    simp only [Nat.zero_add] at hj
    subst hj
    have hlen : mip < B.mips_layout.length := by
      by_contra hc
      rw [List.getElem?_eq_none (by omega)] at hmi
      cases hmi
    dsimp only at h
    by_cases h5 : mip = 0
    · rw [if_pos h5] at h; cases h
    rw [if_neg h5] at h
    by_cases hshift : 32 ≤ mip
    · rw [if_pos hshift] at h; cases h
    rw [if_neg hshift] at h
    by_cases h6 : A.size.width ≠ max (B.size.width >>> mip) 1 ∨
        A.size.height ≠ max (B.size.height >>> mip) 1
    · rw [if_pos h6] at h; cases h; exact absurd rfl hr
    rw [if_neg h6] at h
    have hw : A.size.width = max (B.size.width >>> mip) 1 := by
      by_contra hc; exact h6 (Or.inl hc)
    have hh : A.size.height = max (B.size.height >>> mip) 1 := by
      by_contra hc; exact h6 (Or.inr hc)
    have hlv : A.resources.levels = 1 := by
      by_contra hc; exact h3 hc
    by_cases h7 : B.type = .e3D ∧ A.type = .e2D
    · rw [if_pos h7] at h
      by_cases h8 : A.resources.layers ≠ max (B.size.depth >>> mip) 1
      · rw [if_pos h8] at h; cases h; exact absurd rfl hr
      rw [if_neg h8] at h
      cases h
      have hl : A.resources.layers = max (B.size.depth >>> mip) 1 := by
        by_contra hc; exact h8 hc
      exact ⟨mip, mi, rfl, by omega, hlen, hmi, haddr, hmin, hlv, hw, hh,
        Or.inl ⟨h7.1, h7.2, hl⟩⟩
    · rw [if_neg h7] at h
      by_cases h9 : A.type ≠ B.type
      · rw [if_pos h9] at h; cases h; exact absurd rfl hr
      rw [if_neg h9] at h
      cases h
      have ht : A.type = B.type := by
        by_contra hc; exact h9 hc
      exact ⟨mip, mi, rfl, by omega, hlen, hmi, haddr, hmin, hlv, hw, hh, Or.inr ht⟩

theorem IsMipOf_sound_witness :
    IsMipOf (fun _ _ => true) (fun lhs rhs => decide (lhs = rhs)) (sampleView 16 16 20480)
      sampleMipped = .ok 2 ∧
    ∃ (m : Nat) (mi : MipInfo), (2 : Int) = (m : Int) ∧ 1 ≤ m ∧
      m < sampleMipped.mips_layout.length ∧
      sampleMipped.mips_layout[m]? = some mi ∧
      u64 (sampleMipped.guest_address + mi.offset) = (sampleView 16 16 20480).guest_address ∧
      (∀ i e, i < m → sampleMipped.mips_layout[i]? = some e →
        u64 (sampleMipped.guest_address + e.offset)
          ≠ (sampleView 16 16 20480).guest_address) ∧
      (sampleView 16 16 20480).resources.levels = 1 ∧
      (sampleView 16 16 20480).size.width = max (sampleMipped.size.width >>> m) 1 ∧
      (sampleView 16 16 20480).size.height = max (sampleMipped.size.height >>> m) 1 ∧
      ((sampleMipped.type = .e3D ∧ (sampleView 16 16 20480).type = .e2D ∧
          (sampleView 16 16 20480).resources.layers
            = max (sampleMipped.size.depth >>> m) 1) ∨
        (sampleView 16 16 20480).type = sampleMipped.type) :=
  ⟨by decide, IsMipOf_sound (fun _ _ => true) (fun lhs rhs => decide (lhs = rhs))
    (sampleView 16 16 20480) sampleMipped 2 (by decide) (by decide)⟩
/-! ### `is_pow2` on power-of-two extents -/

theorem bit_ceil32_pow2 (j : Nat) (hj : j ≤ 31) : bit_ceil32 (2 ^ j) = .ok (2 ^ j) := by
  interval_cases j <;> decide

theorem pow2_shift (a m : Nat) :
    2 ^ a >>> m = if m ≤ a then 2 ^ (a - m) else 0 := by
  rw [Nat.shiftRight_eq_div_pow]
  split_ifs with h
  · exact Nat.pow_div h (by decide)
  · exact Nat.div_eq_of_lt (Nat.pow_lt_pow_right (by decide) (by omega))

theorem pow2_quarter (k : Nat) (hk : k ≤ 31) :
    ∃ j, j ≤ 31 ∧ max (u32 (2 ^ k + 3) / 4) 1 = 2 ^ j := by
  by_cases h2 : 2 ≤ k
  · refine ⟨k - 2, by omega, ?_⟩
    have hsplit : 2 ^ k = 4 * 2 ^ (k - 2) := by
      rw [show (4 : Nat) = 2 ^ 2 from rfl, ← Nat.pow_add]
      congr 1
      omega
    have hpos : 1 ≤ 2 ^ (k - 2) := Nat.one_le_two_pow
    have hle : 2 ^ (k - 2) ≤ 2 ^ 29 := Nat.pow_le_pow_right (by decide) (by omega)
    have h29 : (2 : Nat) ^ 29 = 536870912 := by decide
    rw [hsplit]
    generalize 2 ^ (k - 2) = q at hpos hle
    unfold u32
    omega
  · refine ⟨0, by omega, ?_⟩
    have hk1 : k = 0 ∨ k = 1 := by omega
    rcases hk1 with rfl | rfl <;> decide

/-- The working width (or height) of a level, for a base extent `2 ^ a`, is a power of
two below `2 ^ 32`. -/
theorem pow2_work (a m : Nat) (ha : a ≤ 31) (blk : Bool) :
    ∃ j, j ≤ 31 ∧
      max (if blk = true then u32 (2 ^ a >>> m + 3) / 4 else 2 ^ a >>> m) 1 = 2 ^ j := by
  rw [pow2_shift]
  by_cases hm : m ≤ a
  · rw [if_pos hm]
    cases blk with
    | true =>
      simp only [if_true]
      exact pow2_quarter (a - m) (by omega)
    | false =>
      refine ⟨a - m, by omega, ?_⟩
      have hpos : 1 ≤ 2 ^ (a - m) := Nat.one_le_two_pow
      simp only [Bool.false_eq_true, if_false]
      exact Nat.max_eq_left hpos
  · rw [if_neg hm]
    refine ⟨0, by omega, ?_⟩
    cases blk <;> decide

theorem dims_pow2 (info : ImageInfo) (mip a b c : Nat) (ha : a ≤ 31) (hb : b ≤ 31)
    (hc : c ≤ 31) (hp : info.pitch = 2 ^ a) (hh : info.size.height = 2 ^ b)
    (hd : info.size.depth = 2 ^ c) :
    UpdateSize.dims { info with props := { info.props with is_pow2 := true } } mip
      = UpdateSize.dims { info with props := { info.props with is_pow2 := false } } mip := by
  obtain ⟨jw, hjw, hw⟩ := pow2_work a mip ha info.props.is_block
  obtain ⟨jh, hjh, hh2⟩ := pow2_work b mip hb info.props.is_block
  obtain ⟨jd, hjd, hd2⟩ := pow2_work c mip hc false
  simp only [Bool.false_eq_true, if_false] at hd2
  unfold UpdateSize.dims
  simp only [hp, hh, hd, hw, hh2, hd2, bit_ceil32_pow2 _ hjw, bit_ceil32_pow2 _ hjh,
    bit_ceil32_pow2 _ hjd, if_true, Bool.false_eq_true, if_false]

theorem loop_pow2 (info : ImageInfo) (a b c : Nat) (ha : a ≤ 31) (hb : b ≤ 31)
    (hc : c ≤ 31) (hp : info.pitch = 2 ^ a) (hh : info.size.height = 2 ^ b)
    (hd : info.size.depth = 2 ^ c) :
    ∀ (count mip : Nat) (st : LoopState),
      UpdateSize.loop { info with props := { info.props with is_pow2 := true } } count mip st
        = UpdateSize.loop { info with props := { info.props with is_pow2 := false } }
            count mip st := by
  intro count
  induction count with
  | zero => intro mip st; rfl
  | succ n ih =>
    intro mip st
    have hbody :
        UpdateSize.body { info with props := { info.props with is_pow2 := true } } mip st
          = UpdateSize.body { info with props := { info.props with is_pow2 := false } }
              mip st := by
      unfold UpdateSize.body
      rw [dims_pow2 info mip a b c ha hb hc hp hh hd]
      rfl
    simp only [UpdateSize.loop, hbody]
    cases UpdateSize.body { info with props := { info.props with is_pow2 := false } }
        mip st with
    | error e => rfl
    | ok st1 => exact ih (mip + 1) st1

/-- C25: for a descriptor whose base pitch, height and depth are powers of two (32-bit
values, so at most `2^31`), block-compressed or not and in any tiling mode, `UpdateSize`
with `is_pow2` set and `UpdateSize` with `is_pow2` clear, all other fields equal, end the
same way: both stop at the same fault, or both return, with the same `mips_layout` and
the same `guest_size`. -/
theorem is_pow2_no_effect (info : ImageInfo) (a b c : Nat) (ha : a ≤ 31) (hb : b ≤ 31)
    (hc : c ≤ 31) (hp : info.pitch = 2 ^ a) (hh : info.size.height = 2 ^ b)
    (hd : info.size.depth = 2 ^ c) :
    (UpdateSize { info with props := { info.props with is_pow2 := true } }).map
        (fun r => (r.mips_layout, r.guest_size))
      = (UpdateSize { info with props := { info.props with is_pow2 := false } }).map
        (fun r => (r.mips_layout, r.guest_size)) := by
  unfold UpdateSize
  simp only [loop_pow2 info a b c ha hb hc hp hh hd]
  cases UpdateSize.loop { info with props := { info.props with is_pow2 := false } }
      info.resources.levels 0 {} with
  | error e => rfl
  | ok st => rfl

theorem is_pow2_no_effect_witness :
    (sampleBlock 64 3).pitch = 2 ^ 6 ∧ (sampleBlock 64 3).size.height = 2 ^ 6 ∧
    (sampleBlock 64 3).size.depth = 2 ^ 0 ∧
    (UpdateSize { sampleBlock 64 3 with
        props := { (sampleBlock 64 3).props with is_pow2 := false } }).map
        (fun r => (r.mips_layout, r.guest_size))
      = .ok ([⟨2048, 64, 64, 0⟩, ⟨512, 32, 32, 2048⟩, ⟨512, 32, 32, 2560⟩], 3072) ∧
    (UpdateSize { sampleBlock 64 3 with
        props := { (sampleBlock 64 3).props with is_pow2 := true } }).map
        (fun r => (r.mips_layout, r.guest_size))
      = (UpdateSize { sampleBlock 64 3 with
          props := { (sampleBlock 64 3).props with is_pow2 := false } }).map
        (fun r => (r.mips_layout, r.guest_size)) :=
  ⟨by decide, by decide, by decide, by decide,
    is_pow2_no_effect (sampleBlock 64 3) 6 6 0 (by decide) (by decide) (by decide)
      (by decide) (by decide) (by decide)⟩
/-! ### The depth multiplier of a recorded mip -/

theorem neg32_pad (x : Nat) : neg32 x &&& 3 = (4 - x % 4) % 4 := by
  have h := Nat.and_pow_two_sub_one_eq_mod (neg32 x) 2
  have h3 : (2 : Nat) ^ 2 - 1 = 3 := rfl
  have h4 : (2 : Nat) ^ 2 = 4 := rfl
  rw [h3, h4] at h
  rw [h]
  unfold neg32
  omega

theorem dims_depth {info : ImageInfo} {mip : Nat} {dm : MipDims}
    (h : UpdateSize.dims info mip = .ok dm) :
    dm.mip_d = (if info.props.is_pow2 then bit_ceil (max (info.size.depth >>> mip) 1)
      else max (info.size.depth >>> mip) 1) := by
  unfold UpdateSize.dims at h
  dsimp only at h
  by_cases hlevel : 32 ≤ mip
  · rw [if_pos hlevel] at h
    cases h
  rw [if_neg hlevel] at h
  by_cases hp : info.props.is_pow2 = true
  · rw [if_pos hp] at h
    rw [if_pos hp]
    split at h
    · rename_i w hh d hw hh2 hd
      cases h
      unfold bit_ceil32 at hd
      split_ifs at hd
      cases hd
      rfl
    · cases h
  · rw [if_neg hp] at h
    rw [if_neg hp]
    cases h
    rfl

theorem dispatch_depth {info : ImageInfo} {mip : Nat} {prev mi : MipInfo} {dm : MipDims}
    {d : Nat} (hmode : info.tiling_mode ≠ .Texture_Volume)
    (h : UpdateSize.dispatch info mip prev dm = .ok (mi, d)) : d = dm.mip_d := by
  unfold UpdateSize.dispatch at h
  split at h
  · split at h
    · cases h
    · cases h; rfl
  · exact absurd (by assumption) hmode
  · rename_i hm
    rw [hm] at h
    simp only [reduceCtorEq, if_false] at h
    split at h
    · cases h
    · split_ifs at h <;> (cases h; rfl)
  all_goals first
    | cases h
    | (split_ifs at h
       split at h
       · cases h
       · cases h; rfl)

/-- C23 (counterexample): two single-level 32-bit volume textures.  For 8 x 8 with depth
`2^32 - 1` the micro-tiled byte size is 256 and the smallest multiple of 4 at or above the
depth is `2^32`, but the padded depth wraps to 0 in 32 bits and the recorded size is 0.
For 1024 x 1024 x 1024 the byte size is `2^22` and the padded depth is 1024; their
product `2^32` does not fit the size field and the recorded size is again 0. -/
theorem volume_size_wraps :
    UpdateSize.dims (sampleVolume 8 4294967295) 0 = .ok ⟨32, 8, 8, 4294967295⟩ ∧
    ImageSizeMicroTiled 8 8 32 1 = .ok (8, 256) ∧
    (4294967295 + 3) / 4 * 4 = 4294967296 ∧
    UpdateSize (sampleVolume 8 4294967295)
      = .ok { sampleVolume 8 4294967295 with mips_layout := [⟨0, 8, 8, 0⟩], guest_size := 0 } ∧
    (0 : Nat) ≠ 256 * 4294967296 ∧
    UpdateSize.dims (sampleVolume 1024 1024) 0 = .ok ⟨32, 1024, 1024, 1024⟩ ∧
    ImageSizeMicroTiled 1024 1024 32 1 = .ok (1024, 4194304) ∧
    (1024 + 3) / 4 * 4 = 1024 ∧
    UpdateSize (sampleVolume 1024 1024)
      = .ok { sampleVolume 1024 1024 with mips_layout := [⟨0, 1024, 1024, 0⟩],
                                          guest_size := 0 } ∧
    (0 : Nat) ≠ 4194304 * 1024 := by
  decide

/-- C23 (amended): for every level `i` that `UpdateSize` records, with working extents
`dm` (the depth `dm.mip_d` is `max(size.depth >> i, 1)`, rounded up to a power of two
when `is_pow2` is set).  Let `D` be the smallest multiple of 4 that is `≥ dm.mip_d`.  In
`Texture_Volume` mode the recorded size is the byte size `sz` returned by
`ImageSizeMicroTiled` for the working width and height times `D`, both taken in 32
bits, and equals `sz * D` whenever that product is below `2^32`.  In every other mode the
`switch` leaves the depth at `dm.mip_d` and the recorded size is the size it stored
times `dm.mip_d`, in 32 bits. -/
theorem volume_depth_multiplier (info info1 : ImageInfo) (i : Nat) (m : MipInfo)
    (h : UpdateSize info = .ok info1) (hm : info1.mips_layout[i]? = some m) :
    ∃ dm, UpdateSize.dims info i = .ok dm ∧
      dm.mip_d = (if info.props.is_pow2 then bit_ceil (max (info.size.depth >>> i) 1)
        else max (info.size.depth >>> i) 1) ∧
      ((dm.mip_d + 3) / 4 * 4) % 4 = 0 ∧ dm.mip_d ≤ (dm.mip_d + 3) / 4 * 4 ∧
      (∀ q, q % 4 = 0 → dm.mip_d ≤ q → (dm.mip_d + 3) / 4 * 4 ≤ q) ∧
      (info.tiling_mode = .Texture_Volume →
        ∃ p sz, ImageSizeMicroTiled dm.mip_w dm.mip_h dm.bpp info.num_samples = .ok (p, sz) ∧
          m.size = u32 (u32 sz * u32 ((dm.mip_d + 3) / 4 * 4)) ∧
          (sz * ((dm.mip_d + 3) / 4 * 4) < 4294967296 →
            m.size = sz * ((dm.mip_d + 3) / 4 * 4))) ∧
      (info.tiling_mode ≠ .Texture_Volume →
        ∃ prev mi, UpdateSize.dispatch info i prev dm = .ok (mi, dm.mip_d) ∧
          m.size = u32 (mi.size * dm.mip_d) ∧
          (mi.size * dm.mip_d < 4294967296 → m.size = mi.size * dm.mip_d)) := by
  obtain ⟨-, -, -, hrec⟩ := UpdateSize_recorded h
  obtain ⟨prev, dm, mi, d, hdims, hdisp, hsize, -, -⟩ := hrec i m hm
  refine ⟨dm, hdims, dims_depth hdims, by omega, by omega, fun q h4 hq => by omega, ?_, ?_⟩
  · intro hmode
    obtain ⟨p, sz, hsz, hmis, -, -, hd⟩ := dispatch_micro (Or.inr hmode) hdisp
    rw [if_pos hmode, neg32_pad] at hd
    have hD : dm.mip_d + (4 - dm.mip_d % 4) % 4 = (dm.mip_d + 3) / 4 * 4 := by omega
    rw [hD] at hd
    have hmod : m.size = u32 (u32 sz * u32 ((dm.mip_d + 3) / 4 * 4)) := by
      rw [hsize, hmis, hd]
    refine ⟨p, sz, hsz, hmod, ?_⟩
    intro hfit
    rw [hmod]
    generalize (dm.mip_d + 3) / 4 * 4 = D at hfit
    rcases Nat.eq_zero_or_pos D with hD0 | hDpos
    · subst hD0
      simp [u32]
    rcases Nat.eq_zero_or_pos sz with hs0 | hspos
    · subst hs0
      simp [u32]
    have h1 : sz ≤ sz * D := Nat.le_mul_of_pos_right sz hDpos
    have h2 : D ≤ sz * D := Nat.le_mul_of_pos_left D hspos
    unfold u32
    rw [Nat.mod_eq_of_lt (by omega : sz < 4294967296),
      Nat.mod_eq_of_lt (by omega : D < 4294967296), Nat.mod_eq_of_lt hfit]
  · intro hmode
    have hd := dispatch_depth hmode hdisp
    subst hd
    refine ⟨prev, mi, hdisp, hsize, ?_⟩
    intro hfit
    rw [hsize]
    exact Nat.mod_eq_of_lt hfit

theorem volume_depth_multiplier_witness :
    UpdateSize (sampleVolume 16 6)
      = .ok { sampleVolume 16 6 with mips_layout := [⟨8192, 16, 16, 0⟩],
                                     guest_size := 8192 } ∧
    ∃ dm, UpdateSize.dims (sampleVolume 16 6) 0 = .ok dm ∧
      dm.mip_d = (if (sampleVolume 16 6).props.is_pow2
        then bit_ceil (max ((sampleVolume 16 6).size.depth >>> 0) 1)
        else max ((sampleVolume 16 6).size.depth >>> 0) 1) ∧
      ((dm.mip_d + 3) / 4 * 4) % 4 = 0 ∧ dm.mip_d ≤ (dm.mip_d + 3) / 4 * 4 ∧
      (∀ q, q % 4 = 0 → dm.mip_d ≤ q → (dm.mip_d + 3) / 4 * 4 ≤ q) ∧
      ((sampleVolume 16 6).tiling_mode = .Texture_Volume →
        ∃ p sz, ImageSizeMicroTiled dm.mip_w dm.mip_h dm.bpp (sampleVolume 16 6).num_samples
            = .ok (p, sz) ∧
          (⟨8192, 16, 16, 0⟩ : MipInfo).size = u32 (u32 sz * u32 ((dm.mip_d + 3) / 4 * 4)) ∧
          (sz * ((dm.mip_d + 3) / 4 * 4) < 4294967296 →
            (⟨8192, 16, 16, 0⟩ : MipInfo).size = sz * ((dm.mip_d + 3) / 4 * 4))) ∧
      ((sampleVolume 16 6).tiling_mode ≠ .Texture_Volume →
        ∃ prev mi, UpdateSize.dispatch (sampleVolume 16 6) 0 prev dm = .ok (mi, dm.mip_d) ∧
          (⟨8192, 16, 16, 0⟩ : MipInfo).size = u32 (mi.size * dm.mip_d) ∧
          (mi.size * dm.mip_d < 4294967296 →
            (⟨8192, 16, 16, 0⟩ : MipInfo).size = mi.size * dm.mip_d)) :=
  ⟨by decide, volume_depth_multiplier (sampleVolume 16 6) _ 0 ⟨8192, 16, 16, 0⟩
    (by decide : UpdateSize (sampleVolume 16 6)
      = .ok { sampleVolume 16 6 with mips_layout := [⟨8192, 16, 16, 0⟩],
                                     guest_size := 8192 }) (by decide)⟩

end VideoCore
